import Mathlib

/-!
# Orca: container lifecycle and multiplexing engine

A shallow embedding of the code of the repository: the shutdown controller
(`jobcontroller/jobcontroller.go`), the scheduler (`orca/image.go`,
`orca/container.go`, `orca/containeruser.go`), the registries
(`orca/imagelist.go`, `orca/user.go`, `orca/mydocker/mydocker.go`), the trie of
the menu (`orca/search/trie.go`) and the session handler of `main.go`,
together with theorems about it.

Conventions of the embedding:

* a Go channel variable that is used only as a `select` guard is a `Bool`
  (`true` = non-nil, the case can fire; `false` = nil, the case never fires);
* a goroutine loop `for { ...; select { ... } }` is a step function taking the
  `select` case that fired as an event;
* Go `int` counters are `Int`.
-/

namespace Orca

/-! ## jobcontroller/jobcontroller.go -/

namespace jobcontroller

/-- The `ShutdownStatus` constants (`uint8`, declared with `iota`). -/
inductive ShutdownStatus where
  | Working
  | Requested
  | Demanded
  | Forced
  | Done
  deriving DecidableEq, Repr

/-- Numeric value of a status constant. -/
def ShutdownStatus.toNat : ShutdownStatus → Nat
  | .Working => 0
  | .Requested => 1
  | .Demanded => 2
  | .Forced => 3
  | .Done => 4

/-- State of a `ShutdownController`.

The two contexts form a chain `ctx ⊃ CleanupCtx ⊃ ShutdownCtx`
(`context.WithCancel`): a derived context is done as soon as its parent is
done or its own cancel function has been called. -/
structure ShutdownController where
  /-- Field `requestDeadline` (a `time.Duration`, `-1` = none). -/
  requestDeadline : Int
  /-- Field `requestDeadlineT`: `none` is nil, `some d` a timer made by `time.AfterFunc(d, sc.Demand)`. -/
  requestDeadlineT : Option Int
  /-- Field `demandDeadline` (a `time.Duration`, `-1` = none). -/
  demandDeadline : Int
  /-- Field `demandDeadlineT`: `none` is nil, `some d` a timer made by `time.AfterFunc(d, sc.Force)`. -/
  demandDeadlineT : Option Int
  status : ShutdownStatus
  /-- Whether `shutdownRequestC` has been closed. -/
  shutdownRequestClosed : Bool
  /-- Whether the context handed to `New` is done. -/
  parentCtxDone : Bool
  /-- Whether `closeCleanupCtx` has been called. -/
  closeCleanupCtxCalled : Bool
  /-- Whether `closeShutdownCtx` has been called. -/
  closeShutdownCtxCalled : Bool
  /-- Whether `shutdownDoneC` has been closed. -/
  shutdownDoneClosed : Bool
  /-- Counter of the wait group `wg`. -/
  wg : Int
  /-- Number of `shutdownWaiter` goroutines started so far. -/
  waitersStarted : Nat
  deriving DecidableEq, Repr

/-- Whether `sc.CleanupCtx` is done: `context.WithCancel(ctx)`. -/
def ShutdownController.CleanupCtxDone (sc : ShutdownController) : Bool :=
  sc.parentCtxDone || sc.closeCleanupCtxCalled

/-- Whether `sc.ShutdownCtx` is done: `context.WithCancel(sc.CleanupCtx)`. -/
def ShutdownController.ShutdownCtxDone (sc : ShutdownController) : Bool :=
  sc.CleanupCtxDone || sc.closeShutdownCtxCalled

/-- The options `RequestDeadline` and `DemandDeadline` of `New`. -/
inductive Option_ where
  | RequestDeadline (duration : Int)
  | DemandDeadline (duration : Int)
  deriving DecidableEq, Repr

/-- Applying one option to the controller under construction. -/
def Option_.run (sc : ShutdownController) : Option_ → ShutdownController
  | .RequestDeadline d => { sc with requestDeadline := d }
  | .DemandDeadline d => { sc with demandDeadline := d }

/-- The constructor `New(ctx, options...)`; `ctxDone` says whether `ctx` is already done. -/
def New (ctxDone : Bool) (options : List Option_) : ShutdownController :=
  options.foldl Option_.run
    { requestDeadline := -1
      requestDeadlineT := none
      demandDeadline := -1
      demandDeadlineT := none
      status := .Working
      shutdownRequestClosed := false
      parentCtxDone := ctxDone
      closeCleanupCtxCalled := false
      closeShutdownCtxCalled := false
      shutdownDoneClosed := false
      wg := 0
      waitersStarted := 0 }

/-- The statement `if sc.status == Working { go sc.shutdownWaiter() }`. -/
def startWaiterIfWorking (sc : ShutdownController) : ShutdownController :=
  if sc.status = .Working then { sc with waitersStarted := sc.waitersStarted + 1 } else sc

/-- The statement `if sc.requestDeadlineT != nil { sc.requestDeadlineT.Stop(); sc.requestDeadlineT = nil }`. -/
def stopRequestDeadlineT (sc : ShutdownController) : ShutdownController :=
  match sc.requestDeadlineT with
  | some _ => { sc with requestDeadlineT := none }
  | none => sc

/-- The statement `if sc.demandDeadlineT != nil { sc.demandDeadlineT.Stop(); sc.demandDeadlineT = nil }`. -/
def stopDemandDeadlineT (sc : ShutdownController) : ShutdownController :=
  match sc.demandDeadlineT with
  | some _ => { sc with demandDeadlineT := none }
  | none => sc

/-- The statement `if sc.requestDeadline != -1 { sc.requestDeadlineT = time.AfterFunc(sc.requestDeadline, sc.Demand) }`. -/
def armRequestDeadlineT (sc : ShutdownController) : ShutdownController :=
  if sc.requestDeadline ≠ -1 then { sc with requestDeadlineT := some sc.requestDeadline } else sc

/-- The statement `if sc.demandDeadline != -1 { sc.demandDeadlineT = time.AfterFunc(sc.demandDeadline, sc.Force) }`. -/
def armDemandDeadlineT (sc : ShutdownController) : ShutdownController :=
  if sc.demandDeadline ≠ -1 then { sc with demandDeadlineT := some sc.demandDeadline } else sc

/-- The method `Request`. The result is `none` when the call panics, which is
what `close(sc.shutdownRequestC)` does on a channel that is already closed. -/
def ShutdownController.Request (sc : ShutdownController) : Option ShutdownController :=
  if sc.status.toNat < ShutdownStatus.Requested.toNat then
    if (startWaiterIfWorking sc).shutdownRequestClosed then none
    else
      some (armRequestDeadlineT
        { startWaiterIfWorking sc with shutdownRequestClosed := true, status := .Requested })
  else some sc

/-- The method `Demand`. -/
def ShutdownController.Demand (sc : ShutdownController) : ShutdownController :=
  if sc.status.toNat < ShutdownStatus.Demanded.toNat then
    stopRequestDeadlineT (armDemandDeadlineT
      { startWaiterIfWorking sc with closeShutdownCtxCalled := true, status := .Demanded })
  else sc

/-- The method `Force`. -/
def ShutdownController.Force (sc : ShutdownController) : ShutdownController :=
  if sc.status.toNat < ShutdownStatus.Forced.toNat then
    stopRequestDeadlineT (stopDemandDeadlineT
      { startWaiterIfWorking sc with closeShutdownCtxCalled := true, status := .Forced })
  else sc

/-- The goroutine `shutdownWaiter`, run to completion. It can complete only
once `sc.wg.Wait()` returns, that is when the counter is zero (`none`
otherwise), and closing `shutdownDoneC` twice would panic (`none` as well). -/
def ShutdownController.shutdownWaiter (sc : ShutdownController) : Option ShutdownController :=
  if sc.wg ≠ 0 then none
  else if sc.shutdownDoneClosed then none
  else
    some (stopRequestDeadlineT (stopDemandDeadlineT
      { sc with shutdownDoneClosed := true, status := .Done }))

/-- The method `IsShuttingDown`. -/
def ShutdownController.IsShuttingDown (sc : ShutdownController) : Bool :=
  match sc.status with
  | .Working => false
  | .Done => false
  | _ => true

/-- The three transition calls. -/
inductive Call where
  | Request
  | Demand
  | Force
  deriving DecidableEq, Repr

/-- The status a call asks for. -/
def Call.target : Call → ShutdownStatus
  | .Request => .Requested
  | .Demand => .Demanded
  | .Force => .Forced

/-- Performing a call on the controller (`none` = the call panics). -/
def Call.perform (sc : ShutdownController) : Call → Option ShutdownController
  | .Request => sc.Request
  | .Demand => some sc.Demand
  | .Force => some sc.Force

/-- The channel `shutdownRequestC` is still open while the status is `Working`:
true of `New` and kept by every method. -/
def ShutdownController.requestSignalFresh (sc : ShutdownController) : Prop :=
  sc.status = .Working → sc.shutdownRequestClosed = false

instance (sc : ShutdownController) : Decidable sc.requestSignalFresh := by
  unfold ShutdownController.requestSignalFresh; infer_instance

end jobcontroller

/-! ## orca/image.go, orca/container.go: shared data -/

namespace orca

/-- A `*Container`, identified by a number standing for its `DockerID`. -/
abbrev ContainerRef := Nat

/-- A `*User`, identified by a number standing for its `ID`. -/
abbrev User := Nat

/-- Go `error` values: a value `errors.New(msg)` made while the program runs,
`errors.WithMessage(err, msg)`, the error of a done context (`jc.Err()`), errors
coming from the container runtime or another library, told apart by a number,
and the value of a package-level error variable such as `io.EOF`, which the
code compares by identity and which is therefore kept apart from every other
error, by its name. -/
inductive Error where
  | new (message : String)
  | withMessage (err : Error) (message : String)
  | ctxErr
  | runtime (code : Nat)
  | sentinel (name : String) (message : String)
  deriving DecidableEq, Repr

/-- The fields of `Image` the scheduler reads. -/
structure Image where
  Kind : String
  Name : String
  Port : Int
  ConcurrentUsers : Int
  TotalUsers : Int
  DockerID : String
  PersistBetweenReconnects : Bool
  TimeoutsTotal : Int
  TimeoutsInactive : Int
  deriving DecidableEq, Repr

/-- The struct `contatinerCandidate`. -/
structure contatinerCandidate where
  container : ContainerRef
  concurrentUsers : Int
  totalUsers : Int
  deriving DecidableEq, Repr

/-- A `*time.Timer` variable as the loops use it: `nil`; `pending`, created (or
reset) and its expiry not yet received from its channel; `consumed`, its expiry
has been received from its channel, so that `Stop()` returns false and a further
receive from the channel never returns. -/
inductive TimerState where
  | nil
  | pending
  | consumed
  deriving DecidableEq, Repr

/-! ## orca/image.go: `getContainer` -/

/-- The loop of `getContainer` lines 288-296, iterations `0 .. n-1`:
`best := 0; for n, candidate := range candidates { if candidate.concurrentUsers >
candidates[best].concurrentUsers { best = n } }`. An index is read with a
default that is never used, since `best` and `n` stay in range. -/
def bestUpTo (candidates : List contatinerCandidate) (n : Nat) : Nat :=
  (List.range n).foldl
    (fun best n =>
      if (candidates.getD n ⟨0, 0, 0⟩).concurrentUsers
          > (candidates.getD best ⟨0, 0, 0⟩).concurrentUsers then n else best)
    0

/-- The value of `best` when the loop over all candidates is over. -/
def bestIndex (candidates : List contatinerCandidate) : Nat :=
  bestUpTo candidates candidates.length

/-- The statements of lines 301-302: `candidates[best] = candidates[len(candidates)-1];
candidates = candidates[:len(candidates)-1]`. -/
def rejectList (candidates : List contatinerCandidate) (best : Nat) : List contatinerCandidate :=
  (candidates.set best (candidates.getD (candidates.length - 1) ⟨0, 0, 0⟩)).take
    (candidates.length - 1)

/-- Local variables of `getContainer`; a channel variable is `true` when it
is non-nil and can still deliver. `launchCalls` counts the calls of
`launchContainer` made so far. -/
structure GetContainerState where
  electionRequestC : Bool
  candidatesC : Bool
  electionDeadline : Bool
  requestTimerC : Bool
  attamptsRemainings : Int
  candidates : List contatinerCandidate
  launchCalls : Nat
  deriving DecidableEq, Repr

/-- What `getContainer` returns, with the candidates handed to the rejecting
goroutine and the number of `launchContainer` calls made. -/
structure GetContainerReturn where
  oc : Option ContainerRef
  err : Option Error
  rejected : List contatinerCandidate
  launchCalls : Nat
  deriving DecidableEq, Repr

/-- The `select` cases of `getContainer`. -/
inductive GetContainerEvent where
  /-- The case `electionRequestC <- candidatesC`. -/
  | electionRequestSent
  /-- The case `candidate := <-candidatesC`. -/
  | gotCandidate (candidate : contatinerCandidate)
  /-- The case `<-electionDeadline`, including the send on `electionStopC`. -/
  | electionDeadlineFired
  /-- The case `<-requestTimerC`; `launched` is what `launchContainer` returns. -/
  | requestTimerFired (launched : Except Error ContainerRef)
  /-- The case `<-jc.Done()`. -/
  | ctxDone

/-- The function after one more `select`: still in the loop, or returned. -/
inductive GetContainerStep where
  | running (s : GetContainerState)
  | returned (r : GetContainerReturn)

/-- State of `getContainer` when it enters its loop. -/
def getContainerInit : GetContainerState :=
  { electionRequestC := true
    candidatesC := true
    electionDeadline := false
    requestTimerC := false
    attamptsRemainings := 5
    candidates := []
    launchCalls := 0 }

/-- One `select` of `getContainer` (lines 272-342); `none` when the case of
the event cannot fire in this state. -/
def getContainerSelect (s : GetContainerState) : GetContainerEvent → Option GetContainerStep
  | .electionRequestSent =>
    if s.electionRequestC then
      some (.running { s with electionDeadline := true, electionRequestC := false })
    else none
  | .gotCandidate candidate =>
    if s.candidatesC then
      some (.running { s with candidates := s.candidates ++ [candidate] })
    else none
  | .electionDeadlineFired =>
    if s.electionDeadline then
      if s.candidates.length > 0 then
        let best := bestIndex s.candidates
        some (.returned
          { oc := some (s.candidates.getD best ⟨0, 0, 0⟩).container
            err := none
            rejected := if s.candidates.length > 1 then rejectList s.candidates best else []
            launchCalls := s.launchCalls })
      else
        some (.running { s with candidatesC := false, electionDeadline := false,
                                requestTimerC := true })
    else none
  | .requestTimerFired launched =>
    if s.requestTimerC then
      match launched with
      | .ok oc =>
        some (.returned
          { oc := some oc, err := none, rejected := [], launchCalls := s.launchCalls + 1 })
      | .error err =>
        if s.attamptsRemainings - 1 > 0 then
          some (.running { s with attamptsRemainings := s.attamptsRemainings - 1,
                                  launchCalls := s.launchCalls + 1 })
        else
          some (.returned
            { oc := none, err := some (.withMessage err "retry exceeded"), rejected := [],
              launchCalls := s.launchCalls + 1 })
    else none
  | .ctxDone =>
    some (.returned
      { oc := none, err := some .ctxErr, rejected := [], launchCalls := s.launchCalls })

/-- Running `getContainer` along a sequence of fired cases; `none` when one
of them cannot fire, and also when an event is left after the function returned. -/
def getContainerRun : GetContainerStep → List GetContainerEvent → Option GetContainerStep
  | st, [] => some st
  | .returned _, _ :: _ => none
  | .running s, ev :: evs =>
    match getContainerSelect s ev with
    | none => none
    | some st => getContainerRun st evs

/-- The number of `launchContainer` calls made so far. -/
def GetContainerStep.launchCalls : GetContainerStep → Nat
  | .running s => s.launchCalls
  | .returned r => r.launchCalls

/-! ## orca/container.go: `launchContainer`, `manageContainerState` -/

/-- The struct `Container`; `users` holds the keys of the map `users`. -/
structure Container where
  DockerID : ContainerRef
  Image : Image
  concurrentUsers : Int
  totalUsers : Int
  reservedUsers : Int
  users : List User
  deriving DecidableEq, Repr

/-- The container `launchContainer` builds when the runtime calls succeed:
all counters zero except `reservedUsers = 1` (lines 85-114). -/
def launchContainer (oi : Image) (dockerId : ContainerRef) : Container :=
  { DockerID := dockerId
    Image := oi
    concurrentUsers := 0
    totalUsers := 0
    reservedUsers := 1
    users := [] }

/-- The container together with the local variables of `manageContainerState`.
`deletionTimerC` is non-nil exactly when `deletionTimer` is. The variables
`electionsStartSignalC` and `getCandidatesChan` are nil or the image's channel
(`true`); `electionStartSignal` and `candidatesChannel` are nil (`none`) or hold
a channel made elsewhere, told apart by a number. -/
structure LifecycleState where
  oc : Container
  deletionTimer : TimerState
  isEndOfLife : Bool
  candidate : contatinerCandidate
  electionsStartSignalC : Bool
  electionStartSignal : Option Nat
  candidatesChannel : Option Nat
  getCandidatesChan : Bool
  deriving DecidableEq, Repr

/-- State of `manageContainerState` when it enters its loop (lines 146-158). -/
def manageContainerStateInit (oc : Container) : LifecycleState :=
  { oc := oc
    deletionTimer := .nil
    isEndOfLife := false
    candidate := { container := oc.DockerID, concurrentUsers := 0, totalUsers := 0 }
    electionsStartSignalC := true
    electionStartSignal := none
    candidatesChannel := none
    getCandidatesChan := false }

/-- The lifecycle goroutine: at the top of its loop, returned (the container
is then removed), or stuck for ever in `<-deletionTimer.C` (line 175). -/
inductive Lifecycle where
  | running (s : LifecycleState)
  | returned (s : LifecycleState)
  | stuck (s : LifecycleState)
  deriving DecidableEq, Repr

/-- The `select` cases of `manageContainerState`. -/
inductive LifecycleEvent where
  /-- The case `electionStartSignal = <-electionsStartSignalC`, receiving `signal`. -/
  | gotElectionStartSignal (signal : Nat)
  /-- The case `<-electionStartSignal` (the signal held has been closed). -/
  | electionStartSignalActivated
  /-- The case `candidatesChannel = <-getCandidatesChan`, receiving `candidatesC`. -/
  | gotCandidatesChannel (candidatesC : Nat)
  /-- The case `candidatesChannel <- candidate`. -/
  | sentCandidate
  /-- The case `ui := <-oc.candidacyResponce`; `none` is a nil user. -/
  | candidacyResponce (ui : Option User)
  /-- The case `ui := <-oc.userLeft`. -/
  | userLeft (ui : User)
  /-- The case `<-jc.Done()`. -/
  | ctxDone
  /-- The case `<-deletionTimerC`. -/
  | deletionTimerFired
  deriving DecidableEq, Repr

/-- The statements before the `select` (lines 161-181); `IsShuttingDown` is
what `jc.IsShuttingDown()` answers. -/
def manageContainerStateTop (IsShuttingDown : Bool) (s0 : LifecycleState) : Lifecycle :=
  let s := { s0 with
    isEndOfLife := s0.isEndOfLife || decide (s0.oc.totalUsers = s0.oc.Image.TotalUsers) }
  if s.oc.concurrentUsers = 0 ∧ s.oc.reservedUsers = 0 then
    if s.isEndOfLife || IsShuttingDown then .returned s
    else
      match s.deletionTimer with
      | .nil => .running { s with deletionTimer := .pending }
      | _ => .running s
  else
    if s.oc.concurrentUsers ≠ 0 then
      match s.deletionTimer with
      | .nil => .running s
      | .pending => .running { s with deletionTimer := .nil }
      | .consumed => .stuck s
    else .running s

/-- The `select` (lines 186-236); `none` when the case of the event cannot
fire in this state (its channel variable is nil, or the timer is not pending).
Whether the peer of a channel is ready is not decided here: it is the business
of whoever produces the events. -/
def manageContainerStateSelect (s : LifecycleState) : LifecycleEvent → Option Lifecycle
  | .gotElectionStartSignal signal =>
    if s.electionsStartSignalC then
      some (.running { s with electionStartSignal := some signal, electionsStartSignalC := false })
    else none
  | .electionStartSignalActivated =>
    if s.electionStartSignal.isSome then
      let s1 := { s with electionStartSignal := none, electionsStartSignalC := true }
      if !s1.isEndOfLife ∧
          s1.oc.reservedUsers + s1.oc.concurrentUsers ≠ s1.oc.Image.ConcurrentUsers then
        some (.running { s1 with getCandidatesChan := true })
      else some (.running s1)
    else none
  | .gotCandidatesChannel candidatesC =>
    if s.getCandidatesChan then
      some (.running { s with candidatesChannel := some candidatesC, getCandidatesChan := false })
    else none
  | .sentCandidate =>
    if s.candidatesChannel.isSome then
      some (.running { s with
        candidatesChannel := none
        oc := { s.oc with reservedUsers := s.oc.reservedUsers + 1 } })
    else none
  | .candidacyResponce ui =>
    let oc1 := { s.oc with reservedUsers := s.oc.reservedUsers - 1 }
    match ui with
    | some u =>
      let oc2 := { oc1 with
        concurrentUsers := oc1.concurrentUsers + 1
        totalUsers := oc1.totalUsers + 1 }
      some (.running { s with
        oc := { oc2 with users := oc2.users.insert u }
        candidate := { s.candidate with
          concurrentUsers := oc2.concurrentUsers
          totalUsers := oc2.totalUsers } })
    | none => some (.running { s with oc := oc1 })
  | .userLeft ui =>
    some (.running { s with
      oc := { s.oc with
        concurrentUsers := s.oc.concurrentUsers - 1
        users := s.oc.users.erase ui } })
  | .ctxDone => some (.returned s)
  | .deletionTimerFired =>
    match s.deletionTimer with
    | .pending => some (.running { s with isEndOfLife := true, deletionTimer := .consumed })
    | _ => none

/-- One iteration of the loop of `manageContainerState`: the statements before
the `select`, then the case that fires. -/
def manageContainerStateIteration (IsShuttingDown : Bool) (ev : LifecycleEvent) (s : LifecycleState) :
    Option Lifecycle :=
  match manageContainerStateTop IsShuttingDown s with
  | .running s1 => manageContainerStateSelect s1 ev
  | stopped => some stopped

/-- Running the loop along a sequence of iterations, each given by the answer
of `jc.IsShuttingDown()` and the case that fires; `none` when a case cannot
fire, or an iteration is left after the loop stopped. -/
def manageContainerStateRun : Lifecycle → List (Bool × LifecycleEvent) → Option Lifecycle
  | st, [] => some st
  | .running s, (sd, ev) :: rest =>
    match manageContainerStateIteration sd ev s with
    | none => none
    | some st => manageContainerStateRun st rest
  | _, _ :: _ => none

/-- The container and loop variables of a lifecycle, wherever it stands. -/
def Lifecycle.state : Lifecycle → LifecycleState
  | .running s => s
  | .returned s => s
  | .stuck s => s

end orca

namespace orca

/-- Invariant of `getContainer`: inside the loop the attempts made and the
attempts remaining add up to 5 with at least one remaining; after the return
at most 5 attempts were made. -/
def retryInvariant : GetContainerStep → Prop
  | .running s => (s.launchCalls : Int) + s.attamptsRemainings = 5 ∧ 0 < s.attamptsRemainings
  | .returned r => r.launchCalls ≤ 5

end orca

namespace orca

/-! ## orca/image.go: `manageImageState`, and the scheduler, one container and
the latest `getContainer` call put together -/

/-- Local variables of `manageImageState`. The signal channels it makes are
numbered in the order of their creation: `nextElectionSignallingC` is the
number of the one handed out now, and since each one is closed at the moment
the next is made, the closed ones are exactly those with a smaller number.
`curElectionCandidatesC` is nil (`none`) or a requester's channel. -/
structure SchedulerState where
  nextElectionSignallingC : Nat
  curElectionCandidatesC : Option Nat
  getCandidatesChan : Bool
  electionRequestChan : Bool
  voteStop : Bool
  deriving DecidableEq, Repr

/-- The `select` cases of `manageImageState`. -/
inductive SchedulerEvent where
  /-- The case `oi.getElectionStartSignalC <- nextElectionSignallingC`. -/
  | sentElectionStartSignal
  /-- The case `curElectionCandidatesC = <-electionRequestChan`. -/
  | gotElectionRequest (candidatesC : Nat)
  /-- The case `getCandidatesChan <- curElectionCandidatesC`. -/
  | sentCandidatesChan
  /-- The case `<-voteStop`. -/
  | voteStopped
  deriving DecidableEq, Repr

/-- State of `manageImageState` when it enters its loop (lines 207-211). -/
def manageImageStateInit : SchedulerState :=
  { nextElectionSignallingC := 0
    curElectionCandidatesC := none
    getCandidatesChan := false
    electionRequestChan := true
    voteStop := false }

/-- One `select` of `manageImageState` (lines 214-249) while its context is
live; `none` when the case of the event cannot fire in this state. -/
def manageImageStateSelect (s : SchedulerState) : SchedulerEvent → Option SchedulerState
  | .sentElectionStartSignal => some s
  | .gotElectionRequest candidatesC =>
    if s.electionRequestChan then
      some { curElectionCandidatesC := some candidatesC
             electionRequestChan := false
             getCandidatesChan := true
             nextElectionSignallingC := s.nextElectionSignallingC + 1
             voteStop := true }
    else none
  | .sentCandidatesChan => if s.getCandidatesChan then some s else none
  | .voteStopped =>
    if s.voteStop then
      some { s with
        voteStop := false
        electionRequestChan := true
        getCandidatesChan := false
        curElectionCandidatesC := none }
    else none

/-- The scheduler of an image, one container of the image, and the
`getContainer` call that asked for the latest election, whose `candidatesC` is
the channel number `requesterChan`. -/
structure System where
  scheduler : SchedulerState
  container : LifecycleState
  requester : GetContainerStep
  requesterChan : Nat

/-- The rendezvous that can happen between the three parties, and the events
that reach the container from its users. -/
inductive SystemEvent where
  /-- The container receives the pending election-start signal from the scheduler. -/
  | signalHandout
  /-- The requester's election request is accepted by the scheduler. -/
  | electionRequest
  /-- The container finds the signal it holds closed. -/
  | signalSeen
  /-- The container receives the open election's candidates channel from the scheduler. -/
  | candidatesHandout
  /-- The container's candidacy is received by the requester. -/
  | candidacy
  /-- The requester's election deadline fires and it stops the election. -/
  | deadline
  /-- A further `getContainer` call begins, the election of the previous one being over. -/
  | nextRequester
  /-- A `ContainerUser` or a requester answers a reservation of the container. -/
  | response (ui : Option User)
  /-- A `ContainerUser` bound to the container leaves. -/
  | userLeft (ui : User)
  /-- The idle-deletion timer of the container fires. -/
  | deletionTimer
  deriving DecidableEq, Repr

/-- An iteration of the container's loop that leaves it in the loop, the
server not shutting down. -/
def containerIteration (ev : LifecycleEvent) (s : LifecycleState) : Option LifecycleState :=
  match manageContainerStateIteration false ev s with
  | some (.running s1) => some s1
  | _ => none

/-- Whether the election of a `getContainer` call is over (or never asked for):
it neither waits for its request to be taken nor for its deadline. -/
def electionOver : GetContainerStep → Bool
  | .returned _ => true
  | .running r => !r.electionRequestC && !r.electionDeadline

/-- One step of the system; `none` when the event cannot happen: a rendezvous
needs both parties ready on the same channel, a signal is seen only once it is
closed, a reservation is answered only while one is outstanding, and a user
leaves only while one is bound. -/
def systemStep (sys : System) : SystemEvent → Option System
  | .signalHandout =>
    match manageImageStateSelect sys.scheduler .sentElectionStartSignal,
        containerIteration (.gotElectionStartSignal sys.scheduler.nextElectionSignallingC)
          sys.container with
    | some sch, some c => some { sys with scheduler := sch, container := c }
    | _, _ => none
  | .electionRequest =>
    match sys.requester with
    | .running r =>
      match getContainerSelect r .electionRequestSent,
          manageImageStateSelect sys.scheduler (.gotElectionRequest sys.requesterChan) with
      | some rq, some sch => some { sys with scheduler := sch, requester := rq }
      | _, _ => none
    | .returned _ => none
  | .signalSeen =>
    match sys.container.electionStartSignal with
    | some signal =>
      if signal < sys.scheduler.nextElectionSignallingC then
        match containerIteration .electionStartSignalActivated sys.container with
        | some c => some { sys with container := c }
        | none => none
      else none
    | none => none
  | .candidatesHandout =>
    match sys.scheduler.curElectionCandidatesC with
    | some candidatesC =>
      match manageImageStateSelect sys.scheduler .sentCandidatesChan,
          containerIteration (.gotCandidatesChannel candidatesC) sys.container with
      | some sch, some c => some { sys with scheduler := sch, container := c }
      | _, _ => none
    | none => none
  | .candidacy =>
    match sys.requester with
    | .running r =>
      if sys.container.candidatesChannel = some sys.requesterChan then
        match containerIteration .sentCandidate sys.container,
            getContainerSelect r (.gotCandidate sys.container.candidate) with
        | some c, some rq => some { sys with container := c, requester := rq }
        | _, _ => none
      else none
    | .returned _ => none
  | .deadline =>
    match sys.requester with
    | .running r =>
      match getContainerSelect r .electionDeadlineFired,
          manageImageStateSelect sys.scheduler .voteStopped with
      | some rq, some sch => some { sys with scheduler := sch, requester := rq }
      | _, _ => none
    | .returned _ => none
  | .nextRequester =>
    if electionOver sys.requester then
      some { sys with
        requester := .running getContainerInit
        requesterChan := sys.requesterChan + 1 }
    else none
  | .response ui =>
    if 0 < sys.container.oc.reservedUsers then
      match containerIteration (.candidacyResponce ui) sys.container with
      | some c => some { sys with container := c }
      | none => none
    else none
  | .userLeft ui =>
    if ui ∈ sys.container.oc.users then
      match containerIteration (.userLeft ui) sys.container with
      | some c => some { sys with container := c }
      | none => none
    else none
  | .deletionTimer =>
    match containerIteration .deletionTimerFired sys.container with
    | some c => some { sys with container := c }
    | none => none

/-- Running the system along a sequence of events; `none` when one of them
cannot happen. -/
def systemRun : System → List SystemEvent → Option System
  | sys, [] => some sys
  | sys, ev :: evs =>
    match systemStep sys ev with
    | none => none
    | some sys1 => systemRun sys1 evs

/-- The system right after `launchContainer` made a container of image `oi`:
the scheduler as it starts, the container entering its loop with the one
reservation of its creator, and a `getContainer` call about to ask for an
election. -/
def systemInit (oi : Image) (dockerId : ContainerRef) : System :=
  { scheduler := manageImageStateInit
    container := manageContainerStateInit (launchContainer oi dockerId)
    requester := .running getContainerInit
    requesterChan := 0 }

end orca

namespace orca

/-- A web image with the given bounds on concurrent and total users per
container (`-1` = unbounded), used for concrete runs. -/
def webImage (concurrentUsers totalUsers : Int) : Image :=
  { Kind := "web"
    Name := "task"
    Port := 80
    ConcurrentUsers := concurrentUsers
    TotalUsers := totalUsers
    DockerID := "sha256:0123456789abcdef"
    PersistBetweenReconnects := true
    TimeoutsTotal := 86400000000000
    TimeoutsInactive := 900000000000 }

end orca

namespace orca

/-! ## orca/containeruser.go: `manageContainerUserState` -/

/-- The `ContainerState` constants (`uint8`, declared with `iota`). -/
inductive ContainerState where
  | ContainerStateDead
  | ContainerStateStarting
  | ContainerStateWorking
  | ContainerStateStartErr
  | ContainerStateShutdown
  | ContainerStateShutdownInactivity
  | ContainerStateShutdownSessionLen
  | ContainerStateShutdownWithErr
  | ContainerStateShutdownWithErrMsg
  deriving DecidableEq, Repr

/-- The struct `ContainerStatus`; `Err = none` is a nil error. -/
structure ContainerStatus where
  ContainerState : ContainerState
  Err : Option Error
  Status : Int
  deriving DecidableEq, Repr

/-- The variable `InactivityTimeoutErr`. -/
def InactivityTimeoutErr : Error :=
  .sentinel "orca.InactivityTimeoutErr" "Inactivity Timeout Expired"

/-- The variable `SessionTimeoutErr`. -/
def SessionTimeoutErr : Error :=
  .sentinel "orca.SessionTimeoutErr" "Total Timeout Expired"

/-- The runtime's `container.ContainerWaitOKBody`: `Error` is nil (`none`) or
points to a struct whose `Message` is the string. -/
structure ContainerWaitOKBody where
  Error : Option String
  StatusCode : Int
  deriving DecidableEq, Repr

/-- The fields of `ContainerUser` that its goroutine changes, the local
variables of `manageContainerUserState` (a channel variable is `true` when it
is non-nil), and three counters of what the loop has set off so far: the
goroutines `deleteContainerUser` started, the times the user was offered on the
container's `candidacyResponce`, and the deferred `userLeft` sends registered. -/
structure ContainerUserLoop where
  user : User
  image : Image
  container : Option ContainerRef
  status : ContainerStatus
  connectionCount : Int
  containerDest : Bool
  containerShutdownDest : Bool
  containerAliveDest : Bool
  execResultSourceC : Bool
  execErrorSourceC : Bool
  noMoreConnections : Bool
  lastState : ContainerState
  containerSourceC : Bool
  containerSourceErrC : Bool
  sessionTimer : TimerState
  inactiveTimer : TimerState
  deleteContainerUserStarted : Nat
  candidacyResponceOffered : Nat
  userLeftDeferred : Nat
  deriving DecidableEq, Repr

/-- State of `manageContainerUserState` when it enters its loop, for the
`ContainerUser` that `newContainerUser` makes (lines 116-130). -/
def manageContainerUserStateInit (ui : User) (image : Image) : ContainerUserLoop :=
  { user := ui
    image := image
    container := none
    status := { ContainerState := .ContainerStateStarting, Err := none, Status := 0 }
    connectionCount := 0
    containerDest := false
    containerShutdownDest := false
    containerAliveDest := false
    execResultSourceC := false
    execErrorSourceC := false
    noMoreConnections := !image.PersistBetweenReconnects
    lastState := .ContainerStateDead
    containerSourceC := true
    containerSourceErrC := true
    sessionTimer := .pending
    inactiveTimer := .pending
    deleteContainerUserStarted := 0
    candidacyResponceOffered := 0
    userLeftDeferred := 0 }

/-- The `select` cases of `manageContainerUserState`. -/
inductive ContainerUserEvent where
  /-- The case `cu.statusC <- cu.status`. -/
  | statusSent
  /-- The case `containerDest <- cu.container` (a `GetContainer` call is served). -/
  | containerSent
  /-- The case `cu.connectionDroppedNotification <- struct{}{}` (`NotifyConnectionClosed`). -/
  | connectionDropped
  /-- The case `containerAliveDest <- struct{}{}`. -/
  | aliveSent
  /-- The case `containerShutdownDest <- cu.status`. -/
  | shutdownStatusSent
  /-- The case `cu.container = <-containerSourceC`. -/
  | gotContainer (oc : ContainerRef)
  /-- The case `cu.status.Err = <-containerSourceErrC`. -/
  | gotStartErr (err : Error)
  /-- The case `cu.status.Err = <-execErrorSourceC`. -/
  | gotExecError (err : Error)
  /-- The case `<-sessionTimer.C`. -/
  | sessionTimerFired
  /-- The case `<-inactiveTimer.C`. -/
  | inactiveTimerFired
  /-- The case `st := <-execResultSourceC`. -/
  | gotExecResult (st : ContainerWaitOKBody)
  /-- The case `cu.activityNotification <- struct{}{}` (`Activity`). -/
  | activitySent
  /-- The case `cu.noMoreConnectionsNotification <- struct{}{}` (`notifyDeleted`). -/
  | noMoreConnectionsSent
  /-- The case `<-jc.Done()`. -/
  | ctxDone
  deriving DecidableEq, Repr

/-- The goroutine of a `ContainerUser`: at the top of its loop, returned, or
stuck for ever in `<-inactiveTimer.C` (line 226). -/
inductive ContainerUserRun where
  | running (s : ContainerUserLoop)
  | returned (s : ContainerUserLoop)
  | stuck (s : ContainerUserLoop)
  deriving DecidableEq, Repr

/-- The fields and loop variables of a `ContainerUser` goroutine, wherever it stands. -/
def ContainerUserRun.state : ContainerUserRun → ContainerUserLoop
  | .running s => s
  | .returned s => s
  | .stuck s => s

/-- The statements before the `select` (lines 133-176). -/
def manageContainerUserStateTop (s : ContainerUserLoop) : ContainerUserLoop :=
  if s.lastState ≠ s.status.ContainerState then
    let s1 :=
      if s.lastState = .ContainerStateStarting then
        { s with containerSourceC := false, containerSourceErrC := false }
      else s
    let s2 :=
      match s1.status.ContainerState with
      | .ContainerStateStarting | .ContainerStateWorking =>
        { s1 with containerAliveDest := true, containerShutdownDest := false }
      | _ =>
        { s1 with
          containerAliveDest := false
          containerShutdownDest := true
          deleteContainerUserStarted := s1.deleteContainerUserStarted + 1 }
    let s3 :=
      if s2.status.ContainerState = .ContainerStateWorking then
        { s2 with
          containerDest := true
          execResultSourceC := true
          execErrorSourceC := true
          candidacyResponceOffered := s2.candidacyResponceOffered + 1
          userLeftDeferred := s2.userLeftDeferred + 1 }
      else
        { s2 with containerDest := false, execResultSourceC := false, execErrorSourceC := false }
    { s3 with lastState := s3.status.ContainerState }
  else s

/-- The `select` (lines 178-239); `none` when the case of the event cannot
fire in this state (its channel variable is nil, or the timer is not pending). -/
def manageContainerUserStateSelect (s : ContainerUserLoop) : ContainerUserEvent → Option ContainerUserRun
  | .statusSent => some (.running s)
  | .containerSent =>
    if s.containerDest then
      some (.running { s with connectionCount := s.connectionCount + 1 })
    else none
  | .connectionDropped =>
    let s1 := { s with connectionCount := s.connectionCount - 1 }
    if s1.connectionCount = 0 ∧ s1.noMoreConnections = true then some (.returned s1)
    else some (.running s1)
  | .aliveSent => if s.containerAliveDest then some (.running s) else none
  | .shutdownStatusSent => if s.containerShutdownDest then some (.running s) else none
  | .gotContainer oc =>
    if s.containerSourceC then
      some (.running { s with
        container := some oc
        status := { s.status with ContainerState := .ContainerStateWorking } })
    else none
  | .gotStartErr err =>
    if s.containerSourceErrC then
      some (.running { s with
        status := { s.status with Err := some err, ContainerState := .ContainerStateStartErr } })
    else none
  | .gotExecError err =>
    if s.execErrorSourceC then
      some (.running { s with
        status := { s.status with
          Err := some err, ContainerState := .ContainerStateShutdownWithErr } })
    else none
  | .sessionTimerFired =>
    match s.sessionTimer with
    | .pending =>
      some (.running { s with
        sessionTimer := .consumed
        status := { s.status with
          ContainerState := .ContainerStateShutdownSessionLen, Err := some SessionTimeoutErr } })
    | _ => none
  | .inactiveTimerFired =>
    match s.inactiveTimer with
    | .pending =>
      some (.running { s with
        inactiveTimer := .consumed
        status := { s.status with
          ContainerState := .ContainerStateShutdownInactivity
          Err := some InactivityTimeoutErr } })
    | _ => none
  | .gotExecResult st =>
    if s.execResultSourceC then
      let status1 := { s.status with Status := st.StatusCode }
      match st.Error with
      | some message =>
        if message ≠ "" then
          some (.running { s with
            status := { status1 with
              ContainerState := .ContainerStateShutdownWithErrMsg
              Err := some (.new message) } })
        else
          some (.running { s with
            status := { status1 with ContainerState := .ContainerStateShutdown } })
      | none =>
        some (.running { s with
          status := { status1 with ContainerState := .ContainerStateShutdown } })
    else none
  | .activitySent =>
    match s.inactiveTimer with
    | .consumed => some (.stuck s)
    | _ => some (.running { s with inactiveTimer := .pending })
  | .noMoreConnectionsSent =>
    let s1 := { s with noMoreConnections := true }
    if s1.connectionCount = 0 then some (.returned s1) else some (.running s1)
  | .ctxDone => some (.returned s)

/-- One iteration of the loop of `manageContainerUserState`. -/
def manageContainerUserStateIteration (ev : ContainerUserEvent) (s : ContainerUserLoop) :
    Option ContainerUserRun :=
  manageContainerUserStateSelect (manageContainerUserStateTop s) ev

/-- Running the loop along a sequence of fired cases; `none` when one of
them cannot fire, or an event is left after the loop stopped. -/
def manageContainerUserStateRun : ContainerUserRun → List ContainerUserEvent → Option ContainerUserRun
  | st, [] => some st
  | .running s, ev :: rest =>
    match manageContainerUserStateIteration ev s with
    | none => none
    | some st => manageContainerUserStateRun st rest
  | _, _ :: _ => none

/-- The terminal states: `StartErr` and the `Shutdown*` states. -/
def ContainerState.isTerminal : ContainerState → Bool
  | .ContainerStateStartErr => true
  | .ContainerStateShutdown => true
  | .ContainerStateShutdownInactivity => true
  | .ContainerStateShutdownSessionLen => true
  | .ContainerStateShutdownWithErr => true
  | .ContainerStateShutdownWithErrMsg => true
  | _ => false

/-- Invariant of the loop of `manageContainerUserState`: while the channel
`containerSourceC` is still listened to, the state recorded by the last pass
through the top of the loop is `Starting`, or no pass happened yet and the state
is `Starting`. -/
def sourceOnlyWhileStarting (s : ContainerUserLoop) : Prop :=
  s.containerSourceC = true →
    s.lastState = .ContainerStateStarting ∨
    (s.lastState = .ContainerStateDead ∧ s.status.ContainerState = .ContainerStateStarting)

end orca

namespace orca

/-- What the loop of `manageContainerUserState` keeps true of the status it
reports: a timeout state comes with the matching timeout error, and the state
`ShutdownWithErrMsg` with an error made from a message by `errors.New`. -/
def statusInvariant (status : ContainerStatus) : Prop :=
  (status.ContainerState = .ContainerStateShutdownInactivity →
    status.Err = some InactivityTimeoutErr) ∧
  (status.ContainerState = .ContainerStateShutdownSessionLen →
    status.Err = some SessionTimeoutErr) ∧
  (status.ContainerState = .ContainerStateShutdownWithErrMsg →
    ∃ message, status.Err = some (.new message))

/-- Invariant of the loop of `manageContainerUserState` for a `ContainerUser`
of image `image`: the image never changes; without `PersistBetweenReconnects`
the flag `noMoreConnections` is set; when the last pass through the top of the
loop saw the state `Working`, the channels of the runtime's wait and the channel
handing out the container are listened to; and the status is as
`statusInvariant` says. -/
def containerUserInvariant (image : Image) (s : ContainerUserLoop) : Prop :=
  s.image = image ∧
  (image.PersistBetweenReconnects = false → s.noMoreConnections = true) ∧
  (s.lastState = .ContainerStateWorking →
    s.execResultSourceC = true ∧ s.execErrorSourceC = true ∧ s.containerDest = true) ∧
  statusInvariant s.status

end orca

/-! ## main.go: `sshHandler`, `singleJoiningSlash` -/

namespace orca

/-- The function `errors.Cause`: the error under all its `WithMessage` layers. -/
def Error.Cause : Error → Error
  | .withMessage err _ => err.Cause
  | err => err

/-- The method `Error()`: the text of an error. The text of an error of the
runtime is not known here; a stand-in built from its number is used. -/
def Error.Error : Error → String
  | .new message => message
  | .withMessage err message => message ++ ": " ++ err.Error
  | .ctxErr => "context canceled"
  | .runtime code => "runtime error " ++ toString code
  | .sentinel _ message => message

/-- The method `ContainerState.String`. -/
def ContainerState.String : ContainerState → String
  | .ContainerStateDead => "ContainerStateDead"
  | .ContainerStateStarting => "ContainerStateStarting"
  | .ContainerStateWorking => "ContainerStateWorking"
  | .ContainerStateStartErr => "ContainerStateStartErr"
  | .ContainerStateShutdown => "ContainerStateShutdown"
  | .ContainerStateShutdownInactivity => "ContainerStateShutdownInactivity"
  | .ContainerStateShutdownSessionLen => "ContainerStateShutdownSessionLen"
  | .ContainerStateShutdownWithErr => "ContainerStateShutdownWithErr"
  | .ContainerStateShutdownWithErrMsg => "ContainerStateShutdownWithErrMsg"

/-- The method `NotifyConnectionClosed`, a receive from
`cu.connectionDroppedNotification`, for the goroutine of the `ContainerUser`
standing at `cu`: the goroutine once the call has returned, `none` when the
call never returns. A goroutine in its loop takes the case of the
notification, to which its `select` is always open; after the goroutine
returned the channel is closed and the receive returns at once; a goroutine
stuck in `<-inactiveTimer.C` never sends. -/
def NotifyConnectionClosed : ContainerUserRun → Option ContainerUserRun
  | .running s => manageContainerUserStateIteration .connectionDropped s
  | .returned s => some (.returned s)
  | .stuck _ => none

/-- The method `ContainerStatus.String`. -/
def ContainerStatus.String (cs : ContainerStatus) : String :=
  let str := cs.ContainerState.String
  let str :=
    match cs.Err with
    | some err => str ++ " Err: " ++ err.Error
    | none => str
  if cs.ContainerState = .ContainerStateShutdown then
    str ++ " Exit Code: " ++ toString cs.Status
  else str

end orca

namespace main

open orca

/-- The variable `userFail`. -/
def userFail : Error := .sentinel "main.userFail" "User failed to select the task"

/-- The variable `io.EOF`. -/
def EOF : Error := .sentinel "io.EOF" "EOF"

/-- The ways the body of `sshHandler` (lines 360-457) comes to its end. -/
inductive SessionCourse where
  /-- The session context holds no user (line 362). -/
  | userMissing
  /-- The call of `sshMenu` returns the error `err` (line 378). -/
  | menuFailed (err : Error)
  /-- No container after the retries (line 399); `status` is the last status got. -/
  | noContainer (status : ContainerStatus)
  /-- The call of `oc.GetStream` returns the error `err` (line 414). -/
  | streamFailed (err : Error)
  /-- The call of `ioctrl.NewCopyMonitor` returns the error `err` (line 422). -/
  | copyMonitorFailed (err : Error)
  /-- The case `exitStatus := <-cu.ShutdownDone()` of the final `select`. -/
  | shutdownDone (exitStatus : ContainerStatus)
  /-- The case `<-cm.Done()` of the final `select`; `err` is what `cm.Status()` gives. -/
  | ioClosed (err : Option Error)
  deriving DecidableEq, Repr

/-- The variables `err` and `status_ExitCode` when the body of `sshHandler`
returns; `status_ExitCode` starts at 255 (line 328). -/
def sshHandlerBody : SessionCourse → Option Error × Int
  | .userMissing => (some (.new "User is missing"), 255)
  | .menuFailed err => (some err, 255)
  | .noContainer status =>
    match status.Err with
    | some err => (some err, 255)
    | none => (some (.new status.String), 255)
  | .streamFailed err => (some err, 255)
  | .copyMonitorFailed err => (some err, 255)
  | .shutdownDone exitStatus =>
    match exitStatus.ContainerState with
    | .ContainerStateShutdownInactivity => (exitStatus.Err, 255)
    | .ContainerStateShutdownSessionLen => (exitStatus.Err, 255)
    | .ContainerStateShutdownWithErr => (exitStatus.Err, 255)
    | .ContainerStateShutdownWithErrMsg => (exitStatus.Err, exitStatus.Status)
    | .ContainerStateShutdown => (none, exitStatus.Status)
    | _ => (some (.new ("Unexpected container exit status: " ++ exitStatus.String)), 255)
  | .ioClosed err =>
    match err with
    | some e => (some (.withMessage e "IO Closed"), 255)
    | none => (none, 255)

/-- What the session is left with: the lines of the banner written, if any,
and the code passed to `sess.Exit`. -/
structure SessionExit where
  banner : List String
  exitCode : Int
  deriving DecidableEq, Repr

/-- The deferred function of `sshHandler` (lines 329-358), given what
`jc.ShutdownStatus()` answers and the variables `err` and `status_ExitCode`. -/
def sshHandlerExit (status : jobcontroller.ShutdownStatus) (err : Option Error)
    (status_ExitCode : Int) : SessionExit :=
  if status.toNat ≥ jobcontroller.ShutdownStatus.Demanded.toNat then
    { banner := ["Server is shutting down,", "sorry for the inconvenience"]
      exitCode := status_ExitCode }
  else
    match err.map Error.Cause with
    | none => { banner := [], exitCode := status_ExitCode }
    | some cause =>
      if cause = userFail ∨ cause = EOF then { banner := [], exitCode := status_ExitCode }
      else if cause = InactivityTimeoutErr then
        { banner := ["Kicked out due to inactivity"], exitCode := 254 }
      else if cause = SessionTimeoutErr then
        { banner := ["Kicked out due to session age"], exitCode := 254 }
      else
        { banner := ["Internal server error,", "sorry for the inconvenience"], exitCode := 255 }

/-- A session that ends before a container is obtained, and so before the
statement `defer cu.NotifyConnectionClosed()` of line 409. -/
def SessionCourse.beforeContainer : SessionCourse → Bool
  | .userMissing => true
  | .menuFailed _ => true
  | .noContainer _ => true
  | _ => false

/-- The function `sshHandler`: its body, then its deferred calls, the last
registered first. Once a container is obtained these are `stream.Close()`
(when the stream was got; it returns) and `cu.NotifyConnectionClosed()`, then
in every course the deferred function, which writes the banner and calls
`sess.Exit`. `cu` is the goroutine of the session's `ContainerUser` as the
notification finds it. The result is what the session is left with; `none`
when `cu.NotifyConnectionClosed()` never returns, so that `sess.Exit` is never
called. -/
def sshHandler (status : jobcontroller.ShutdownStatus) (cu : ContainerUserRun)
    (course : SessionCourse) : Option SessionExit :=
  if course.beforeContainer then
    some (sshHandlerExit status (sshHandlerBody course).1 (sshHandlerBody course).2)
  else
    match NotifyConnectionClosed cu with
    | none => none
    | some _ =>
      some (sshHandlerExit status (sshHandlerBody course).1 (sshHandlerBody course).2)

end main

namespace main

/-- The function `singleJoiningSlash`; a Go string is the list of its
characters, `strings.HasSuffix(a, "/")` says that the last one is a slash and
`strings.HasPrefix(b, "/")` that the first one is. -/
def singleJoiningSlash (a b : List Char) : List Char :=
  let aslash := a.getLast? == some '/'
  let bslash := b.head? == some '/'
  if aslash && bslash then a ++ b.drop 1
  else if !aslash && !bslash then a ++ ['/'] ++ b
  else a ++ b

/-- In the words of the specification: `a` with one trailing slash removed, if
it has one. -/
def withoutTrailingSlash (a : List Char) : List Char :=
  if a.getLast? = some '/' then a.dropLast else a

/-- In the words of the specification: `b` with one leading slash removed, if
it has one. -/
def withoutLeadingSlash (b : List Char) : List Char :=
  if b.head? = some '/' then b.tail else b

/-- In the words of the specification: the two parts joined by exactly one slash. -/
def joinedWithOneSlash (a b : List Char) : List Char :=
  withoutTrailingSlash a ++ ['/'] ++ withoutLeadingSlash b

end main

namespace orca

/-- A `*ContainerUser`, identified by a number. -/
abbrev ContainerUserRef := Nat

end orca

/-! ## Library functions -/

namespace orca

/-- The functions of the Go standard library and of docker's `nat` package
that the code below calls, taken as given: `strings.TrimSpace`,
`strings.ToLower`, `strconv.Atoi`, `strconv.ParseBool`, `time.ParseDuration`
(in nanoseconds), where `none` is a parse error; `nat.NewPort("tcp", s)`
followed by `Int()`; and `strings.Split(s, ":")[0]`. -/
structure Library where
  TrimSpace : String → String
  ToLower : String → String
  Atoi : String → Option Int
  ParseBool : String → Option Bool
  ParseDuration : String → Option Int
  NewPort : String → Except Error Int
  BeforeColon : String → String

/-- Whether a character is one of the blanks of ASCII. -/
def asciiSpace (c : Char) : Bool :=
  c = ' ' ∨ c = '\t' ∨ c = '\n' ∨ c = '\r'

/-- The lower-case form of a letter of ASCII, any other character unchanged. -/
def asciiLower (c : Char) : Char :=
  if 'A' ≤ c ∧ c ≤ 'Z' then Char.ofNat (c.toNat + 32) else c

/-- The value of a string of decimal digits, `none` for any other string. -/
def asciiNat (cs : List Char) : Option Nat :=
  match cs with
  | [] => none
  | _ =>
    cs.foldl
      (fun acc c =>
        match acc with
        | some n => if '0' ≤ c ∧ c ≤ '9' then some (10 * n + (c.toNat - 48)) else none
        | none => none)
      (some 0)

/-- A library of this kind for plain ASCII text, to run the code on examples:
blanks are the four usual ones, numbers are decimal with an optional sign,
booleans are the words `strconv.ParseBool` accepts, a duration is a number
followed by one of `h`, `m`, `s`, and a port is a decimal number. -/
def asciiLibrary : Library :=
  { TrimSpace := fun s =>
      String.mk ((s.data.dropWhile asciiSpace).reverse.dropWhile asciiSpace).reverse
    ToLower := fun s => String.mk (s.data.map asciiLower)
    Atoi := fun s =>
      match s.data with
      | '-' :: cs => (asciiNat cs).map (fun n => -(n : Int))
      | '+' :: cs => (asciiNat cs).map (fun n => (n : Int))
      | cs => (asciiNat cs).map (fun n => (n : Int))
    ParseBool := fun s =>
      if s = "1" ∨ s = "t" ∨ s = "T" ∨ s = "TRUE" ∨ s = "true" ∨ s = "True" then some true
      else if s = "0" ∨ s = "f" ∨ s = "F" ∨ s = "FALSE" ∨ s = "false" ∨ s = "False" then
        some false
      else none
    ParseDuration := fun s =>
      match s.data.reverse with
      | 'h' :: cs => (asciiNat cs.reverse).map (fun n => (n : Int) * 3600000000000)
      | 'm' :: cs => (asciiNat cs.reverse).map (fun n => (n : Int) * 60000000000)
      | 's' :: cs => (asciiNat cs.reverse).map (fun n => (n : Int) * 1000000000)
      | _ => none
    NewPort := fun s =>
      match asciiNat s.data with
      | some n => .ok n
      | none => .error (.runtime 1)
    BeforeColon := fun s => String.mk (s.data.takeWhile (fun c => c ≠ ':')) }

/-! ## orca/user.go: `UserList` -/

/-- The struct `User`. -/
structure UserRecord where
  ID : String
  taskToken : String
  deriving DecidableEq, Repr

/-- The struct `UserList`. The `User` structs allocated so far are listed in
`records`, a `*User` being the position of its struct in that list; the two
maps hold such pointers. -/
structure UserList where
  records : List UserRecord
  users : String → Option User
  usersByWebtoken : String → Option User

/-- The function `NewUserList`. -/
def NewUserList : UserList :=
  { records := [], users := fun _ => none, usersByWebtoken := fun _ => none }

/-- The answer of the token validator: the status code, and the body as
`ioutil.ReadAll` delivers it. -/
structure Response where
  StatusCode : Int
  Body : Except Error String

/-- The method `UserList.GetUserFromSSH`. -/
def UserList.GetUserFromSSH (ul : UserList) (uid : String) : User × UserList :=
  match ul.users uid with
  | some ui => (ui, ul)
  | none =>
    (ul.records.length,
      { ul with
        records := ul.records ++ [{ ID := uid, taskToken := "" }]
        users := fun id => if id = uid then some ul.records.length else ul.users id })

/-- The method `UserList.GetUserByWebToken`; `PostForm` is the request to the
validator (`client.PostForm` with the form value `token`), which may fail. -/
def UserList.GetUserByWebToken (lib : Library) (PostForm : String → Except Error Response)
    (ul : UserList) (tasktoken : String) : Except Error User × UserList :=
  let tasktoken := lib.TrimSpace tasktoken
  if tasktoken = "" then (.error (.new "No token provided"), ul)
  else
    match ul.usersByWebtoken tasktoken with
    | some ui => (.ok ui, ul)
    | none =>
      match PostForm tasktoken with
      | .error err => (.error (.withMessage err "http request failed"), ul)
      | .ok resp =>
        if resp.StatusCode = 200 then
          match resp.Body with
          | .error err => (.error (.withMessage err "http request failed"), ul)
          | .ok nameB =>
            let name := lib.TrimSpace nameB
            match ul.usersByWebtoken tasktoken with
            | some ui => (.ok ui, ul)
            | none =>
              match ul.users name with
              | some ui =>
                (.ok ui,
                  { ul with
                    records := ul.records.modify (fun r => { r with taskToken := tasktoken }) ui
                    usersByWebtoken := fun t =>
                      if t = tasktoken then some ui else ul.usersByWebtoken t })
              | none =>
                (.ok ul.records.length,
                  { records := ul.records ++ [{ ID := name, taskToken := tasktoken }]
                    users := fun id => if id = name then some ul.records.length else ul.users id
                    usersByWebtoken := fun t =>
                      if t = tasktoken then some ul.records.length else ul.usersByWebtoken t })
        else if resp.StatusCode = 403 then (.error (.new "Unknown token"), ul)
        else (.error (.new "Server error"), ul)

/-- Every entry of the map `users` points to an allocated struct whose `ID`
is the key: true of `NewUserList` and kept by both methods. -/
def UserList.interned (ul : UserList) : Prop :=
  ∀ id ui, ul.users id = some ui → ∃ r, ul.records[ui]? = some r ∧ r.ID = id

end orca

/-! ## orca/mydocker/mydocker.go -/

namespace orca

/-- The fields of docker's `container.Config` that `NewImage` reads or sets.
A Go map is the list of its entries; looking a key up takes the first entry
with that key. -/
structure ContainerConfig where
  Labels : List (String × String)
  ExposedPorts : List Int
  AttachStdin : Bool
  AttachStdout : Bool
  AttachStderr : Bool
  Tty : Bool
  NetworkDisabled : Bool
  OpenStdin : Bool
  StdinOnce : Bool
  StopSignal : String
  deriving DecidableEq, Repr

end orca

namespace mydocker

open orca

/-- The struct `mydocker.Image`, a `types.ImageInspect`: the fields read. -/
structure Image where
  ID : String
  RepoTags : List String
  Config : ContainerConfig
  deriving DecidableEq, Repr

/-- The function `Normalise`. -/
def Normalise (lib : Library) (s : String) : String :=
  lib.ToLower (lib.TrimSpace s)

/-- The function `wrapImage`: every label key is normalised. When two keys
have the same normal form Go keeps one of their values, no matter which; here
the first one listed is found. -/
def wrapImage (lib : Library) (img : Image) : Image :=
  { img with
    Config := { img.Config with
      Labels := img.Config.Labels.map (fun kv => (Normalise lib kv.1, kv.2)) } }

/-- The method `Image.Get`: `none` is `found = false`. -/
def Image.Get (lib : Library) (di : Image) (key : String) : Option String :=
  match di.Config.Labels.lookup (Normalise lib key) with
  | some val => some (Normalise lib val)
  | none => none

/-- The method `Image.GetDefault`. -/
def Image.GetDefault (lib : Library) (di : Image) (key : String) (defaultVal : String) :
    String :=
  match di.Get lib key with
  | some val => val
  | none => defaultVal

/-- The method `Image.GetIntDefault`. -/
def Image.GetIntDefault (lib : Library) (di : Image) (key : String) (defaultVal : Int) : Int :=
  match di.Get lib key with
  | some val =>
    match lib.Atoi val with
    | some res => res
    | none => defaultVal
  | none => defaultVal

/-- The method `Image.GetDurationDefault`. -/
def Image.GetDurationDefault (lib : Library) (di : Image) (key : String) (defaultVal : Int) :
    Int :=
  match di.Get lib key with
  | some val =>
    match lib.ParseDuration val with
    | some res => res
    | none => defaultVal
  | none => defaultVal

/-- The method `Image.GetBoolDefault`. -/
def Image.GetBoolDefault (lib : Library) (di : Image) (key : String) (defaultVal : Bool) :
    Bool :=
  match di.Get lib key with
  | some val =>
    match lib.ParseBool val with
    | some res => res
    | none => defaultVal
  | none => defaultVal

end mydocker

/-! ## orca/image.go: `NewImage`; orca/imagelist.go -/

namespace orca

/-- The name `NewImage` gives the image: the label `orca.name`, else the
first repository tag up to its colon, normalised; `none` when there is neither. -/
def imageName (lib : Library) (img : mydocker.Image) : Option String :=
  match img.Get lib "orca.name" with
  | some name => some name
  | none =>
    match img.RepoTags with
    | tag :: _ => some (mydocker.Normalise lib (lib.BeforeColon tag))
    | [] => none

/-- The function `NewImage`, up to the start of the goroutine
`manageImageState`: the image made and its container configuration, or the
error returned. Durations are in nanoseconds. -/
def NewImage (lib : Library) (img : mydocker.Image) : Except Error (Image × ContainerConfig) :=
  match imageName lib img with
  | none => .error (.new "Can't find the name")
  | some Name =>
    match img.Get lib "orca.kind" with
    | none => .error (.new "Can't find the kind")
    | some Kind =>
      let common (oi : Image) (containerConfig : ContainerConfig) :
          Except Error (Image × ContainerConfig) :=
        .ok
          ({ oi with
              TimeoutsTotal := img.GetDurationDefault lib "orca.timeout.session" 86400000000000
              TimeoutsInactive :=
                img.GetDurationDefault lib "orca.timeout.inactive" 900000000000 },
            { containerConfig with
              StopSignal :=
                img.GetDefault lib "orca.container.stopsignal" containerConfig.StopSignal
              Labels := [("orca.internal.managed", "true"), ("orca.internal.imagename", Name)] })
      let oi : Image :=
        { Kind := Kind, Name := Name, Port := 0, ConcurrentUsers := 0, TotalUsers := 0
          DockerID := img.ID, PersistBetweenReconnects := false
          TimeoutsTotal := 0, TimeoutsInactive := 0 }
      if Kind = "web" then
        let oi := { oi with
          PersistBetweenReconnects :=
            img.GetBoolDefault lib "orca.container.persistBetweenReconnects" true
          ConcurrentUsers := img.GetIntDefault lib "orca.users.concurrent" (-1)
          TotalUsers := img.GetIntDefault lib "orca.users.total" (-1) }
        match lib.NewPort (img.GetDefault lib "orca.port" "80") with
        | .error err => .error (.withMessage err "parsing port")
        | .ok port =>
          common { oi with Port := port } { img.Config with ExposedPorts := [port] }
      else if Kind = "tcp" then
        .error (.new ("image kind \"" ++ Kind ++ "\" is not implemented"))
      else if Kind = "ssh" then
        let oi := { oi with
          PersistBetweenReconnects :=
            img.GetBoolDefault lib "orca.container.persistBetweenReconnects" false
          ConcurrentUsers := img.GetIntDefault lib "orca.users.concurrent" 1
          TotalUsers := img.GetIntDefault lib "orca.users.total" 1 }
        let cm := img.GetDefault lib "orca.connection.method" "attach"
        if cm = "attach" then
          common oi
            { img.Config with
              AttachStdin := true
              AttachStdout := true
              AttachStderr := true
              Tty := img.GetBoolDefault lib "orca.container.tty" true
              NetworkDisabled := img.GetBoolDefault lib "orca.container.networkdisabled" true
              OpenStdin := true
              StdinOnce := decide (oi.TotalUsers = 1) }
        else if cm = "connect" ∨ cm = "exec" then
          .error (.new ("connection method \"" ++ cm ++ "\" is not implemented"))
        else .error (.new ("unknown connection method \"" ++ cm ++ "\""))
      else .error (.new ("unknown image kind \"" ++ Kind ++ "\""))

/-- A Go map as the list of its entries: the assignment `m[key] = val`. -/
def mapSet {κ ν : Type} [DecidableEq κ] (m : List (κ × ν)) (key : κ) (val : ν) :
    List (κ × ν) :=
  if (m.lookup key).isSome then m.map (fun kv => if kv.1 = key then (key, val) else kv)
  else m ++ [(key, val)]

/-- A Go map as the list of its entries: the statement `delete(m, key)`. -/
def mapDelete {κ ν : Type} [DecidableEq κ] (m : List (κ × ν)) (key : κ) : List (κ × ν) :=
  m.filter (fun kv => kv.1 ≠ key)

/-- The struct `ImageList`; the map of maps `imagesByKindAndName` is keyed
by the pair of kind and name. The order of the entries stands for the order in
which a `range` loop visits them, which Go leaves open. -/
structure ImageList where
  imagesByKindAndName : List ((String × String) × Image)
  imagesByDockerID : List (String × Image)
  removedImages : List (String × Image)
  deriving DecidableEq, Repr

/-- The maps `NewImageList` makes, before its call of `UpdateImages`. -/
def emptyImageList : ImageList :=
  { imagesByKindAndName := [], imagesByDockerID := [], removedImages := [] }

/-- The variable `ImageNotFoundErr`. -/
def ImageNotFoundErr : Error := .sentinel "orca.ImageNotFoundErr" "image not found"

/-- The variable `ImageNotAvailibleErr`. -/
def ImageNotAvailibleErr : Error := .sentinel "orca.ImageNotAvailibleErr" "image not availible"

/-- The method `Image.IsVisibleTo`. -/
def Image.IsVisibleTo (_oi : Image) (_ui : User) : Bool := true

/-- The method `ImageList.UpdateImages`; `listed` is what
`Docker.ListLabeledImages` returns. -/
def ImageList.UpdateImages (lib : Library) (il : ImageList)
    (listed : Except Error (List mydocker.Image)) : Except Error ImageList :=
  match listed with
  | .error err => .error err
  | .ok newImages =>
    let newImgsById : List (String × mydocker.Image) :=
      newImages.foldl (fun m img => mapSet m img.ID img) []
    let imgsToRemove : List Image :=
      (il.imagesByDockerID.filter
        (fun kv => (newImgsById.lookup kv.1).isNone)).map (fun kv => kv.2)
    let imgsToAdd : List mydocker.Image :=
      (newImgsById.filter
        (fun kv => (il.imagesByDockerID.lookup kv.1).isNone)).map (fun kv => kv.2)
    let il1 : ImageList :=
      imgsToAdd.foldl
        (fun il img =>
          match NewImage lib img with
          | .error _ => il
          | .ok (imgToAdd, _) =>
            { il with
              imagesByDockerID := mapSet il.imagesByDockerID imgToAdd.DockerID imgToAdd
              imagesByKindAndName :=
                mapSet il.imagesByKindAndName (imgToAdd.Kind, imgToAdd.Name) imgToAdd })
        il
    .ok
      (imgsToRemove.foldl
        (fun il img =>
          { imagesByDockerID := mapDelete il.imagesByDockerID img.DockerID
            imagesByKindAndName := mapDelete il.imagesByKindAndName (img.Kind, img.Name)
            removedImages := mapSet il.removedImages img.DockerID img })
        il1)

/-- The method `ImageList.GetImage`. -/
def ImageList.GetImage (il : ImageList) (kind : String) (name : String) (ui : User) :
    Except Error Image :=
  match il.imagesByKindAndName.lookup (kind, name) with
  | none => .error ImageNotFoundErr
  | some image => if !image.IsVisibleTo ui then .error ImageNotAvailibleErr else .ok image

/-- A docker image of kind web whose labels name it `task`, with the given id. -/
def webTaskImage (id : String) : mydocker.Image :=
  { ID := id
    RepoTags := ["task:latest"]
    Config :=
      { Labels := [("orca.enabled", "true"), ("orca.kind", "web"), ("orca.name", "task")]
        ExposedPorts := []
        AttachStdin := false
        AttachStdout := false
        AttachStderr := false
        Tty := false
        NetworkDisabled := false
        OpenStdin := false
        StdinOnce := false
        StopSignal := "" } }

end orca

namespace orca

/-- The labels of a docker image hold the value `val` under a key whose
normal form is that of `key`, and no other value under such a key. -/
def labelIs (lib : Library) (raw : mydocker.Image) (key : String) (val : String) : Prop :=
  (∃ k, (k, val) ∈ raw.Config.Labels ∧ mydocker.Normalise lib k = mydocker.Normalise lib key) ∧
  ∀ k2 v2, (k2, v2) ∈ raw.Config.Labels →
    mydocker.Normalise lib k2 = mydocker.Normalise lib key → v2 = val

/-- The labels of a docker image hold no key whose normal form is that of `key`. -/
def labelAbsent (lib : Library) (raw : mydocker.Image) (key : String) : Prop :=
  ∀ k v, (k, v) ∈ raw.Config.Labels →
    mydocker.Normalise lib k ≠ mydocker.Normalise lib key

end orca

namespace orca

/-- A docker image of kind web whose labels set every optional value, with
keys in mixed case and blanks around the values. -/
def tunedWebImage : mydocker.Image :=
  { webTaskImage "sha256:cccc" with
    Config :=
      { (webTaskImage "sha256:cccc").Config with
        Labels :=
          [("ORCA.Kind", " Web "), ("orca.name", "task"),
           ("Orca.Users.Concurrent", " 5 "), ("ORCA.USERS.TOTAL", "\t40"),
           ("orca.container.PersistBetweenReconnects", " FALSE "),
           ("Orca.Port", " 8080 "), ("orca.timeout.SESSION", " 2H "),
           (" orca.timeout.inactive ", "30M")] } }

end orca

/-! ## orca/search/trie.go -/

namespace trie

/-- The map `children` of a `Node` as the list of its entries. An entry is a
key byte with the fields `prefix`, `isCompleteWord` and `children` of the node
the key points to. A byte is a natural number and a Go string the list of its
bytes. The order of the entries stands for the order in which a `range` loop
visits them, which Go leaves open. The field `parent`, which only `Remove`
reads, is left out: a node is reached by the keys on the way from the root. -/
inductive Children where
  | nil : Children
  | cons (key : Nat) (pfx : List Nat) (isCompleteWord : Bool) (children : Children)
      (rest : Children) : Children
  deriving DecidableEq, Repr

/-- The struct `Node`; `pfx` is its field `prefix`. -/
structure Node where
  pfx : List Nat
  isCompleteWord : Bool
  children : Children
  deriving DecidableEq, Repr

/-- The struct `Trie`. -/
structure Trie where
  root : Node
  length : Int
  deriving DecidableEq, Repr

/-- The map lookup `children[b]`. -/
def Children.get : Children → Nat → Option Node
  | .nil, _ => none
  | .cons key pfx isCompleteWord children rest, b =>
    if key = b then some { pfx := pfx, isCompleteWord := isCompleteWord, children := children }
    else rest.get b

/-- The map assignment `children[b] = node`. -/
def Children.set : Children → Nat → Node → Children
  | .nil, b, node => .cons b node.pfx node.isCompleteWord node.children .nil
  | .cons key pfx isCompleteWord children rest, b, node =>
    if key = b then .cons key node.pfx node.isCompleteWord node.children rest
    else .cons key pfx isCompleteWord children (rest.set b node)

/-- The number of leading positions at which two strings agree. -/
def commonLen : List Nat → List Nat → Nat
  | a :: as, b :: bs => if a = b then commonLen as bs + 1 else 0
  | _, _ => 0

/-- The loop of the method `Trie.search`, entered with `match = m`. The
result is the keys that lead from `m` to the node `match` returned, with
`unmatched` and `partialMatchLen`; `none` is a panic of Go (a child with an
empty prefix is sliced by `prefix[1:]`) or the end of the fuel, of which every
turn of the loop takes one unit. The inner loop stops at the index
`1 + commonLen prefix[1:] unmatched[1:]`. -/
def searchLoop : Nat → Node → List Nat → Option (List Nat × List Nat × Nat)
  | _, _, [] => some ([], [], 0)
  | 0, _, _ :: _ => none
  | fuel + 1, m, b :: us =>
    match m.children.get b with
    | none => some ([], b :: us, 0)
    | some node =>
      match node.pfx with
      | [] => none
      | _ :: ps =>
        if ps.length ≤ us.length ∧ ps = us.take ps.length then
          match searchLoop fuel node (us.drop ps.length) with
          | none => none
          | some (path, unmatched, partialMatchLen) => some (b :: path, unmatched, partialMatchLen)
        else
          some ([b], (b :: us).drop (1 + commonLen ps us), 1 + commonLen ps us)

/-- The method `Trie.search`; a turn of its loop that goes on shortens
`unmatched`, so the length of `str` is fuel enough. -/
def Trie.search (t : Trie) (str : List Nat) : Option (List Nat × List Nat × Nat) :=
  searchLoop str.length t.root str

/-- The function `New`. -/
def New : Trie :=
  { root := { pfx := [], isCompleteWord := false, children := .nil }, length := 0 }

/-- What `Add` does after `search`, to the node `match`: the node afterwards
and whether `t.length++` ran; `none` is a panic of Go, at
`newMatchNode.prefix[0]` when nothing of the prefix is left after
`partialLen` bytes. -/
def addAt (unmatched : List Nat) (partialLen : Nat) (m : Node) : Option (Node × Bool) :=
  let split : Option Node :=
    if partialLen ≠ 0 then
      match m.pfx.drop partialLen with
      | [] => none
      | c :: cs =>
        some
          { pfx := m.pfx.take partialLen
            isCompleteWord := false
            children := .cons c (c :: cs) m.isCompleteWord m.children .nil }
    else some m
  match split with
  | none => none
  | some m =>
    match unmatched with
    | [] =>
      if !m.isCompleteWord then some ({ m with isCompleteWord := true }, true)
      else some (m, false)
    | b :: us =>
      some
        ({ m with
            children :=
              m.children.set b { pfx := b :: us, isCompleteWord := true, children := .nil } },
          true)

/-- A change made through a pointer to the child under the key `b`: the
entry of the map stays in its place and holds the changed node; `none` when
there is no such child or the change panics. -/
def Children.modify : Children → Nat → (Node → Option (Node × Bool)) → Option (Children × Bool)
  | .nil, _, _ => none
  | .cons key pfx isCompleteWord children rest, b, f =>
    if key = b then
      match f { pfx := pfx, isCompleteWord := isCompleteWord, children := children } with
      | none => none
      | some (node, grew) =>
        some (.cons key node.pfx node.isCompleteWord node.children rest, grew)
    else
      match rest.modify b f with
      | none => none
      | some (rest', grew) => some (.cons key pfx isCompleteWord children rest', grew)

/-- A change made through a pointer to the node that the keys of `path` lead
to from `m`. -/
def Node.update : List Nat → (Node → Option (Node × Bool)) → Node → Option (Node × Bool)
  | [], f, m => f m
  | b :: path, f, m =>
    match m.children.modify b (Node.update path f) with
    | none => none
    | some (children, grew) => some ({ m with children := children }, grew)

/-- The method `Trie.Add`. -/
def Trie.Add (t : Trie) (str : List Nat) : Option Trie :=
  match t.search str with
  | none => none
  | some (path, unmatched, partialLen) =>
    match t.root.update path (addAt unmatched partialLen) with
    | none => none
    | some (root, grew) =>
      some { root := root, length := if grew then t.length + 1 else t.length }

/-- The loop of `Node.dumpData` over the children of a node that was
called with `prefix`, with the calls it makes for them: what is appended to
`res`, in order. -/
def Children.dumpData : Children → List Nat → List (List Nat)
  | .nil, _ => []
  | .cons _ pfx isCompleteWord children rest, pre =>
    ((if isCompleteWord then [pre ++ pfx] else []) ++ children.dumpData (pre ++ pfx))
      ++ rest.dumpData pre

/-- The method `Node.dumpData`: what it appends to `res`. -/
def Node.dumpData (n : Node) (pre : List Nat) : List (List Nat) :=
  (if n.isCompleteWord then [pre] else []) ++ n.children.dumpData pre

/-- The method `Trie.DumpData`. -/
def Trie.DumpData (t : Trie) : List (List Nat) :=
  t.root.dumpData []

/-- The loop of `TestTrie` that adds each word of a list. -/
def addWords : Trie → List (List Nat) → Option Trie
  | t, [] => some t
  | t, word :: words =>
    match t.Add word with
    | none => none
    | some t' => addWords t' words

/-- The keys of a map of children. -/
def Children.keys : Children → List Nat
  | .nil => []
  | .cons key _ _ _ rest => key :: rest.keys

/-- The shape `Add` keeps: every child sits under the first byte of its
prefix, no key occurs twice in a map, and so on down the tree. -/
def Children.wf : Children → Prop
  | .nil => True
  | .cons key pfx _ children rest =>
    pfx.head? = some key ∧ key ∉ rest.keys ∧ children.wf ∧ rest.wf

end trie

/-! ## orca/image.go: runs of `manageImageState`, and `deleteContainerUser`;
jobcontroller/jobcontroller.go: sequences of calls -/

namespace orca

/-- Running the loop of `manageImageState` along a sequence of fired cases,
its context live; `none` when one of them cannot fire. -/
def manageImageStateRun : SchedulerState → List SchedulerEvent → Option SchedulerState
  | s, [] => some s
  | s, ev :: evs =>
    match manageImageStateSelect s ev with
    | none => none
    | some s1 => manageImageStateRun s1 evs

/-- The scheduler accepts an election request, hands out no candidates channel
and accepts no stop. -/
def SchedulerState.awaitsRequest (s : SchedulerState) : Prop :=
  s.electionRequestChan = true ∧ s.getCandidatesChan = false ∧ s.voteStop = false

/-- An election is open, with candidates channel `candidatesC`: the scheduler
accepts no election request, hands out that channel and accepts a stop. -/
def SchedulerState.electionOpen (s : SchedulerState) (candidatesC : Nat) : Prop :=
  s.electionRequestChan = false ∧ s.getCandidatesChan = true ∧ s.voteStop = true ∧
    s.curElectionCandidatesC = some candidatesC

/-- The deletion of an instance from the table of an image, the method
`Image.deleteContainerUser`: the map `containerUsersByUID` afterwards and
whether `cu.notifyDeleted()` is called. `user` is `cu.user`. -/
def deleteContainerUser (containerUsersByUID : User → Option ContainerUserRef)
    (cu : ContainerUserRef) (user : User) : (User → Option ContainerUserRef) × Bool :=
  if containerUsersByUID user = some cu then
    (fun u => if u = user then none else containerUsersByUID u, true)
  else (containerUsersByUID, false)

end orca

namespace jobcontroller

/-- Performing a sequence of calls on the controller, one after the other;
`none` when one of them panics. -/
def performAll : ShutdownController → List Call → Option ShutdownController
  | sc, [] => some sc
  | sc, c :: cs =>
    match c.perform sc with
    | none => none
    | some sc1 => performAll sc1 cs

end jobcontroller

/-! ## orca/search/trie.go: `Search`, `Remove`, `Contains` -/

namespace trie

/-- The number of entries of a map of children, `len(children)`. -/
def Children.length : Children → Nat
  | .nil => 0
  | .cons _ _ _ _ rest => rest.length + 1

/-- The node a pointer returned by `search` points to: the node that the
keys of `path` lead to from `m`. -/
def Node.follow : List Nat → Node → Option Node
  | [], m => some m
  | b :: path, m =>
    match m.children.get b with
    | none => none
    | some node => Node.follow path node

/-- The method `Node.getChild`: the child the `range` loop visits first, nil
(`none`) when there is no child. -/
def Node.getChild (n : Node) : Option Node :=
  match n.children with
  | .nil => none
  | .cons _ pfx isCompleteWord children _ =>
    some { pfx := pfx, isCompleteWord := isCompleteWord, children := children }

/-- The method `Trie.Search`: `guaranteedContinuation` and `isExactMatch`;
`none` is a panic of Go (a slice bound out of range, a nil child), or a path
that leads to no node, which `search` never returns. -/
def Trie.Search (t : Trie) (str : List Nat) : Option (List Nat × Bool) :=
  match t.search str with
  | none => none
  | some (path, unmatched, partialMatchLen) =>
    match t.root.follow path with
    | none => none
    | some m =>
      if unmatched = [] then
        if partialMatchLen ≠ 0 then
          if partialMatchLen ≤ m.pfx.length then
            some (m.pfx.drop partialMatchLen, decide (m.children.length = 0))
          else none
        else if m.children.length = 1 then
          match m.getChild with
          | none => none
          | some ch => some (m.pfx ++ ch.pfx, decide (ch.children.length = 0))
        else some ([], decide (m.children.length = 0))
      else some ([], false)

end trie

namespace trie

/-- The statement `delete(children, b)`. -/
def Children.delete : Children → Nat → Children
  | .nil, _ => .nil
  | .cons key pfx isCompleteWord children rest, b =>
    if key = b then rest.delete b else .cons key pfx isCompleteWord children (rest.delete b)

/-- What `Remove` does to a node `match` that has a parent, seen from that
parent, whose map holds `match` under the key `b`: the `switch` on
`len(match.children)`. With no child, `match` is deleted from the map of the
parent under the first byte of its prefix; with one child, that child gets the
prefix of `match` put before its own and is stored in the map of the parent
under the first byte of the new prefix; with more, `match` is no complete word
any more. `none` is a panic of Go, at `prefix[0]` of an empty prefix. -/
def removeChild (b : Nat) (parent : Node) : Option (Node × Bool) :=
  match parent.children.get b with
  | none => none
  | some m =>
    match m.children with
    | .nil =>
      match m.pfx with
      | [] => none
      | c :: _ => some ({ parent with children := parent.children.delete c }, true)
    | .cons _ pfx isCompleteWord children .nil =>
      match m.pfx ++ pfx with
      | [] => none
      | c :: cs =>
        some
          ({ parent with
              children :=
                parent.children.set c
                  { pfx := c :: cs, isCompleteWord := isCompleteWord, children := children } },
            true)
    | _ =>
      match parent.children.modify b (fun n => some ({ n with isCompleteWord := false }, true)) with
      | none => none
      | some (children, _) => some ({ parent with children := children }, true)

/-- A change made through the pointer `match.parent`, where `match` is the
node that the keys of `path` lead to from `m`: the change `f b` is made to the
node whose map holds `match` under the last key `b` of the path. The field
`parent` of a node is not kept in the tree: `Add` and `Remove` set it, in
every node they make or move, to the node whose map they put the node into,
and the root, which `New` makes, is the one node whose `parent` is nil. `none`
for the empty path, the root having no parent. -/
def Node.updateParent :
    List Nat → (Nat → Node → Option (Node × Bool)) → Node → Option (Node × Bool)
  | [], _, _ => none
  | [b], f, m => f b m
  | b :: c :: path, f, m =>
    match m.children.modify b (Node.updateParent (c :: path) f) with
    | none => none
    | some (children, grew) => some ({ m with children := children }, grew)

/-- The method `Trie.Remove`: `isFound` and the trie afterwards. The test
`match.parent == nil` is the test whether `match` is the root. -/
def Trie.Remove (t : Trie) (str : List Nat) : Option (Bool × Trie) :=
  match t.search str with
  | none => none
  | some (path, unmatched, partialLen) =>
    match t.root.follow path with
    | none => none
    | some m =>
      if unmatched ≠ [] ∨ partialLen ≠ 0 then some (false, t)
      else if !m.isCompleteWord then some (false, t)
      else
        match path with
        | [] =>
          some (true, { root := { t.root with isCompleteWord := false }, length := t.length - 1 })
        | _ :: _ =>
          match t.root.updateParent path removeChild with
          | none => none
          | some (root, _) => some (true, { root := root, length := t.length - 1 })

/-- The method `Trie.Contains`. -/
def Trie.Contains (t : Trie) (str : List Nat) : Option Bool :=
  match t.search str with
  | none => none
  | some (path, unmatched, partialLen) =>
    match t.root.follow path with
    | none => none
    | some m => some (m.isCompleteWord && decide (unmatched = []) && decide (partialLen = 0))

/-- A call of `Add` or of `Remove`. -/
inductive Call where
  | Add (word : List Nat)
  | Remove (word : List Nat)
  deriving DecidableEq, Repr

/-- Making a sequence of calls on a trie, one after the other; `none` when
one of them panics. -/
def perform : Trie → List Call → Option Trie
  | t, [] => some t
  | t, .Add word :: calls =>
    match t.Add word with
    | none => none
    | some t1 => perform t1 calls
  | t, .Remove word :: calls =>
    match t.Remove word with
    | none => none
    | some (_, t1) => perform t1 calls

/-- In the words of the claim: the words stored after a sequence of calls on
a trie that stored `words`, each once. -/
def storedAfter : List (List Nat) → List Call → List (List Nat)
  | words, [] => words
  | words, .Add word :: calls =>
    storedAfter (if word ∈ words then words else words ++ [word]) calls
  | words, .Remove word :: calls => storedAfter (words.filter (fun w => w ≠ word)) calls

end trie

namespace orca

/-- The loop of `manageContainerState` for a container of `webImage 2 (-1)`
after the user it was made for has been bound and has left. -/
def idleAfterOneUser : LifecycleState :=
  { oc :=
      { DockerID := 1, Image := webImage 2 (-1), concurrentUsers := 0, totalUsers := 1,
        reservedUsers := 0, users := [] }
    deletionTimer := .nil
    isEndOfLife := false
    candidate := { container := 1, concurrentUsers := 1, totalUsers := 1 }
    electionsStartSignalC := true
    electionStartSignal := none
    candidatesChannel := none
    getCandidatesChan := false }

end orca

/-! ## Theorems: jobcontroller -/

namespace jobcontroller

theorem requestSignalFresh_New (ctxDone : Bool) (options : List Option_) :
    (New ctxDone options).requestSignalFresh := by
  unfold New
  suffices h : ∀ (l : List Option_) (sc : ShutdownController),
      sc.requestSignalFresh → (l.foldl Option_.run sc).requestSignalFresh by
    apply h
    intro _; rfl
  intro l
  induction l with
  | nil => intro sc h; exact h
  | cons o l ih =>
    intro sc h
    apply ih
    cases o <;> exact h

theorem startWaiterIfWorking_eq (sc : ShutdownController) :
    startWaiterIfWorking sc =
      { sc with waitersStarted :=
          if sc.status = .Working then sc.waitersStarted + 1 else sc.waitersStarted } := by
  unfold startWaiterIfWorking
  split <;> rfl

theorem stopRequestDeadlineT_eq (sc : ShutdownController) :
    stopRequestDeadlineT sc = { sc with requestDeadlineT := none } := by
  obtain ⟨rd, rdt, dd, ddt, st, closed, pc, cc, cs, dc, wg, ws⟩ := sc
  cases rdt <;> rfl

theorem stopDemandDeadlineT_eq (sc : ShutdownController) :
    stopDemandDeadlineT sc = { sc with demandDeadlineT := none } := by
  obtain ⟨rd, rdt, dd, ddt, st, closed, pc, cc, cs, dc, wg, ws⟩ := sc
  cases ddt <;> rfl

theorem armRequestDeadlineT_eq (sc : ShutdownController) :
    armRequestDeadlineT sc =
      { sc with requestDeadlineT :=
          if sc.requestDeadline ≠ -1 then some sc.requestDeadline else sc.requestDeadlineT } := by
  unfold armRequestDeadlineT
  split <;> rfl

theorem armDemandDeadlineT_eq (sc : ShutdownController) :
    armDemandDeadlineT sc =
      { sc with demandDeadlineT :=
          if sc.demandDeadline ≠ -1 then some sc.demandDeadline else sc.demandDeadlineT } := by
  unfold armDemandDeadlineT
  split <;> rfl

theorem requestSignalFresh_Request (sc sc' : ShutdownController)
    (h : sc.Request = some sc') (hf : sc.requestSignalFresh) : sc'.requestSignalFresh := by
  intro hw
  unfold ShutdownController.Request at h
  split at h
  · split at h
    · exact absurd h (by simp)
    · simp only [armRequestDeadlineT_eq, Option.some.injEq] at h
      subst h
      simp at hw
  · cases h
    exact hf hw

theorem requestSignalFresh_Demand (sc : ShutdownController)
    (h : sc.requestSignalFresh) : sc.Demand.requestSignalFresh := by
  intro hw
  unfold ShutdownController.Demand at hw ⊢
  split
  · rename_i hlt
    rw [if_pos hlt] at hw
    simp [stopRequestDeadlineT_eq, armDemandDeadlineT_eq] at hw
  · rename_i hlt
    rw [if_neg hlt] at hw
    exact h hw

theorem requestSignalFresh_Force (sc : ShutdownController)
    (h : sc.requestSignalFresh) : sc.Force.requestSignalFresh := by
  intro hw
  unfold ShutdownController.Force at hw ⊢
  split
  · rename_i hlt
    rw [if_pos hlt] at hw
    simp [stopRequestDeadlineT_eq, stopDemandDeadlineT_eq] at hw
  · rename_i hlt
    rw [if_neg hlt] at hw
    exact h hw

theorem requestSignalFresh_shutdownWaiter (sc sc' : ShutdownController)
    (h : sc.shutdownWaiter = some sc') : sc'.requestSignalFresh := by
  intro hw
  unfold ShutdownController.shutdownWaiter at h
  split at h
  · exact absurd h (by simp)
  · split at h
    · exact absurd h (by simp)
    · simp only [stopRequestDeadlineT_eq, stopDemandDeadlineT_eq, Option.some.injEq] at h
      subst h
      simp at hw

/-- C6: for every controller state and every call among `Request`, `Demand`
and `Force`, the call returns, the status afterwards is the maximum of the
status before and the call's target (so it never decreases), and when the
target is not above the current status the call leaves the whole controller
unchanged: status, contexts, shutdown-requested signal, deadline timers, and
no waiter is started. -/
theorem C6_transitions_monotone_idempotent (sc : ShutdownController) (c : Call)
    (h : sc.requestSignalFresh) :
    ∃ sc', c.perform sc = some sc' ∧
      sc'.status.toNat = max sc.status.toNat c.target.toNat ∧
      sc.status.toNat ≤ sc'.status.toNat ∧
      (c.target.toNat ≤ sc.status.toNat → sc' = sc) := by
  cases c
  · -- Request
    by_cases hlt : sc.status.toNat < ShutdownStatus.Requested.toNat
    · have hw : sc.status = .Working := by
        revert hlt; cases sc.status <;> simp [ShutdownStatus.toNat]
      have hopen : sc.shutdownRequestClosed = false := h hw
      refine ⟨armRequestDeadlineT
        { startWaiterIfWorking sc with shutdownRequestClosed := true, status := .Requested },
        ?_, ?_, ?_, ?_⟩
      · simp [Call.perform, ShutdownController.Request, hlt, startWaiterIfWorking_eq, hopen]
      · simp [armRequestDeadlineT_eq, hw, ShutdownStatus.toNat, Call.target]
      · simp [armRequestDeadlineT_eq, hw, ShutdownStatus.toNat]
      · intro hle
        simp only [Call.target] at hle
        omega
    · refine ⟨sc, ?_, ?_, le_refl _, fun _ => rfl⟩
      · simp [Call.perform, ShutdownController.Request, hlt]
      · simp only [Call.target]
        omega
  · -- Demand
    by_cases hlt : sc.status.toNat < ShutdownStatus.Demanded.toNat
    · refine ⟨sc.Demand, rfl, ?_, ?_, ?_⟩
      · simp only [ShutdownController.Demand, if_pos hlt, stopRequestDeadlineT_eq,
          armDemandDeadlineT_eq, Call.target]
        omega
      · simp only [ShutdownController.Demand, if_pos hlt, stopRequestDeadlineT_eq,
          armDemandDeadlineT_eq]
        omega
      · intro hle
        simp only [Call.target] at hle
        omega
    · refine ⟨sc.Demand, rfl, ?_, ?_, fun _ => ?_⟩
      · simp only [ShutdownController.Demand, if_neg hlt, Call.target]
        omega
      · simp only [ShutdownController.Demand, if_neg hlt]
        omega
      · simp only [ShutdownController.Demand, if_neg hlt]
  · -- Force
    by_cases hlt : sc.status.toNat < ShutdownStatus.Forced.toNat
    · refine ⟨sc.Force, rfl, ?_, ?_, ?_⟩
      · simp only [ShutdownController.Force, if_pos hlt, stopRequestDeadlineT_eq,
          stopDemandDeadlineT_eq, Call.target]
        omega
      · simp only [ShutdownController.Force, if_pos hlt, stopRequestDeadlineT_eq,
          stopDemandDeadlineT_eq]
        omega
      · intro hle
        simp only [Call.target] at hle
        omega
    · refine ⟨sc.Force, rfl, ?_, ?_, fun _ => ?_⟩
      · simp only [ShutdownController.Force, if_neg hlt, Call.target]
        omega
      · simp only [ShutdownController.Force, if_neg hlt]
        omega
      · simp only [ShutdownController.Force, if_neg hlt]

/-- Witness of C6 on a new controller and the call `Request`. -/
theorem C6_transitions_monotone_idempotent_witness :
    (New false []).requestSignalFresh ∧
    ∃ sc', Call.Request.perform (New false []) = some sc' ∧
      sc'.status.toNat = max (New false []).status.toNat Call.Request.target.toNat ∧
      (New false []).status.toNat ≤ sc'.status.toNat ∧
      (Call.Request.target.toNat ≤ (New false []).status.toNat → sc' = New false []) :=
  ⟨by decide, C6_transitions_monotone_idempotent (New false []) Call.Request (by decide)⟩

/-- C7: `IsShuttingDown` returns true exactly when the status is `Requested`,
`Demanded` or `Forced`, and false for `Working` and for `Done`. -/
theorem C7_IsShuttingDown_iff (sc : ShutdownController) :
    (sc.IsShuttingDown = true ↔
      (sc.status = .Requested ∨ sc.status = .Demanded ∨ sc.status = .Forced)) ∧
    (sc.status = .Working → sc.IsShuttingDown = false) ∧
    (sc.status = .Done → sc.IsShuttingDown = false) := by
  unfold ShutdownController.IsShuttingDown
  cases sc.status <;> simp

/-- C8 (code evaluated at the failing input): on a new controller whose parent
context is live, `Force` moves the status from `Working` to `Forced` and calls
`closeShutdownCtx`, yet `CleanupCtx` is not done afterwards, because `Force`
never calls `closeCleanupCtx`. -/
theorem C8_Force_leaves_CleanupCtx_live :
    (New false []).status.toNat < ShutdownStatus.Forced.toNat ∧
    (New false []).Force.status = .Forced ∧
    (New false []).Force.ShutdownCtxDone = true ∧
    (New false []).Force.closeCleanupCtxCalled = false ∧
    (New false []).Force.CleanupCtxDone = false := by
  decide

/-- Frame property behind C8: no call of `Force` changes whether `CleanupCtx` is done. -/
theorem Force_CleanupCtxDone_unchanged (sc : ShutdownController) :
    sc.Force.CleanupCtxDone = sc.CleanupCtxDone := by
  unfold ShutdownController.Force
  split
  · simp [ShutdownController.CleanupCtxDone, stopRequestDeadlineT_eq, stopDemandDeadlineT_eq,
      startWaiterIfWorking_eq]
  · rfl

/-- C9 as stated fails: a controller that went `Working → Requested → Done`
(the waiter finished with no job left) still has both contexts live, and
`Demand` on it is a no-op, so `ShutdownCtx` stays live. -/
theorem C9_counterexample_Demand_after_Done :
    ∃ sc1 sc2, (New false []).Request = some sc1 ∧ sc1.shutdownWaiter = some sc2 ∧
      sc2.status = .Done ∧ sc2.ShutdownCtxDone = false ∧ sc2.CleanupCtxDone = false ∧
      sc2.Demand.ShutdownCtxDone = false :=
  ⟨_, _, rfl, rfl, by decide, by decide, by decide, by decide⟩

/-- C9 (amended): on a controller whose contexts are both live, `Request`
returns and leaves both contexts live; `Demand` cancels `ShutdownCtx` and leaves
`CleanupCtx` live whenever the status is below `Demanded`, and changes nothing
otherwise. -/
theorem C9_context_effects (sc : ShutdownController)
    (hfresh : sc.requestSignalFresh) (hlive : sc.ShutdownCtxDone = false) :
    (∃ sc', sc.Request = some sc' ∧ sc'.ShutdownCtxDone = false ∧
      sc'.CleanupCtxDone = false) ∧
    (sc.status.toNat < ShutdownStatus.Demanded.toNat →
      sc.Demand.ShutdownCtxDone = true ∧ sc.Demand.CleanupCtxDone = false) ∧
    (¬ sc.status.toNat < ShutdownStatus.Demanded.toNat → sc.Demand = sc) := by
  have hc : sc.CleanupCtxDone = false := by
    simp only [ShutdownController.ShutdownCtxDone, Bool.or_eq_false_iff] at hlive
    exact hlive.1
  refine ⟨?_, ?_, ?_⟩
  · by_cases hlt : sc.status.toNat < ShutdownStatus.Requested.toNat
    · have hw : sc.status = .Working := by
        revert hlt; cases sc.status <;> simp [ShutdownStatus.toNat]
      have hopen : sc.shutdownRequestClosed = false := hfresh hw
      refine ⟨armRequestDeadlineT
        { startWaiterIfWorking sc with shutdownRequestClosed := true, status := .Requested },
        ?_, ?_, ?_⟩
      · simp [ShutdownController.Request, hlt, startWaiterIfWorking_eq, hopen]
      · simpa [ShutdownController.ShutdownCtxDone, ShutdownController.CleanupCtxDone,
          armRequestDeadlineT_eq, startWaiterIfWorking_eq] using hlive
      · simpa [ShutdownController.CleanupCtxDone,
          armRequestDeadlineT_eq, startWaiterIfWorking_eq] using hc
    · exact ⟨sc, by simp [ShutdownController.Request, hlt], hlive, hc⟩
  · intro hlt
    simp only [ShutdownController.Demand, if_pos hlt]
    constructor
    · simp [ShutdownController.ShutdownCtxDone, stopRequestDeadlineT_eq, armDemandDeadlineT_eq]
    · simpa [ShutdownController.CleanupCtxDone, stopRequestDeadlineT_eq, armDemandDeadlineT_eq,
        startWaiterIfWorking_eq] using hc
  · intro hlt
    simp [ShutdownController.Demand, if_neg hlt]

/-- Witness of C9 (amended) on a new controller. -/
theorem C9_context_effects_witness :
    (∃ sc', (New false []).Request = some sc' ∧ sc'.ShutdownCtxDone = false ∧
      sc'.CleanupCtxDone = false) ∧
    ((New false []).status.toNat < ShutdownStatus.Demanded.toNat →
      (New false []).Demand.ShutdownCtxDone = true ∧
      (New false []).Demand.CleanupCtxDone = false) ∧
    (¬ (New false []).status.toNat < ShutdownStatus.Demanded.toNat →
      (New false []).Demand = New false []) :=
  C9_context_effects (New false []) (by decide) (by decide)

theorem New_Working_open (ctxDone : Bool) (options : List Option_) :
    (New ctxDone options).status = .Working ∧
      (New ctxDone options).shutdownRequestClosed = false := by
  unfold New
  suffices h : ∀ (l : List Option_) (sc : ShutdownController),
      sc.status = .Working ∧ sc.shutdownRequestClosed = false →
        (l.foldl Option_.run sc).status = .Working ∧
          (l.foldl Option_.run sc).shutdownRequestClosed = false by
    apply h
    exact ⟨rfl, rfl⟩
  intro l
  induction l with
  | nil => intro sc h; exact h
  | cons o l ih =>
    intro sc h
    apply ih
    cases o <;> exact h

/-- The first call on a controller that is `Working` with its signal open:
it returns, the status is `Working` no longer, and the signal is closed exactly
when the call is `Request`. -/
theorem perform_first (sc : ShutdownController) (c : Call)
    (hw : sc.status = .Working) (hopen : sc.shutdownRequestClosed = false) :
    ∃ sc', c.perform sc = some sc' ∧ sc'.status ≠ .Working ∧
      (sc'.shutdownRequestClosed = true ↔ c = .Request) := by
  cases c
  · refine ⟨armRequestDeadlineT
      { startWaiterIfWorking sc with shutdownRequestClosed := true, status := .Requested },
      ?_, ?_, ?_⟩
    · simp [Call.perform, ShutdownController.Request, hw, ShutdownStatus.toNat,
        startWaiterIfWorking_eq, hopen]
    · simp [armRequestDeadlineT_eq]
    · simp [armRequestDeadlineT_eq]
  · refine ⟨sc.Demand, rfl, ?_, ?_⟩
    · simp [ShutdownController.Demand, hw, ShutdownStatus.toNat, stopRequestDeadlineT_eq,
        armDemandDeadlineT_eq]
    · simp [ShutdownController.Demand, hw, ShutdownStatus.toNat, stopRequestDeadlineT_eq,
        armDemandDeadlineT_eq, startWaiterIfWorking_eq, hopen]
  · refine ⟨sc.Force, rfl, ?_, ?_⟩
    · simp [ShutdownController.Force, hw, ShutdownStatus.toNat, stopRequestDeadlineT_eq,
        stopDemandDeadlineT_eq]
    · simp [ShutdownController.Force, hw, ShutdownStatus.toNat, stopRequestDeadlineT_eq,
        stopDemandDeadlineT_eq, startWaiterIfWorking_eq, hopen]

/-- A call on a controller that is `Working` no longer: it returns, the status
is still not `Working`, and the signal is as it was. -/
theorem perform_later (sc : ShutdownController) (c : Call) (hw : sc.status ≠ .Working) :
    ∃ sc', c.perform sc = some sc' ∧ sc'.status ≠ .Working ∧
      sc'.shutdownRequestClosed = sc.shutdownRequestClosed := by
  cases c
  · refine ⟨sc, ?_, hw, rfl⟩
    have hlt : ¬ sc.status.toNat < ShutdownStatus.Requested.toNat := by
      revert hw; cases sc.status <;> simp [ShutdownStatus.toNat]
    simp [Call.perform, ShutdownController.Request, hlt]
  · refine ⟨sc.Demand, rfl, ?_, ?_⟩
    · unfold ShutdownController.Demand
      split
      · simp [stopRequestDeadlineT_eq, armDemandDeadlineT_eq]
      · exact hw
    · unfold ShutdownController.Demand
      split
      · simp [stopRequestDeadlineT_eq, armDemandDeadlineT_eq, startWaiterIfWorking_eq]
      · rfl
  · refine ⟨sc.Force, rfl, ?_, ?_⟩
    · unfold ShutdownController.Force
      split
      · simp [stopRequestDeadlineT_eq, stopDemandDeadlineT_eq]
      · exact hw
    · unfold ShutdownController.Force
      split
      · simp [stopRequestDeadlineT_eq, stopDemandDeadlineT_eq, startWaiterIfWorking_eq]
      · rfl

theorem performAll_later (calls : List Call) :
    ∀ sc : ShutdownController, sc.status ≠ .Working →
      ∃ sc', performAll sc calls = some sc' ∧ sc'.status ≠ .Working ∧
        sc'.shutdownRequestClosed = sc.shutdownRequestClosed := by
  induction calls with
  | nil => intro sc hw; exact ⟨sc, rfl, hw, rfl⟩
  | cons c calls ih =>
    intro sc hw
    obtain ⟨sc1, h1, hw1, hc1⟩ := perform_later sc c hw
    obtain ⟨sc2, h2, hw2, hc2⟩ := ih sc1 hw1
    exact ⟨sc2, by simp only [performAll, h1, h2], hw2, by rw [hc2, hc1]⟩

/-- C30 as stated fails: `Demand` on a new controller moves the status to
`Demanded`, which is not `Working`, and leaves the channel `shutdownRequestC`
open; a `Request` that follows finds the status not below `Requested` and does
not close it either. -/
theorem C30_counterexample_Demand_first :
    ∃ sc1 sc2,
      performAll (New false []) [.Demand] = some sc1 ∧
      sc1.status = .Demanded ∧ sc1.shutdownRequestClosed = false ∧
      performAll (New false []) [.Demand, .Request] = some sc2 ∧
      sc2.status = .Demanded ∧ sc2.shutdownRequestClosed = false :=
  ⟨_, _, rfl, by decide, by decide, rfl, by decide, by decide⟩

/-- C30 (amended): for every sequence of `Request`, `Demand` and `Force` calls
on a new controller, no call panics, so that `shutdownRequestC` is closed at
most once; the signal has fired exactly when the first call of the sequence is
`Request`; when it has fired the status is `Working` no longer; and the status
is `Working` no longer exactly when the sequence is not empty. -/
theorem C30_request_signal (ctxDone : Bool) (options : List Option_) (calls : List Call) :
    ∃ sc, performAll (New ctxDone options) calls = some sc ∧
      (sc.shutdownRequestClosed = true ↔ calls.head? = some .Request) ∧
      (sc.shutdownRequestClosed = true → sc.status ≠ .Working) ∧
      (sc.status ≠ .Working ↔ calls ≠ []) := by
  obtain ⟨hw, hopen⟩ := New_Working_open ctxDone options
  cases calls with
  | nil =>
    refine ⟨New ctxDone options, rfl, ?_, ?_, ?_⟩
    · simp [hopen]
    · simp [hopen]
    · simp [hw]
  | cons c calls =>
    obtain ⟨sc1, h1, hw1, hc1⟩ := perform_first (New ctxDone options) c hw hopen
    obtain ⟨sc2, h2, hw2, hc2⟩ := performAll_later calls sc1 hw1
    refine ⟨sc2, by simp only [performAll, h1, h2], ?_, fun _ => hw2, ?_⟩
    · rw [hc2, hc1]
      simp
    · simp [hw2]

/-- C30 (amended) on a new controller with the calls `Request`, `Demand`,
`Request`, `Force`: no call panics and the signal has fired, the first call
being `Request`. -/
theorem C30_request_signal_witness :
    ∃ sc, performAll (New false []) [.Request, .Demand, .Request, .Force] = some sc ∧
      (sc.shutdownRequestClosed = true ↔
        [Call.Request, Call.Demand, Call.Request, Call.Force].head? = some .Request) ∧
      (sc.shutdownRequestClosed = true → sc.status ≠ .Working) ∧
      (sc.status ≠ .Working ↔
        [Call.Request, Call.Demand, Call.Request, Call.Force] ≠ []) :=
  C30_request_signal false [] [.Request, .Demand, .Request, .Force]

end jobcontroller

/-! ## Theorems: the trie -/

namespace trie

theorem get_eq_none_iff (cs : Children) (b : Nat) : cs.get b = none ↔ b ∉ cs.keys := by
  induction cs with
  | nil => simp [Children.get, Children.keys]
  | cons key pfx w ch rest _ ih =>
    by_cases h : key = b
    · simp [Children.get, Children.keys, h]
    · simp [Children.get, Children.keys, h, ih, Ne.symm h]

/-- Every word dumped from well-shaped children goes on, after the prefix of
the call, with one of their keys. -/
theorem dumpData_form (cs : Children) :
    ∀ pre x, cs.wf → x ∈ cs.dumpData pre → ∃ k t, k ∈ cs.keys ∧ x = pre ++ k :: t := by
  induction cs with
  | nil => intro pre x _ hx; simp [Children.dumpData] at hx
  | cons key pfx w ch rest ihch ihrest =>
    intro pre x hwf hx
    obtain ⟨hhead, _, hch, hrest⟩ := hwf
    obtain ⟨ps, rfl⟩ : ∃ ps, pfx = key :: ps := by
      cases pfx with
      | nil => simp at hhead
      | cons a ps => simp at hhead; exact ⟨ps, by rw [hhead]⟩
    simp only [Children.dumpData, List.mem_append] at hx
    rcases hx with (hx | hx) | hx
    · refine ⟨key, ps, by simp [Children.keys], ?_⟩
      split at hx
      · simpa using hx
      · simp at hx
    · obtain ⟨k, t, _, rfl⟩ := ihch _ _ hch hx
      exact ⟨key, ps ++ k :: t, by simp [Children.keys], by simp⟩
    · obtain ⟨k, t, hk, rfl⟩ := ihrest _ _ hrest hx
      exact ⟨k, t, by simp [Children.keys, hk], rfl⟩

theorem pre_not_mem_dumpData (cs : Children) (pre : List Nat) (hwf : cs.wf) :
    pre ∉ cs.dumpData pre := by
  intro h
  obtain ⟨k, t, _, hx⟩ := dumpData_form cs pre pre hwf h
  have := congrArg List.length hx
  simp at this

theorem dumpData_nodup (cs : Children) : ∀ pre, cs.wf → (cs.dumpData pre).Nodup := by
  induction cs with
  | nil => intro pre _; simp [Children.dumpData]
  | cons key pfx w ch rest ihch ihrest =>
    intro pre hwf
    have hwf' := hwf
    obtain ⟨hhead, hkey, hch, hrest⟩ := hwf
    simp only [Children.dumpData]
    rw [List.nodup_append]
    refine ⟨?_, ihrest pre hrest, ?_⟩
    · rw [List.nodup_append]
      refine ⟨by split <;> simp, ihch _ hch, ?_⟩
      intro x hx1 hx2
      split at hx1
      · simp only [List.mem_singleton] at hx1
        subst hx1
        exact pre_not_mem_dumpData ch _ hch hx2
      · simp at hx1
    · intro x hx1 hx2
      have h1 : x ∈ (Children.cons key pfx w ch .nil).dumpData pre := by
        simpa [Children.dumpData] using hx1
      obtain ⟨k, t, hk, rfl⟩ :=
        dumpData_form (.cons key pfx w ch .nil) pre x ⟨hhead, by simp [Children.keys], hch, trivial⟩ h1
      obtain ⟨k2, t2, hk2, hx⟩ := dumpData_form rest pre _ hrest hx2
      simp only [Children.keys, List.mem_singleton] at hk
      subst hk
      have := List.append_cancel_left hx
      simp only [List.cons.injEq] at this
      rw [this.1] at hkey
      exact hkey hk2

theorem node_dumpData_nodup (n : Node) (pre : List Nat) (hwf : n.children.wf) :
    (n.dumpData pre).Nodup := by
  unfold Node.dumpData
  rw [List.nodup_append]
  refine ⟨by split <;> simp, dumpData_nodup _ _ hwf, ?_⟩
  intro x hx1 hx2
  split at hx1
  · simp only [List.mem_singleton] at hx1
    subst hx1
    exact pre_not_mem_dumpData _ _ hwf hx2
  · simp at hx1

theorem set_of_get_none (cs : Children) (b : Nat) (us : List Nat) :
    cs.wf → cs.get b = none →
      (cs.set b { pfx := b :: us, isCompleteWord := true, children := .nil }).wf ∧
      (cs.set b { pfx := b :: us, isCompleteWord := true, children := .nil }).keys
        = cs.keys ++ [b] ∧
      ∀ pre x,
        x ∈ (cs.set b { pfx := b :: us, isCompleteWord := true, children := .nil }).dumpData pre
          ↔ x ∈ cs.dumpData pre ∨ x = pre ++ b :: us := by
  induction cs with
  | nil =>
    intro _ _
    refine ⟨by simp [Children.set, Children.wf, Children.keys], by simp [Children.set, Children.keys], ?_⟩
    intro pre x
    simp [Children.set, Children.dumpData]
  | cons key pfx w ch rest _ ih =>
    intro hwf hget
    obtain ⟨hhead, hkey, hch, hrest⟩ := hwf
    have hne : key ≠ b := by
      intro h
      simp [Children.get, h] at hget
    have hget' : rest.get b = none := by simpa [Children.get, hne] using hget
    obtain ⟨ih1, ih2, ih3⟩ := ih hrest hget'
    refine ⟨?_, ?_, ?_⟩
    · simp only [Children.set, hne, if_false, Children.wf]
      refine ⟨hhead, ?_, hch, ih1⟩
      rw [ih2]
      simp [hkey, hne]
    · simp [Children.set, hne, Children.keys, ih2]
    · intro pre x
      simp only [Children.set, hne, if_false, Children.dumpData, List.mem_append, ih3]
      tauto

theorem mem_dumpData_cons (key : Nat) (pfx : List Nat) (w : Bool) (ch rest : Children)
    (pre x : List Nat) :
    x ∈ (Children.cons key pfx w ch rest).dumpData pre
      ↔ x ∈ (Node.mk pfx w ch).dumpData (pre ++ pfx) ∨ x ∈ rest.dumpData pre := by
  simp [Children.dumpData, Node.dumpData, or_assoc]

/-- A change of the child under `b` that keeps its first byte and adds one
word to what is dumped from it adds that word to what is dumped from the map. -/
theorem modify_spec (cs : Children) (b : Nat) (f : Node → Option (Node × Bool))
    (node node' : Node) (grew : Bool) :
    cs.wf → cs.get b = some node → f node = some (node', grew) →
      node'.pfx.head? = some b → node'.children.wf →
      ∃ cs', cs.modify b f = some (cs', grew) ∧ cs'.wf ∧ cs'.keys = cs.keys ∧
        ∀ pre word,
          (∀ x, x ∈ node'.dumpData (pre ++ node'.pfx)
            ↔ x ∈ node.dumpData (pre ++ node.pfx) ∨ x = word) →
          ∀ x, x ∈ cs'.dumpData pre ↔ x ∈ cs.dumpData pre ∨ x = word := by
  induction cs with
  | nil => intro _ hget; simp [Children.get] at hget
  | cons key pfx w ch rest _ ih =>
    intro hwf hget hf hhead' hwf'
    obtain ⟨hhead, hkey, hch, hrest⟩ := hwf
    by_cases hk : key = b
    · subst hk
      simp only [Children.get, if_true, Option.some.injEq] at hget
      subst hget
      have hwfn : (Children.cons key node'.pfx node'.isCompleteWord node'.children rest).wf :=
        ⟨hhead', hkey, hwf', hrest⟩
      refine ⟨Children.cons key node'.pfx node'.isCompleteWord node'.children rest,
        by simp [Children.modify, hf], hwfn, rfl, ?_⟩
      intro pre word hdump x
      rw [mem_dumpData_cons, mem_dumpData_cons, hdump x, or_right_comm]
    · have hget' : rest.get b = some node := by simpa [Children.get, hk] using hget
      obtain ⟨rest', hmod, hwfr, hkeys, hd⟩ := ih hrest hget' hf hhead' hwf'
      have hwfn : (Children.cons key pfx w ch rest').wf :=
        ⟨hhead, by rw [hkeys]; exact hkey, hch, hwfr⟩
      refine ⟨Children.cons key pfx w ch rest', by simp [Children.modify, hk, hmod], hwfn,
        by simp [Children.keys, hkeys], ?_⟩
      intro pre word hdump x
      rw [mem_dumpData_cons, mem_dumpData_cons, hd pre word hdump x, or_assoc]

theorem commonLen_spec : ∀ ps us : List Nat,
    ∃ cmn ps' us', ps = cmn ++ ps' ∧ us = cmn ++ us' ∧ commonLen ps us = cmn.length ∧
      ∀ c d ps'' us'', ps' = c :: ps'' → us' = d :: us'' → c ≠ d := by
  intro ps
  induction ps with
  | nil => intro us; exact ⟨[], [], us, rfl, rfl, by simp [commonLen], by simp⟩
  | cons a as ih =>
    intro us
    cases us with
    | nil => exact ⟨[], a :: as, [], rfl, rfl, by simp [commonLen], by simp⟩
    | cons b bs =>
      by_cases hab : a = b
      · subst hab
        obtain ⟨cmn, ps', us', h1, h2, h3, h4⟩ := ih bs
        exact ⟨a :: cmn, ps', us', by simp [h1], by simp [h2], by simp [commonLen, h3], h4⟩
      · refine ⟨[], a :: as, b :: bs, rfl, rfl, by simp [commonLen, hab], ?_⟩
        intro c d _ _ h1 h2
        simp only [List.cons.injEq] at h1 h2
        rw [← h1.1, ← h2.1]
        exact hab

theorem get_some_wf (cs : Children) (b : Nat) (node : Node) :
    cs.wf → cs.get b = some node → node.pfx.head? = some b ∧ node.children.wf := by
  induction cs with
  | nil => intro _ hget; simp [Children.get] at hget
  | cons key pfx w ch rest _ ih =>
    intro hwf hget
    obtain ⟨hhead, _, hch, hrest⟩ := hwf
    by_cases hk : key = b
    · subst hk
      simp only [Children.get, if_true, Option.some.injEq] at hget
      subst hget
      exact ⟨hhead, hch⟩
    · exact ih hrest (by simpa [Children.get, hk] using hget)

theorem addAt_split_end (b : Nat) (cmn : List Nat) (c : Nat) (ps : List Nat) (w : Bool)
    (ch : Children) :
    addAt [] (1 + cmn.length) { pfx := b :: (cmn ++ c :: ps), isCompleteWord := w, children := ch }
      = some ({ pfx := b :: cmn, isCompleteWord := true,
                children := .cons c (c :: ps) w ch .nil }, true) := by
  have hdrop : (b :: (cmn ++ c :: ps)).drop (1 + cmn.length) = c :: ps := by
    rw [Nat.add_comm, List.drop_succ_cons, List.drop_left]
  have htake : (b :: (cmn ++ c :: ps)).take (1 + cmn.length) = b :: cmn := by
    rw [Nat.add_comm, List.take_succ_cons, List.take_left]
  simp only [addAt, hdrop, htake]
  simp

theorem addAt_split_branch (b : Nat) (cmn : List Nat) (c : Nat) (ps : List Nat) (w : Bool)
    (ch : Children) (d : Nat) (us : List Nat) (hcd : c ≠ d) :
    addAt (d :: us) (1 + cmn.length)
        { pfx := b :: (cmn ++ c :: ps), isCompleteWord := w, children := ch }
      = some ({ pfx := b :: cmn, isCompleteWord := false,
                children := .cons c (c :: ps) w ch (.cons d (d :: us) true .nil .nil) },
              true) := by
  have hdrop : (b :: (cmn ++ c :: ps)).drop (1 + cmn.length) = c :: ps := by
    rw [Nat.add_comm, List.drop_succ_cons, List.drop_left]
  have htake : (b :: (cmn ++ c :: ps)).take (1 + cmn.length) = b :: cmn := by
    rw [Nat.add_comm, List.take_succ_cons, List.take_left]
  simp only [addAt, hdrop, htake]
  simp [Children.set, hcd]

theorem update_cons (b : Nat) (path : List Nat) (f : Node → Option (Node × Bool)) (m : Node) :
    Node.update (b :: path) f m
      = match m.children.modify b (Node.update path f) with
        | none => none
        | some (children, grew) => some ({ m with children := children }, grew) := rfl

/-- One call of `Add`, seen from the node at which the loop of `search` starts:
the search ends, the change is made, the prefix of the node stays, the shape is
kept, and the words dumped are those dumped before and the word added. -/
theorem searchLoop_update : ∀ (fuel : Nat) (m : Node) (u : List Nat),
    m.children.wf → u.length ≤ fuel →
    ∃ path un pl m' grew,
      searchLoop fuel m u = some (path, un, pl) ∧
      m.update path (addAt un pl) = some (m', grew) ∧
      m'.pfx = m.pfx ∧ m'.children.wf ∧
      ∀ pre x, x ∈ m'.dumpData pre ↔ x ∈ m.dumpData pre ∨ x = pre ++ u := by
  intro fuel
  induction fuel with
  | zero =>
    intro m u hwf hlen
    have hu : u = [] := List.length_eq_zero.mp (Nat.le_zero.mp hlen)
    subst hu
    obtain ⟨p, w, ch⟩ := m
    cases w
    · exact ⟨[], [], 0, ⟨p, true, ch⟩, true, by simp [searchLoop], by simp [Node.update, addAt], rfl,
        hwf, by intro pre x; simp [Node.dumpData, or_comm]⟩
    · exact ⟨[], [], 0, ⟨p, true, ch⟩, false, by simp [searchLoop], by simp [Node.update, addAt],
        rfl, hwf, by intro pre x; simp [Node.dumpData]; tauto⟩
  | succ fuel ih =>
    intro m u hwf hlen
    cases u with
    | nil =>
      obtain ⟨p, w, ch⟩ := m
      cases w
      · exact ⟨[], [], 0, ⟨p, true, ch⟩, true, by simp [searchLoop], by simp [Node.update, addAt],
          rfl, hwf, by intro pre x; simp [Node.dumpData, or_comm]⟩
      · exact ⟨[], [], 0, ⟨p, true, ch⟩, false, by simp [searchLoop],
          by simp [Node.update, addAt], rfl, hwf, by intro pre x; simp [Node.dumpData]; tauto⟩
    | cons b us =>
      obtain ⟨p, w, ch⟩ := m
      simp only at hwf
      cases hget : ch.get b with
      | none =>
        obtain ⟨h1, _, h3⟩ := set_of_get_none ch b us hwf hget
        refine ⟨[], b :: us, 0,
          ⟨p, w, ch.set b { pfx := b :: us, isCompleteWord := true, children := .nil }⟩, true,
          by simp [searchLoop, hget], by simp [Node.update, addAt], rfl, h1, ?_⟩
        intro pre x
        simp only [Node.dumpData, List.mem_append, h3]
        tauto
      | some node =>
        obtain ⟨hhead, hwfn⟩ := get_some_wf ch b node hwf hget
        obtain ⟨np, nw, nch⟩ := node
        obtain ⟨ps, rfl⟩ : ∃ ps, np = b :: ps := by
          cases np with
          | nil => simp at hhead
          | cons a ps => simp at hhead; exact ⟨ps, by rw [hhead]⟩
        simp only at hwfn
        by_cases hfull : ps.length ≤ us.length ∧ ps = us.take ps.length
        · have hlen' : (us.drop ps.length).length ≤ fuel := by
            simp only [List.length_drop, List.length_cons] at hlen ⊢
            omega
          obtain ⟨path, un, pl, node', grew, hs, hu, hp, hw, hd⟩ :=
            ih ⟨b :: ps, nw, nch⟩ (us.drop ps.length) hwfn hlen'
          have hp' : node'.pfx = b :: ps := hp
          obtain ⟨cs', hmod, hwf', _, hdump⟩ :=
            modify_spec ch b (Node.update path (addAt un pl)) _ node' grew hwf hget hu
              (by rw [hp']; rfl) hw
          refine ⟨b :: path, un, pl, ⟨p, w, cs'⟩, grew,
            by simp only [searchLoop, hget, if_pos hfull, hs], by rw [update_cons, hmod], rfl,
            hwf', ?_⟩
          intro pre x
          have hword : pre ++ (b :: ps) ++ us.drop ps.length = pre ++ b :: us := by
            have h2 : us.take ps.length ++ us.drop ps.length = us := List.take_append_drop _ _
            rw [← hfull.2] at h2
            simp [h2]
          have hx := hdump pre (pre ++ b :: us)
            (by
              intro y
              rw [hp', hd (pre ++ (b :: ps)) y, hword])
            x
          simp only [Node.dumpData, List.mem_append, hx]
          tauto
        · obtain ⟨cmn, ps', us', rfl, rfl, hl, hne⟩ := commonLen_spec ps us
          cases ps' with
          | nil =>
            exfalso
            apply hfull
            simp
          | cons c ps'' =>
            have hsearch : searchLoop (fuel + 1) ⟨p, w, ch⟩ (b :: (cmn ++ us'))
                = some ([b], us', 1 + cmn.length) := by
              have hdrop : (b :: (cmn ++ us')).drop (1 + cmn.length) = us' := by
                rw [Nat.add_comm, List.drop_succ_cons, List.drop_left]
              simp only [searchLoop, hget, if_neg hfull, hl, hdrop]
            cases us' with
            | nil =>
              have hadd := addAt_split_end b cmn c ps'' nw nch
              obtain ⟨cs', hmod, hwf', _, hdump⟩ :=
                modify_spec ch b (Node.update [] (addAt [] (1 + cmn.length))) _
                  { pfx := b :: cmn, isCompleteWord := true,
                    children := .cons c (c :: ps'') nw nch .nil } true hwf hget hadd rfl
                  (⟨rfl, by simp [Children.keys], hwfn, trivial⟩ :
                    (Children.cons c (c :: ps'') nw nch .nil).wf)
              refine ⟨[b], [], 1 + cmn.length, ⟨p, w, cs'⟩, true, hsearch,
                by rw [update_cons, hmod], rfl, hwf', ?_⟩
              intro pre x
              have hx := hdump pre (pre ++ b :: (cmn ++ []))
                (by
                  intro y
                  simp [Node.dumpData, Children.dumpData]
                  tauto)
                x
              simp only [Node.dumpData, List.mem_append, hx]
              tauto
            | cons d us'' =>
              have hcd : c ≠ d := hne c d ps'' us'' rfl rfl
              have hadd := addAt_split_branch b cmn c ps'' nw nch d us'' hcd
              obtain ⟨cs', hmod, hwf', _, hdump⟩ :=
                modify_spec ch b (Node.update [] (addAt (d :: us'') (1 + cmn.length))) _
                  { pfx := b :: cmn, isCompleteWord := false,
                    children :=
                      .cons c (c :: ps'') nw nch (.cons d (d :: us'') true .nil .nil) }
                  true hwf hget hadd rfl
                  (⟨rfl, by simp [Children.keys, hcd],
                    hwfn, rfl, by simp [Children.keys], trivial, trivial⟩ :
                    (Children.cons c (c :: ps'') nw nch
                      (.cons d (d :: us'') true .nil .nil)).wf)
              refine ⟨[b], d :: us'', 1 + cmn.length, ⟨p, w, cs'⟩, true, hsearch,
                by rw [update_cons, hmod], rfl, hwf', ?_⟩
              intro pre x
              have hx := hdump pre (pre ++ b :: (cmn ++ d :: us''))
                (by
                  intro y
                  simp [Node.dumpData, Children.dumpData]
                  tauto)
                x
              simp only [Node.dumpData, List.mem_append, hx]
              tauto

/-- One call of `Add` on a well-shaped trie returns, keeps the shape, and
adds the word to what `DumpData` returns. -/
theorem Add_spec (t : Trie) (str : List Nat) (hwf : t.root.children.wf) :
    ∃ t', t.Add str = some t' ∧ t'.root.children.wf ∧
      ∀ x, x ∈ t'.DumpData ↔ x ∈ t.DumpData ∨ x = str := by
  obtain ⟨path, un, pl, m', grew, hs, hu, _, hw, hd⟩ :=
    searchLoop_update str.length t.root str hwf (Nat.le_refl _)
  refine ⟨{ root := m', length := if grew then t.length + 1 else t.length },
    by simp only [Trie.Add, Trie.search, hs, hu], hw, ?_⟩
  intro x
  simpa [Trie.DumpData] using hd [] x

theorem addWords_spec : ∀ (words : List (List Nat)) (t : Trie), t.root.children.wf →
    ∃ t', addWords t words = some t' ∧ t'.root.children.wf ∧
      ∀ x, x ∈ t'.DumpData ↔ x ∈ t.DumpData ∨ x ∈ words := by
  intro words
  induction words with
  | nil => intro t hwf; exact ⟨t, rfl, hwf, by simp⟩
  | cons word words ih =>
    intro t hwf
    obtain ⟨t1, h1, hwf1, hd1⟩ := Add_spec t word hwf
    obtain ⟨t2, h2, hwf2, hd2⟩ := ih t1 hwf1
    refine ⟨t2, by simp only [addWords, h1, h2], hwf2, ?_⟩
    intro x
    rw [hd2, hd1, List.mem_cons, or_assoc]

/-- Claim C20. Round trip of `Add` and `DumpData`: for every list of words,
the empty word and words that begin other words included, calling `Add` on
each word of the list on a new trie returns every time, and `DumpData` of the
trie made then returns the distinct words of the list, each once and nothing
else, in some order: it is a rearrangement of the list without its repeats. -/
theorem C20_Add_DumpData_round_trip (words : List (List Nat)) :
    ∃ t, addWords New words = some t ∧ t.DumpData.Perm words.dedup := by
  obtain ⟨t, h, hwf, hd⟩ := addWords_spec words New trivial
  refine ⟨t, h, ?_⟩
  have hnd : t.DumpData.Nodup := node_dumpData_nodup t.root [] hwf
  apply (List.perm_ext_iff_of_nodup hnd (List.nodup_dedup words)).mpr
  intro x
  have h0 : x ∉ New.DumpData := by simp [New, Trie.DumpData, Node.dumpData, Children.dumpData]
  rw [List.mem_dedup]
  have := hd x
  tauto

/-- Claim C20 on the arrangements of no, one or two distinct letters out of
`a`, `b`, `c`, the one-letter words twice. -/
theorem C20_Add_DumpData_round_trip_witness :
    ∃ t,
      addWords New
        [[], [97], [98], [99], [97, 98], [97, 99], [98, 97], [98, 99], [99, 97], [99, 98],
          [97], [98], [99]] = some t ∧
      t.DumpData.Perm
        [[], [97, 98], [97, 99], [98, 97], [98, 99], [99, 97], [99, 98], [97], [98], [99]] := by
  have h := C20_Add_DumpData_round_trip
    [[], [97], [98], [99], [97, 98], [97, 99], [98, 97], [98, 99], [99, 97], [99, 98],
      [97], [98], [99]]
  have hdedup :
      ([[], [97], [98], [99], [97, 98], [97, 99], [98, 97], [98, 99], [99, 97], [99, 98],
        [97], [98], [99]] : List (List Nat)).dedup
        = [[], [97, 98], [97, 99], [98, 97], [98, 99], [99, 97], [99, 98], [97], [98], [99]] := by
    decide
  rw [hdedup] at h
  exact h

theorem get_mem_keys (cs : Children) (b : Nat) (node : Node) (h : cs.get b = some node) :
    b ∈ cs.keys := by
  by_contra hn
  rw [(get_eq_none_iff cs b).mpr hn] at h
  cases h

/-- Membership in what is dumped from well-shaped children, by the key under
which the word is found. -/
theorem mem_dumpData_iff (cs : Children) :
    ∀ pre x, cs.wf →
      (x ∈ cs.dumpData pre ↔
        ∃ k t node, x = pre ++ k :: t ∧ cs.get k = some node ∧
          x ∈ node.dumpData (pre ++ node.pfx)) := by
  induction cs with
  | nil => intro pre x _; simp [Children.dumpData, Children.get]
  | cons key pfx w ch rest _ ih =>
    intro pre x hwf
    have hwf' := hwf
    obtain ⟨hhead, hkey, hch, hrest⟩ := hwf
    rw [mem_dumpData_cons]
    constructor
    · rintro (h | h)
      · have h1 : x ∈ (Children.cons key pfx w ch .nil).dumpData pre := by
          rw [mem_dumpData_cons]
          exact Or.inl h
        obtain ⟨k, t, hk, hx⟩ :=
          dumpData_form (.cons key pfx w ch .nil) pre x
            ⟨hhead, by simp [Children.keys], hch, trivial⟩ h1
        simp only [Children.keys, List.mem_singleton] at hk
        subst hk
        exact ⟨k, t, ⟨pfx, w, ch⟩, hx, by simp [Children.get], h⟩
      · obtain ⟨k, t, node, hx, hget, hmem⟩ := (ih pre x hrest).mp h
        have hne : key ≠ k := by
          intro hk
          subst hk
          exact hkey (get_mem_keys rest _ node hget)
        exact ⟨k, t, node, hx, by simp [Children.get, hne, hget], hmem⟩
    · rintro ⟨k, t, node, hx, hget, hmem⟩
      by_cases hk : key = k
      · subst hk
        simp only [Children.get, if_true, Option.some.injEq] at hget
        subst hget
        exact Or.inl hmem
      · simp only [Children.get, hk, if_false] at hget
        exact Or.inr ((ih pre x hrest).mpr ⟨k, t, node, hx, hget, hmem⟩)

theorem dumpData_prefix (cs : Children) :
    ∀ pre x, x ∈ cs.dumpData pre → pre <+: x := by
  induction cs with
  | nil => intro pre x h; simp [Children.dumpData] at h
  | cons key pfx w ch rest ihch ihrest =>
    intro pre x h
    simp only [Children.dumpData, List.mem_append] at h
    rcases h with (h | h) | h
    · split at h
      · simp only [List.mem_singleton] at h
        subst h
        exact List.prefix_append _ _
      · simp at h
    · exact (List.prefix_append pre pfx).trans (ihch _ _ h)
    · exact ihrest _ _ h

theorem node_dumpData_prefix (n : Node) (pre x : List Nat) (h : x ∈ n.dumpData pre) :
    pre <+: x := by
  simp only [Node.dumpData, List.mem_append] at h
  rcases h with h | h
  · split at h
    · simp only [List.mem_singleton] at h
      subst h
      exact List.prefix_refl _
    · simp at h
  · exact dumpData_prefix _ _ _ h

theorem delete_get (cs : Children) (b k : Nat) :
    (cs.delete b).get k = if k = b then none else cs.get k := by
  induction cs with
  | nil => simp [Children.delete, Children.get]
  | cons key pfx w ch rest _ ih =>
    by_cases hkb : key = b
    · subst hkb
      simp only [Children.delete, if_true, ih]
      by_cases hk : k = key
      · simp [hk]
      · simp [Children.get, hk, Ne.symm hk]
    · simp only [Children.delete, hkb, if_false, Children.get, ih]
      by_cases hk : key = k
      · subst hk
        simp [hkb]
      · simp [hk]

theorem delete_keys (cs : Children) (b k : Nat) (h : k ∈ (cs.delete b).keys) : k ∈ cs.keys := by
  induction cs with
  | nil => simp [Children.delete, Children.keys] at h
  | cons key pfx w ch rest _ ih =>
    by_cases hkb : key = b
    · simp only [Children.delete, hkb, if_true] at h
      simp [Children.keys, ih h]
    · simp only [Children.delete, hkb, if_false, Children.keys, List.mem_cons] at h
      rcases h with h | h
      · simp [Children.keys, h]
      · simp [Children.keys, ih h]

theorem delete_wf (cs : Children) (b : Nat) (hwf : cs.wf) : (cs.delete b).wf := by
  induction cs with
  | nil => simp [Children.delete, Children.wf]
  | cons key pfx w ch rest _ ih =>
    obtain ⟨hhead, hkey, hch, hrest⟩ := hwf
    by_cases hkb : key = b
    · simp only [Children.delete, hkb, if_true]
      exact ih hrest
    · simp only [Children.delete, hkb, if_false]
      exact ⟨hhead, fun hk => hkey (delete_keys rest b key hk), hch, ih hrest⟩

theorem set_get (cs : Children) (b k : Nat) (n : Node) :
    (cs.set b n).get k = if k = b then some n else cs.get k := by
  induction cs with
  | nil =>
    by_cases hk : b = k
    · simp [Children.set, Children.get, hk]
    · simp [Children.set, Children.get, hk, Ne.symm hk]
  | cons key pfx w ch rest _ ih =>
    by_cases hkb : key = b
    · subst hkb
      by_cases hk : key = k
      · simp [Children.set, Children.get, hk]
      · simp [Children.set, Children.get, hk, Ne.symm hk]
    · simp only [Children.set, hkb, if_false, Children.get, ih]
      by_cases hk : key = k
      · subst hk
        simp [hkb]
      · simp [hk]

theorem set_keys_of_mem (cs : Children) (b : Nat) (n : Node) (h : b ∈ cs.keys) :
    (cs.set b n).keys = cs.keys := by
  induction cs with
  | nil => simp [Children.keys] at h
  | cons key pfx w ch rest _ ih =>
    by_cases hkb : key = b
    · simp [Children.set, hkb, Children.keys]
    · simp only [Children.keys, List.mem_cons] at h
      rcases h with h | h
      · exact absurd h.symm hkb
      · simp [Children.set, hkb, Children.keys, ih h]

theorem set_wf_of_mem (cs : Children) (b : Nat) (n : Node) (hwf : cs.wf) (h : b ∈ cs.keys)
    (hhead : n.pfx.head? = some b) (hn : n.children.wf) : (cs.set b n).wf := by
  induction cs with
  | nil => simp [Children.keys] at h
  | cons key pfx w ch rest _ ih =>
    obtain ⟨hhead', hkey, hch, hrest⟩ := hwf
    by_cases hkb : key = b
    · subst hkb
      simp only [Children.set, if_true]
      exact ⟨hhead, hkey, hn, hrest⟩
    · simp only [Children.keys, List.mem_cons] at h
      rcases h with h | h
      · exact absurd h.symm hkb
      · simp only [Children.set, hkb, if_false]
        exact ⟨hhead', by rw [set_keys_of_mem rest b n h]; exact hkey, hch, ih hrest h⟩

/-- A change of the child under `b` through `modify`: the result, its shape
and its entries. -/
theorem modify_get (cs : Children) (b : Nat) (f : Node → Option (Node × Bool))
    (node node' : Node) (grew : Bool) :
    cs.wf → cs.get b = some node → f node = some (node', grew) →
      node'.pfx.head? = some b → node'.children.wf →
      ∃ cs', cs.modify b f = some (cs', grew) ∧ cs'.wf ∧ cs'.keys = cs.keys ∧
        ∀ k, cs'.get k = if k = b then some node' else cs.get k := by
  induction cs with
  | nil => intro _ hget; simp [Children.get] at hget
  | cons key pfx w ch rest _ ih =>
    intro hwf hget hf hhead' hwf'
    obtain ⟨hhead, hkey, hch, hrest⟩ := hwf
    by_cases hk : key = b
    · subst hk
      simp only [Children.get, if_true, Option.some.injEq] at hget
      subst hget
      have hwfn : (Children.cons key node'.pfx node'.isCompleteWord node'.children rest).wf :=
        ⟨hhead', hkey, hwf', hrest⟩
      refine ⟨Children.cons key node'.pfx node'.isCompleteWord node'.children rest,
        by simp [Children.modify, hf], hwfn, rfl, ?_⟩
      intro k
      by_cases hkk : key = k
      · simp [Children.get, hkk]
      · simp [Children.get, hkk, Ne.symm hkk]
    · have hget' : rest.get b = some node := by simpa [Children.get, hk] using hget
      obtain ⟨rest', hmod, hwfr, hkeys, hg⟩ := ih hrest hget' hf hhead' hwf'
      have hwfn : (Children.cons key pfx w ch rest').wf :=
        ⟨hhead, by rw [hkeys]; exact hkey, hch, hwfr⟩
      refine ⟨Children.cons key pfx w ch rest', by simp [Children.modify, hk, hmod], hwfn,
        by simp [Children.keys, hkeys], ?_⟩
      intro k
      by_cases hkk : key = k
      · subst hkk
        simp [Children.get, hk]
      · simp [Children.get, hkk, hg k]

/-- When a map of children changes only under the key `b`, and what is
dumped from the child under `b` loses one word that goes on with `b`, what is
dumped from the map loses that word and nothing else. -/
theorem dumpData_change (cs cs' : Children) (b : Nat) (node : Node) (pre word : List Nat)
    (hwf : cs.wf) (hwf' : cs'.wf) (hother : ∀ k, k ≠ b → cs'.get k = cs.get k)
    (hget : cs.get b = some node) (hword : ∃ t, word = pre ++ b :: t)
    (hnode : ∀ x, (∃ n', cs'.get b = some n' ∧ x ∈ n'.dumpData (pre ++ n'.pfx))
      ↔ (x ∈ node.dumpData (pre ++ node.pfx) ∧ x ≠ word)) :
    ∀ x, x ∈ cs'.dumpData pre ↔ x ∈ cs.dumpData pre ∧ x ≠ word := by
  intro x
  rw [mem_dumpData_iff cs' pre x hwf', mem_dumpData_iff cs pre x hwf]
  constructor
  · rintro ⟨k, t, n', hx, hg, hmem⟩
    by_cases hk : k = b
    · subst hk
      obtain ⟨h1, h2⟩ := (hnode x).mp ⟨n', hg, hmem⟩
      exact ⟨⟨k, t, node, hx, hget, h1⟩, h2⟩
    · refine ⟨⟨k, t, n', hx, by rw [← hother k hk]; exact hg, hmem⟩, ?_⟩
      obtain ⟨t', rfl⟩ := hword
      intro heq
      rw [hx] at heq
      have := List.append_cancel_left heq
      simp only [List.cons.injEq] at this
      exact hk this.1
  · rintro ⟨⟨k, t, n, hx, hg, hmem⟩, hne⟩
    by_cases hk : k = b
    · subst hk
      rw [hget] at hg
      cases hg
      obtain ⟨n', hg', hmem'⟩ := (hnode x).mpr ⟨hmem, hne⟩
      exact ⟨k, t, n', hx, hg', hmem'⟩
    · exact ⟨k, t, n, hx, by rw [hother k hk]; exact hg, hmem⟩

theorem mem_node_dumpData_cons (m node : Node) (b : Nat) (us pre : List Nat)
    (hwf : m.children.wf) (hget : m.children.get b = some node) :
    pre ++ b :: us ∈ m.dumpData pre ↔ pre ++ b :: us ∈ node.dumpData (pre ++ node.pfx) := by
  have hne : pre ++ b :: us ≠ pre := by
    intro h
    have := congrArg List.length h
    simp at this
  simp only [Node.dumpData, List.mem_append]
  constructor
  · rintro (h | h)
    · split at h
      · simp only [List.mem_singleton] at h
        exact absurd h hne
      · simp at h
    · obtain ⟨k, t, n, hx, hg, hmem⟩ := (mem_dumpData_iff _ pre _ hwf).mp h
      have := List.append_cancel_left hx
      simp only [List.cons.injEq] at this
      rw [← this.1, hget] at hg
      cases hg
      simpa [Node.dumpData] using hmem
  · intro h
    exact Or.inr ((mem_dumpData_iff _ pre _ hwf).mpr
      ⟨b, us, node, rfl, hget, by simpa [Node.dumpData] using h⟩)

theorem not_mem_node_dumpData_of_get_none (m : Node) (b : Nat) (us pre : List Nat)
    (hwf : m.children.wf) (hget : m.children.get b = none) :
    pre ++ b :: us ∉ m.dumpData pre := by
  have hne : pre ++ b :: us ≠ pre := by
    intro h
    have := congrArg List.length h
    simp at this
  simp only [Node.dumpData, List.mem_append]
  rintro (h | h)
  · split at h
    · simp only [List.mem_singleton] at h
      exact hne h
    · simp at h
  · obtain ⟨k, t, n, hx, hg, _⟩ := (mem_dumpData_iff _ pre _ hwf).mp h
    have := List.append_cancel_left hx
    simp only [List.cons.injEq] at this
    rw [← this.1, hget] at hg
    cases hg

/-- A node whose children lose one word, other than the prefix of the call,
loses that word. -/
theorem node_dumpData_change (p : List Nat) (w : Bool) (cs cs' : Children) (pre word : List Nat)
    (hne : word ≠ pre)
    (h : ∀ x, x ∈ cs'.dumpData pre ↔ x ∈ cs.dumpData pre ∧ x ≠ word) :
    ∀ x, x ∈ (Node.mk p w cs').dumpData pre ↔ x ∈ (Node.mk p w cs).dumpData pre ∧ x ≠ word := by
  intro x
  simp only [Node.dumpData, List.mem_append, h x]
  constructor
  · rintro (h1 | ⟨h1, h2⟩)
    · refine ⟨Or.inl h1, ?_⟩
      split at h1
      · simp only [List.mem_singleton] at h1
        rw [h1]
        exact fun e => hne e.symm
      · simp at h1
    · exact ⟨Or.inr h1, h2⟩
  · rintro ⟨h1 | h1, h2⟩
    · exact Or.inl h1
    · exact Or.inr ⟨h1, h2⟩

/-- What `Remove` does to a complete word `match` with a parent, seen from
the parent: the call returns, the shape is kept, and what is dumped from the
parent loses the word that ends at `match` and nothing else. -/
theorem removeChild_spec (p : List Nat) (w : Bool) (cs : Children) (b : Nat) (ps : List Nat)
    (ch : Children) (hwf : cs.wf)
    (hget : cs.get b = some { pfx := b :: ps, isCompleteWord := true, children := ch })
    (hch : ch.wf) :
    ∃ cs' g, removeChild b { pfx := p, isCompleteWord := w, children := cs }
        = some ({ pfx := p, isCompleteWord := w, children := cs' }, g) ∧ cs'.wf ∧
      ∀ pre x, x ∈ (Node.mk p w cs').dumpData pre
        ↔ x ∈ (Node.mk p w cs).dumpData pre ∧ x ≠ pre ++ b :: ps := by
  have hne : ∀ pre : List Nat, pre ++ b :: ps ≠ pre := by
    intro pre h
    have := congrArg List.length h
    simp at this
  have hkeys : b ∈ cs.keys := get_mem_keys cs b _ hget
  cases ch with
  | nil =>
    refine ⟨cs.delete b, true, by simp [removeChild, hget], delete_wf cs b hwf, ?_⟩
    intro pre
    apply node_dumpData_change p w cs _ pre _ (hne pre)
    apply dumpData_change cs _ b _ pre _ hwf (delete_wf cs b hwf)
      (fun k hk => by simp [delete_get, hk]) hget ⟨ps, rfl⟩
    intro x
    simp [delete_get, Node.dumpData, Children.dumpData]
  | cons ck cp cw cch crest =>
    obtain ⟨hchead, _, hcch, hcrest⟩ := hch
    cases crest with
    | nil =>
      have hwf' : (cs.set b { pfx := b :: (ps ++ cp), isCompleteWord := cw, children := cch }).wf :=
        set_wf_of_mem cs b _ hwf hkeys rfl hcch
      refine ⟨cs.set b { pfx := b :: (ps ++ cp), isCompleteWord := cw, children := cch }, true,
        by simp [removeChild, hget], hwf', ?_⟩
      intro pre
      apply node_dumpData_change p w cs _ pre _ (hne pre)
      apply dumpData_change cs _ b _ pre _ hwf hwf' (fun k hk => by simp [set_get, hk]) hget
        ⟨ps, rfl⟩
      intro x
      have hcp : cp ≠ [] := by
        intro h
        rw [h] at hchead
        simp at hchead
      have hnot : pre ++ b :: ps ∉
          (Node.mk (b :: (ps ++ cp)) cw cch).dumpData (pre ++ b :: (ps ++ cp)) := by
        intro hmem
        have hpre := node_dumpData_prefix _ _ _ hmem
        have hlen := hpre.length_le
        simp only [List.length_append, List.length_cons] at hlen
        have : 0 < cp.length := List.length_pos.mpr hcp
        omega
      simp only [set_get, if_true, Option.some.injEq, exists_eq_left']
      have hassoc : pre ++ b :: (ps ++ cp) = pre ++ b :: ps ++ cp := by simp
      simp only [Node.dumpData, Children.dumpData, List.mem_append, List.append_nil] at hnot ⊢
      rw [hassoc] at hnot ⊢
      constructor
      · intro h
        refine ⟨Or.inr h, ?_⟩
        intro e
        rw [e] at h
        exact hnot h
      · rintro ⟨h | h, hx⟩
        · simp only [if_true, List.mem_singleton] at h
          exact absurd h hx
        · exact h
    | cons ck2 cp2 cw2 cch2 crest2 =>
      obtain ⟨cs', hmod, hwf', _, hg⟩ :=
        modify_get cs b (fun n => some ({ n with isCompleteWord := false }, true)) _
          { pfx := b :: ps, isCompleteWord := false,
            children := .cons ck cp cw cch (.cons ck2 cp2 cw2 cch2 crest2) } true hwf hget rfl rfl
          ⟨hchead, by assumption, hcch, hcrest⟩
      refine ⟨cs', true, by simp [removeChild, hget, hmod], hwf', ?_⟩
      intro pre
      apply node_dumpData_change p w cs _ pre _ (hne pre)
      apply dumpData_change cs _ b _ pre _ hwf hwf' (fun k hk => by simp [hg, hk]) hget
        ⟨ps, rfl⟩
      intro x
      have hnot := pre_not_mem_dumpData
        (.cons ck cp cw cch (.cons ck2 cp2 cw2 cch2 crest2)) (pre ++ b :: ps)
        ⟨hchead, by assumption, hcch, hcrest⟩
      simp only [hg, if_true, Option.some.injEq, exists_eq_left']
      simp only [Node.dumpData, List.mem_append, if_true, List.mem_singleton, Bool.false_eq_true,
        if_false, List.not_mem_nil, false_or]
      constructor
      · intro h
        refine ⟨Or.inr h, ?_⟩
        intro e
        rw [e] at h
        exact hnot h
      · rintro ⟨h | h, hx⟩
        · exact absurd h hx
        · exact h

theorem updateParent_cons_cons (b c : Nat) (path : List Nat)
    (f : Nat → Node → Option (Node × Bool)) (m : Node) :
    Node.updateParent (b :: c :: path) f m
      = match m.children.modify b (Node.updateParent (c :: path) f) with
        | none => none
        | some (children, grew) => some ({ m with children := children }, grew) := rfl

theorem not_mem_of_not_prefix (node : Node) (b : Nat) (ps us pre : List Nat)
    (hfull : ¬(ps.length ≤ us.length ∧ ps = us.take ps.length)) :
    pre ++ b :: us ∉ node.dumpData (pre ++ b :: ps) := by
  intro h
  have hpre := node_dumpData_prefix _ _ _ h
  rw [List.prefix_append_right_inj, List.cons_prefix_cons] at hpre
  obtain ⟨t, ht⟩ := hpre.2
  apply hfull
  subst ht
  simp

/-- One call of `Remove`, seen from the node at which the loop of `search`
starts: the search ends at a node the path leads to; the word is dumped from
the node exactly when nothing is left unmatched, the match is not partial and
the node found is a complete word; and then, when the node found is not the
one the search started at, the change made through its parent keeps the shape
and takes the word, and nothing else, from what is dumped. -/
theorem searchLoop_remove : ∀ (fuel : Nat) (m : Node) (u : List Nat),
    m.children.wf → u.length ≤ fuel →
    ∃ path un pl mt,
      searchLoop fuel m u = some (path, un, pl) ∧
      m.follow path = some mt ∧
      (path = [] → un = u) ∧
      (∀ pre, pre ++ u ∈ m.dumpData pre ↔ (un = [] ∧ pl = 0 ∧ mt.isCompleteWord = true)) ∧
      (path ≠ [] → un = [] → pl = 0 → mt.isCompleteWord = true →
        ∃ m' g, m.updateParent path removeChild = some (m', g) ∧
          m'.pfx = m.pfx ∧ m'.isCompleteWord = m.isCompleteWord ∧ m'.children.wf ∧
          ∀ pre x, x ∈ m'.dumpData pre ↔ x ∈ m.dumpData pre ∧ x ≠ pre ++ u) := by
  have hnil : ∀ (fuel : Nat) (m : Node), m.children.wf →
      ∃ path un pl mt,
        searchLoop fuel m [] = some (path, un, pl) ∧
        m.follow path = some mt ∧
        (path = [] → un = []) ∧
        (∀ pre, pre ++ [] ∈ m.dumpData pre ↔ (un = [] ∧ pl = 0 ∧ mt.isCompleteWord = true)) ∧
        (path ≠ [] → un = [] → pl = 0 → mt.isCompleteWord = true →
          ∃ m' g, m.updateParent path removeChild = some (m', g) ∧
            m'.pfx = m.pfx ∧ m'.isCompleteWord = m.isCompleteWord ∧ m'.children.wf ∧
            ∀ pre x, x ∈ m'.dumpData pre ↔ x ∈ m.dumpData pre ∧ x ≠ pre ++ []) := by
    intro fuel m hwf
    refine ⟨[], [], 0, m, by cases fuel <;> simp [searchLoop], rfl, fun _ => rfl, ?_,
      fun h => absurd rfl h⟩
    intro pre
    have hnot := pre_not_mem_dumpData m.children pre hwf
    simp only [List.append_nil, Node.dumpData, List.mem_append, true_and]
    constructor
    · rintro (h | h)
      · split at h
        · assumption
        · simp at h
      · exact absurd h hnot
    · intro h
      simp [h]
  intro fuel
  induction fuel with
  | zero =>
    intro m u hwf hlen
    have hu : u = [] := List.length_eq_zero.mp (Nat.le_zero.mp hlen)
    subst hu
    exact hnil 0 m hwf
  | succ fuel ih =>
    intro m u hwf hlen
    cases u with
    | nil => exact hnil (fuel + 1) m hwf
    | cons b us =>
      obtain ⟨p, w, cs⟩ := m
      simp only at hwf
      cases hget : cs.get b with
      | none =>
        refine ⟨[], b :: us, 0, ⟨p, w, cs⟩, by simp [searchLoop, hget], rfl, fun _ => rfl, ?_,
          fun h => absurd rfl h⟩
        intro pre
        have := not_mem_node_dumpData_of_get_none ⟨p, w, cs⟩ b us pre hwf hget
        simp [this]
      | some node =>
        obtain ⟨hhead, hwfn⟩ := get_some_wf cs b node hwf hget
        obtain ⟨np, nw, nch⟩ := node
        obtain ⟨ps, rfl⟩ : ∃ ps, np = b :: ps := by
          cases np with
          | nil => simp at hhead
          | cons a ps => simp at hhead; exact ⟨ps, by rw [hhead]⟩
        simp only at hwfn
        have hH : ∀ pre, pre ++ b :: us ∈ (Node.mk p w cs).dumpData pre
            ↔ pre ++ b :: us ∈ (Node.mk (b :: ps) nw nch).dumpData (pre ++ b :: ps) :=
          fun pre => mem_node_dumpData_cons ⟨p, w, cs⟩ _ b us pre hwf hget
        by_cases hfull : ps.length ≤ us.length ∧ ps = us.take ps.length
        · have hlen' : (us.drop ps.length).length ≤ fuel := by
            simp only [List.length_drop, List.length_cons] at hlen ⊢
            omega
          have hus : ps ++ us.drop ps.length = us := by
            have h2 : us.take ps.length ++ us.drop ps.length = us := List.take_append_drop _ _
            rw [← hfull.2] at h2
            exact h2
          obtain ⟨path, un, pl, mt, hs, hf, hp, hmem, hrem⟩ :=
            ih ⟨b :: ps, nw, nch⟩ (us.drop ps.length) hwfn hlen'
          refine ⟨b :: path, un, pl, mt, by simp only [searchLoop, hget, if_pos hfull, hs],
            by simp only [Node.follow, hget, hf], fun h => absurd h (by simp), ?_, ?_⟩
          · intro pre
            rw [hH pre, ← hmem (pre ++ b :: ps)]
            have : pre ++ b :: ps ++ us.drop ps.length = pre ++ b :: us := by
              rw [← hus]
              simp
            rw [this]
          · intro _ hun hpl hw
            have hword : ∀ pre : List Nat,
                pre ++ b :: ps ++ us.drop ps.length = pre ++ b :: us := by
              intro pre
              conv_rhs => rw [← hus]
              simp
            have hne : ∀ pre : List Nat, pre ++ b :: us ≠ pre := by
              intro pre h
              have := congrArg List.length h
              simp at this
            cases path with
            | nil =>
              simp only [Node.follow, Option.some.injEq] at hf
              subst hf
              simp only at hw
              subst hw
              have hdrop : us.drop ps.length = [] := by rw [← hp rfl, hun]
              have husps : us = ps := by rw [← hus, hdrop, List.append_nil]
              subst husps
              obtain ⟨cs', g, hrc, hwf', hd⟩ := removeChild_spec p w cs b us nch hwf hget hwfn
              exact ⟨⟨p, w, cs'⟩, g, by simpa [Node.updateParent] using hrc, rfl, rfl, hwf', hd⟩
            | cons c path' =>
              obtain ⟨node', g, hup, hpfx, _, hwf1, hd⟩ := hrem (by simp) hun hpl hw
              have hpfx' : node'.pfx = b :: ps := hpfx
              obtain ⟨cs', hmod, hwf', _, hg⟩ :=
                modify_get cs b (Node.updateParent (c :: path') removeChild) _ node' g hwf hget
                  hup (by rw [hpfx']; rfl) hwf1
              refine ⟨⟨p, w, cs'⟩, g, by rw [updateParent_cons_cons, hmod], rfl, rfl, hwf', ?_⟩
              intro pre
              apply node_dumpData_change p w cs _ pre _ (hne pre)
              apply dumpData_change cs _ b _ pre _ hwf hwf' (fun k hk => by simp [hg, hk]) hget
                ⟨us, rfl⟩
              intro x
              simp only [hg, if_true, Option.some.injEq, exists_eq_left', hpfx']
              rw [hd (pre ++ b :: ps) x, hword pre]
        · refine ⟨[b], (b :: us).drop (1 + commonLen ps us), 1 + commonLen ps us,
            ⟨b :: ps, nw, nch⟩, by simp only [searchLoop, hget, if_neg hfull],
            by simp only [Node.follow, hget], fun h => absurd h (by simp), ?_, ?_⟩
          · intro pre
            rw [hH pre]
            have := not_mem_of_not_prefix ⟨b :: ps, nw, nch⟩ b ps us pre hfull
            simp [this]
          · intro _ _ hpl
            omega

/-- One call of `Remove` on a well-shaped trie returns; it answers true
exactly when the word is dumped, as `Contains` does; the shape is kept; the
words dumped afterwards are those dumped before other than the word; and a
call that answers false leaves the trie as it is. -/
theorem Remove_spec (t : Trie) (str : List Nat) (hwf : t.root.children.wf) :
    ∃ found t', t.Remove str = some (found, t') ∧ t.Contains str = some found ∧
      (found = true ↔ str ∈ t.DumpData) ∧ t'.root.children.wf ∧
      (∀ x, x ∈ t'.DumpData ↔ x ∈ t.DumpData ∧ x ≠ str) ∧
      (found = false → t' = t) := by
  obtain ⟨path, un, pl, mt, hs, hf, hp, hmem, hrem⟩ :=
    searchLoop_remove str.length t.root str hwf (Nat.le_refl _)
  have hmem0 : str ∈ t.DumpData ↔ (un = [] ∧ pl = 0 ∧ mt.isCompleteWord = true) := by
    simpa [Trie.DumpData] using hmem []
  by_cases hcond : un = [] ∧ pl = 0 ∧ mt.isCompleteWord = true
  · obtain ⟨hun, hpl, hw⟩ := hcond
    have hstored : str ∈ t.DumpData := hmem0.mpr ⟨hun, hpl, hw⟩
    have hcont : t.Contains str = some true := by
      simp [Trie.Contains, Trie.search, hs, hf, hun, hpl, hw]
    cases path with
    | nil =>
      have hstr : str = [] := by rw [← hp rfl, hun]
      simp only [Node.follow, Option.some.injEq] at hf
      subst hf
      refine ⟨true, { root := { t.root with isCompleteWord := false }, length := t.length - 1 },
        by simp [Trie.Remove, Trie.search, hs, Node.follow, hun, hpl, hw], hcont,
        by simp [hstored], hwf, ?_, by simp⟩
      intro x
      have hnot := pre_not_mem_dumpData t.root.children [] hwf
      simp only [Trie.DumpData, Node.dumpData, hw, hstr, if_true, List.mem_append,
        List.mem_singleton, Bool.false_eq_true, if_false, List.not_mem_nil, false_or]
      constructor
      · intro h
        refine ⟨Or.inr h, ?_⟩
        intro e
        rw [e] at h
        exact hnot h
      · rintro ⟨h | h, hx⟩
        · exact absurd h hx
        · exact h
    | cons b path' =>
      obtain ⟨m', g, hup, _, _, hwf', hd⟩ := hrem (by simp) hun hpl hw
      refine ⟨true, { root := m', length := t.length - 1 },
        by simp [Trie.Remove, Trie.search, hs, hf, hun, hpl, hw, hup], hcont,
        by simp [hstored], hwf', ?_, by simp⟩
      intro x
      simpa [Trie.DumpData] using hd [] x
  · have hnot : str ∉ t.DumpData := fun h => hcond (hmem0.mp h)
    have hcont : t.Contains str = some false := by
      simp only [Trie.Contains, Trie.search, hs, hf, Option.some.injEq]
      by_contra hne
      apply hcond
      simpa [and_comm, and_left_comm] using hne
    refine ⟨false, t, ?_, hcont, by simp [hnot], hwf, ?_, fun _ => rfl⟩
    · simp only [Trie.Remove, Trie.search, hs, hf]
      by_cases h1 : un ≠ [] ∨ pl ≠ 0
      · rw [if_pos h1]
      · rw [if_neg h1]
        have h1' : un = [] ∧ pl = 0 := by
          constructor
          · by_contra h; exact h1 (Or.inl h)
          · by_contra h; exact h1 (Or.inr h)
        have hw : mt.isCompleteWord = false := by
          cases hmw : mt.isCompleteWord with
          | false => rfl
          | true => exact absurd ⟨h1'.1, h1'.2, hmw⟩ hcond
        simp [hw]
    · intro x
      constructor
      · intro h
        exact ⟨h, fun e => hnot (e ▸ h)⟩
      · exact fun h => h.1

theorem perform_spec : ∀ (calls : List Call) (t : Trie) (words : List (List Nat)),
    t.root.children.wf → (∀ x, x ∈ t.DumpData ↔ x ∈ words) →
    ∃ t', perform t calls = some t' ∧ t'.root.children.wf ∧
      ∀ x, x ∈ t'.DumpData ↔ x ∈ storedAfter words calls := by
  intro calls
  induction calls with
  | nil => intro t words hwf h; exact ⟨t, rfl, hwf, h⟩
  | cons call calls ih =>
    intro t words hwf h
    cases call with
    | Add word =>
      obtain ⟨t1, h1, hwf1, hd1⟩ := Add_spec t word hwf
      obtain ⟨t2, h2, hwf2, hd2⟩ :=
        ih t1 (if word ∈ words then words else words ++ [word]) hwf1
          (by
            intro x
            rw [hd1, h]
            split
            · constructor
              · rintro (hx | hx)
                · exact hx
                · rw [hx]; assumption
              · exact Or.inl
            · simp)
      exact ⟨t2, by simp only [perform, h1, h2], hwf2, by simpa [storedAfter] using hd2⟩
    | Remove word =>
      obtain ⟨found, t1, h1, _, _, hwf1, hd1, _⟩ := Remove_spec t word hwf
      obtain ⟨t2, h2, hwf2, hd2⟩ :=
        ih t1 (words.filter (fun w => w ≠ word)) hwf1
          (by
            intro x
            rw [hd1, h]
            simp)
      exact ⟨t2, by simp only [perform, h1, h2], hwf2, by simpa [storedAfter] using hd2⟩

theorem storedAfter_nodup : ∀ (calls : List Call) (words : List (List Nat)),
    words.Nodup → (storedAfter words calls).Nodup := by
  intro calls
  induction calls with
  | nil => intro words h; exact h
  | cons call calls ih =>
    intro words h
    cases call with
    | Add word =>
      simp only [storedAfter]
      apply ih
      split
      · exact h
      · rename_i hn
        rw [List.nodup_append]
        exact ⟨h, by simp, by simpa using hn⟩
    | Remove word =>
      simp only [storedAfter]
      exact ih _ (h.filter _)

/-- Claim C21. `Remove` on a trie built by any sequence of `Add` and `Remove`
calls on a new trie. No call of the sequence panics, and `DumpData` of the trie
built returns the words stored by the sequence, each once, in some order. For
every word, `Remove` returns and answers whether the word is stored, as
`Contains` does; afterwards `DumpData` returns the words stored before other
than the word, each once, in some order, which for a word that is not stored
are all the words stored before, the trie being then left as it is. -/
theorem C21_Remove (calls : List Call) (word : List Nat) :
    ∃ t t',
      perform New calls = some t ∧
      t.DumpData.Perm (storedAfter [] calls) ∧
      t.Contains word = some (decide (word ∈ storedAfter [] calls)) ∧
      t.Remove word = some (decide (word ∈ storedAfter [] calls), t') ∧
      t'.DumpData.Perm ((storedAfter [] calls).filter (fun w => w ≠ word)) ∧
      (word ∉ storedAfter [] calls → t' = t) := by
  obtain ⟨t, hrun, hwf, hd⟩ := perform_spec calls New [] trivial
    (by intro x; simp [New, Trie.DumpData, Node.dumpData, Children.dumpData])
  obtain ⟨found, t', hrem, hcont, hfound, hwf', hd', hsame⟩ := Remove_spec t word hwf
  have hnd := storedAfter_nodup calls [] List.nodup_nil
  have hf : found = decide (word ∈ storedAfter [] calls) := by
    cases found with
    | true => simpa [hd word] using hfound
    | false =>
      have : word ∉ t.DumpData := fun h => by simpa using hfound.mpr h
      simpa [hd word] using this
  refine ⟨t, t', hrun, ?_, by rw [hcont, hf], by rw [hrem, hf], ?_, ?_⟩
  · have hnd1 : t.DumpData.Nodup := node_dumpData_nodup t.root [] hwf
    exact (List.perm_ext_iff_of_nodup hnd1 hnd).mpr hd
  · have hnd2 : t'.DumpData.Nodup := node_dumpData_nodup t'.root [] hwf'
    apply (List.perm_ext_iff_of_nodup hnd2 (hnd.filter _)).mpr
    intro x
    rw [hd' x, hd x]
    simp
  · intro hn
    apply hsame
    rw [hf]
    simpa using hn

/-- Claim C21 on the trie that stores `a`, `ab` and `abd` after `ab`, `abc`
and `abd` were added, `abc` removed and `a` added, for the word `ab`, which
has one child then. -/
theorem C21_Remove_witness :
    ∃ t t',
      perform New
        [.Add [97, 98], .Add [97, 98, 99], .Add [97, 98, 100], .Remove [97, 98, 99],
          .Add [97]] = some t ∧
      t.DumpData.Perm
        (storedAfter []
          [.Add [97, 98], .Add [97, 98, 99], .Add [97, 98, 100], .Remove [97, 98, 99],
            .Add [97]]) ∧
      t.Contains [97, 98] = some true ∧
      t.Remove [97, 98] = some (true, t') ∧
      t'.DumpData.Perm [[97, 98, 100], [97]] := by
  obtain ⟨t, t', h1, h2, h3, h4, h5, _⟩ :=
    C21_Remove
      [.Add [97, 98], .Add [97, 98, 99], .Add [97, 98, 100], .Remove [97, 98, 99], .Add [97]]
      [97, 98]
  have hs : storedAfter []
      [.Add [97, 98], .Add [97, 98, 99], .Add [97, 98, 100], .Remove [97, 98, 99], .Add [97]]
      = [[97, 98], [97, 98, 100], [97]] := by decide
  rw [hs] at h3 h4 h5
  exact ⟨t, t', h1, h2, h3, h4, h5⟩

/-- C28 (code evaluated at the failing input): the words `a` and `ab` are
added to a new trie, which then stores exactly these two, and `Search("a")` is
called. It returns the continuation `ab` and `isExactMatch = true`. The stored
word `a` begins with `a` but not with `a` followed by `ab`, no stored word
begins with `aab`, and `aab` is not a stored word. -/
theorem C28_continuation_not_guaranteed :
    ∃ t,
      addWords New [[97], [97, 98]] = some t ∧
      t.DumpData = [[97], [97, 98]] ∧
      t.Search [97] = some ([97, 98], true) ∧
      [97] ∈ t.DumpData ∧ [97] <+: [97] ∧ ¬ ([97] ++ [97, 98]) <+: [97] ∧
      (∀ word ∈ t.DumpData, ¬ ([97] ++ [97, 98]) <+: word) ∧
      [97] ++ [97, 98] ∉ t.DumpData :=
  ⟨_, rfl, rfl, rfl, by decide, by decide, by decide, by decide, by decide⟩

end trie

/-! ## Theorems: `getContainer` -/

namespace orca

theorem bestUpTo_succ (candidates : List contatinerCandidate) (n : Nat) :
    bestUpTo candidates (n + 1) =
      if (candidates.getD n ⟨0, 0, 0⟩).concurrentUsers
          > (candidates.getD (bestUpTo candidates n) ⟨0, 0, 0⟩).concurrentUsers
      then n else bestUpTo candidates n := by
  simp only [bestUpTo, List.range_succ, List.foldl_append, List.foldl_cons, List.foldl_nil]

theorem bestUpTo_spec (candidates : List contatinerCandidate) (n : Nat) :
    (bestUpTo candidates n < n ∨ (n = 0 ∧ bestUpTo candidates n = 0)) ∧
    (∀ j, j < n → (candidates.getD j ⟨0, 0, 0⟩).concurrentUsers
        ≤ (candidates.getD (bestUpTo candidates n) ⟨0, 0, 0⟩).concurrentUsers) ∧
    (∀ j, j < bestUpTo candidates n → (candidates.getD j ⟨0, 0, 0⟩).concurrentUsers
        < (candidates.getD (bestUpTo candidates n) ⟨0, 0, 0⟩).concurrentUsers) := by
  induction n with
  | zero =>
    refine ⟨Or.inr ⟨rfl, rfl⟩, ?_, ?_⟩
    · intro j hj; omega
    · intro j hj
      have : bestUpTo candidates 0 = 0 := rfl
      omega
  | succ n ih =>
    obtain ⟨hlt, hmax, hfirst⟩ := ih
    rw [bestUpTo_succ]
    split
    · rename_i hgt
      refine ⟨Or.inl (by omega), ?_, ?_⟩
      · intro j hj
        rcases Nat.lt_succ_iff_lt_or_eq.mp hj with h | h
        · have := hmax j h
          omega
        · subst h; exact le_refl _
      · intro j hj
        have := hmax j hj
        omega
    · rename_i hgt
      refine ⟨Or.inl (by omega), ?_, hfirst⟩
      intro j hj
      rcases Nat.lt_succ_iff_lt_or_eq.mp hj with h | h
      · exact hmax j h
      · subst h; omega

theorem bestIndex_lt (candidates : List contatinerCandidate) (hne : candidates ≠ []) :
    bestIndex candidates < candidates.length := by
  have hpos : 0 < candidates.length := List.length_pos.mpr hne
  rcases (bestUpTo_spec candidates candidates.length).1 with h | ⟨h, _⟩
  · exact h
  · omega

theorem getContainerSelect_deadline (s : GetContainerState)
    (hd : s.electionDeadline = true) (hne : s.candidates ≠ []) :
    getContainerSelect s .electionDeadlineFired =
      some (.returned
        { oc := some (s.candidates.getD (bestIndex s.candidates) ⟨0, 0, 0⟩).container
          err := none
          rejected :=
            if s.candidates.length > 1 then rejectList s.candidates (bestIndex s.candidates)
            else []
          launchCalls := s.launchCalls }) := by
  have hpos : s.candidates.length > 0 := List.length_pos.mpr hne
  simp only [getContainerSelect, hd, if_true, hpos]

/-- C2: when the election deadline fires with a non-empty list of collected
candidates, `getContainer` returns without error the container of the candidate
at index `bestIndex`; that candidate has the largest `concurrentUsers` of all
collected candidates, and every candidate collected before it has a strictly
smaller value, so among equals the first collected wins. -/
theorem C2_bin_pack_choice (s : GetContainerState)
    (hd : s.electionDeadline = true) (hne : s.candidates ≠ []) :
    ∃ r chosen, getContainerSelect s .electionDeadlineFired = some (.returned r) ∧
      s.candidates[bestIndex s.candidates]? = some chosen ∧
      r.oc = some chosen.container ∧ r.err = none ∧
      (∀ c ∈ s.candidates, c.concurrentUsers ≤ chosen.concurrentUsers) ∧
      (∀ j c, j < bestIndex s.candidates → s.candidates[j]? = some c →
        c.concurrentUsers < chosen.concurrentUsers) := by
  have hb := bestIndex_lt s.candidates hne
  obtain ⟨_, hmax, hfirst⟩ := bestUpTo_spec s.candidates s.candidates.length
  have hget : s.candidates.getD (bestIndex s.candidates) ⟨0, 0, 0⟩
      = s.candidates[bestIndex s.candidates] := List.getD_eq_getElem _ _ hb
  refine ⟨_, s.candidates[bestIndex s.candidates], getContainerSelect_deadline s hd hne,
    List.getElem?_eq_getElem hb, ?_, rfl, ?_, ?_⟩
  · simp only [hget]
  · intro c hc
    obtain ⟨j, hj, rfl⟩ := List.mem_iff_getElem.mp hc
    have := hmax j hj
    rw [List.getD_eq_getElem _ _ hj] at this
    unfold bestIndex at hget
    rwa [hget] at this
  · intro j c hj hjc
    have hjl : j < s.candidates.length := by omega
    rw [List.getElem?_eq_getElem hjl] at hjc
    cases hjc
    have := hfirst j hj
    rw [List.getD_eq_getElem _ _ hjl] at this
    unfold bestIndex at hget
    rwa [hget] at this

/-- Witness of C2: candidates with `concurrentUsers` 0, 1, 2 (containers 10,
11, 12) yield container 12, the one with 2. -/
theorem C2_bin_pack_choice_witness :
    ∃ r chosen,
      getContainerSelect
        { getContainerInit with
          electionRequestC := false, electionDeadline := true,
          candidates := [⟨10, 0, 0⟩, ⟨11, 1, 1⟩, ⟨12, 2, 2⟩] }
        .electionDeadlineFired = some (.returned r) ∧
      ([⟨10, 0, 0⟩, ⟨11, 1, 1⟩, ⟨12, 2, 2⟩] : List contatinerCandidate)[bestIndex
        [⟨10, 0, 0⟩, ⟨11, 1, 1⟩, ⟨12, 2, 2⟩]]? = some chosen ∧
      r.oc = some chosen.container ∧ r.err = none ∧
      (∀ c ∈ ([⟨10, 0, 0⟩, ⟨11, 1, 1⟩, ⟨12, 2, 2⟩] : List contatinerCandidate),
        c.concurrentUsers ≤ chosen.concurrentUsers) ∧
      (∀ j c, j < bestIndex [⟨10, 0, 0⟩, ⟨11, 1, 1⟩, ⟨12, 2, 2⟩] →
        ([⟨10, 0, 0⟩, ⟨11, 1, 1⟩, ⟨12, 2, 2⟩] : List contatinerCandidate)[j]? = some c →
        c.concurrentUsers < chosen.concurrentUsers) :=
  C2_bin_pack_choice
    { getContainerInit with
      electionRequestC := false, electionDeadline := true,
      candidates := [⟨10, 0, 0⟩, ⟨11, 1, 1⟩, ⟨12, 2, 2⟩] }
    rfl (by decide)

/-- The bin-packing scenario evaluated: the container with 2 users wins and the
other two candidates are handed to the rejecting goroutine. -/
theorem binpack_scenario_value :
    getContainerSelect
        { getContainerInit with
          electionRequestC := false, electionDeadline := true,
          candidates := [⟨10, 0, 0⟩, ⟨11, 1, 1⟩, ⟨12, 2, 2⟩] }
        .electionDeadlineFired
      = some (.returned
          { oc := some 12, err := none, rejected := [⟨10, 0, 0⟩, ⟨11, 1, 1⟩], launchCalls := 0 }) := by
  rfl

/-- One container can send two candidacies into one election: an admission
armed while no election was open is spent when the next election opens, and the
start signal of that election, found closed afterwards, arms a second one while
the election is still open. The requester then collects two candidacies of the
container 1, chooses the container 1, and hands its second candidacy to the
rejecting goroutine: the container chosen is sent a `nil` as well. Every event
is one the goroutines can take. -/
theorem chosen_container_also_rejected :
    ∃ sys r ret,
      systemRun (systemInit (webImage (-1) (-1)) 1)
        [.signalHandout, .electionRequest, .deadline, .signalSeen, .signalHandout,
          .nextRequester, .electionRequest, .candidatesHandout, .candidacy, .signalSeen,
          .candidatesHandout, .candidacy] = some sys ∧
      sys.requester = .running r ∧
      r.candidates = [{ container := 1, concurrentUsers := 0, totalUsers := 0 },
                      { container := 1, concurrentUsers := 0, totalUsers := 0 }] ∧
      getContainerSelect r .electionDeadlineFired = some (.returned ret) ∧
      ret.oc = some 1 ∧
      ret.rejected = [{ container := 1, concurrentUsers := 0, totalUsers := 0 }] ∧
      (1 : ContainerRef) ∈ ret.rejected.map (fun c => c.container) :=
  ⟨_, _, _, rfl, rfl, rfl, rfl, rfl, rfl, by decide⟩

theorem retryInvariant_select (s : GetContainerState) (ev : GetContainerEvent)
    (st : GetContainerStep) (hinv : retryInvariant (.running s))
    (h : getContainerSelect s ev = some st) : retryInvariant st := by
  obtain ⟨hsum, hpos⟩ := hinv
  cases ev with
  | electionRequestSent =>
    simp only [getContainerSelect] at h
    split at h
    · cases h; exact ⟨hsum, hpos⟩
    · cases h
  | gotCandidate c =>
    simp only [getContainerSelect] at h
    split at h
    · cases h; exact ⟨hsum, hpos⟩
    · cases h
  | electionDeadlineFired =>
    simp only [getContainerSelect] at h
    split at h
    · split at h
      · cases h
        show s.launchCalls ≤ 5
        omega
      · cases h; exact ⟨hsum, hpos⟩
    · cases h
  | requestTimerFired launched =>
    simp only [getContainerSelect] at h
    split at h
    · cases launched with
      | ok oc =>
        cases h
        show s.launchCalls + 1 ≤ 5
        omega
      | error e =>
        simp only at h
        split at h
        · cases h
          refine ⟨?_, ?_⟩
          · show ((s.launchCalls + 1 : Nat) : Int) + (s.attamptsRemainings - 1) = 5
            push_cast
            omega
          · show 0 < s.attamptsRemainings - 1
            omega
        · cases h
          show s.launchCalls + 1 ≤ 5
          omega
    · cases h
  | ctxDone =>
    simp only [getContainerSelect] at h
    cases h
    show s.launchCalls ≤ 5
    omega

theorem retryInvariant_run (evs : List GetContainerEvent) :
    ∀ (st st' : GetContainerStep), retryInvariant st →
      getContainerRun st evs = some st' → retryInvariant st' := by
  induction evs with
  | nil =>
    intro st st' hinv h
    cases st <;> (simp only [getContainerRun] at h; cases h; exact hinv)
  | cons ev evs ih =>
    intro st st' hinv h
    cases st with
    | returned r => simp [getContainerRun] at h
    | running s =>
      simp only [getContainerRun] at h
      split at h
      · cases h
      · rename_i st1 hsel
        exact ih st1 st' (retryInvariant_select s ev st1 hinv hsel) h

theorem launchCalls_le_of_retryInvariant (st : GetContainerStep) (h : retryInvariant st) :
    st.launchCalls ≤ 5 := by
  cases st with
  | running s =>
    obtain ⟨hsum, hpos⟩ := h
    show s.launchCalls ≤ 5
    omega
  | returned r => exact h

theorem getContainerRun_append (evs1 evs2 : List GetContainerEvent) :
    ∀ (st st1 : GetContainerStep), getContainerRun st evs1 = some st1 →
      getContainerRun st (evs1 ++ evs2) = getContainerRun st1 evs2 := by
  induction evs1 with
  | nil =>
    intro st st1 h
    cases st <;> (simp only [getContainerRun] at h; cases h; rfl)
  | cons ev evs ih =>
    intro st st1 h
    cases st with
    | returned r => simp [getContainerRun] at h
    | running s =>
      simp only [getContainerRun, List.cons_append] at h ⊢
      split at h
      · cases h
      · rename_i st2 hsel
        exact ih st2 st1 h

/-- Failed launches that leave an attempt over only count down. -/
theorem getContainerRun_failures (errs : List Error) :
    ∀ (s : GetContainerState), s.requestTimerC = true →
      (errs.length : Int) < s.attamptsRemainings →
      getContainerRun (.running s)
          (errs.map (fun e => GetContainerEvent.requestTimerFired (.error e)))
        = some (.running { s with
            attamptsRemainings := s.attamptsRemainings - errs.length
            launchCalls := s.launchCalls + errs.length }) := by
  induction errs with
  | nil => intro s _ _; simp [getContainerRun]
  | cons e errs ih =>
    intro s ht hlen
    obtain ⟨erc, cc, ed, rtc, rem, cands, lc⟩ := s
    simp only at ht hlen
    subst ht
    simp only [List.length_cons, Nat.cast_add, Nat.cast_one] at hlen
    have hrem : rem - 1 > 0 := by omega
    simp only [List.map_cons, getContainerRun, getContainerSelect, if_true, hrem]
    rw [ih _ rfl (by simp only; omega)]
    simp only [List.length_cons, Nat.cast_add, Nat.cast_one]
    congr 3
    · omega
    · omega

/-- C5: from the start of `getContainer`, `launchContainer` is called at most
5 times along any run; when the election collects no candidate and the launches
fail with `errs` (fewer than 5 failures) and then succeed, exactly
`errs.length + 1` calls are made and the launched container is returned without
error; when 5 launches in a row fail, `getContainer` returns no container and
the last launch error wrapped with the message "retry exceeded", after exactly
5 calls. -/
theorem C5_launch_retry (errs : List Error) (hlen : errs.length < 5) :
    (∀ evs st, getContainerRun (.running getContainerInit) evs = some st →
      st.launchCalls ≤ 5) ∧
    (∀ oc : ContainerRef,
      getContainerRun (.running getContainerInit)
          ([.electionRequestSent, .electionDeadlineFired]
            ++ errs.map (fun e => GetContainerEvent.requestTimerFired (.error e))
            ++ [.requestTimerFired (.ok oc)])
        = some (.returned
            { oc := some oc, err := none, rejected := [], launchCalls := errs.length + 1 })) ∧
    (∀ last : Error, errs.length = 4 →
      getContainerRun (.running getContainerInit)
          ([.electionRequestSent, .electionDeadlineFired]
            ++ errs.map (fun e => GetContainerEvent.requestTimerFired (.error e))
            ++ [.requestTimerFired (.error last)])
        = some (.returned
            { oc := none, err := some (.withMessage last "retry exceeded"), rejected := [],
              launchCalls := 5 })) := by
  have hstart : getContainerRun (.running getContainerInit)
      [.electionRequestSent, .electionDeadlineFired]
      = some (.running { getContainerInit with
          electionRequestC := false, candidatesC := false, requestTimerC := true }) := rfl
  have hfail := getContainerRun_failures errs
    { getContainerInit with
      electionRequestC := false, candidatesC := false, requestTimerC := true }
    rfl (by simp only [getContainerInit]; omega)
  have hprefix := getContainerRun_append _
    (errs.map (fun e => GetContainerEvent.requestTimerFired (.error e))) _ _ hstart
  rw [hfail] at hprefix
  refine ⟨?_, ?_, ?_⟩
  · intro evs st h
    apply launchCalls_le_of_retryInvariant
    refine retryInvariant_run evs _ st ?_ h
    exact ⟨by simp [getContainerInit], by simp [getContainerInit]⟩
  · intro oc
    rw [getContainerRun_append _ _ _ _ hprefix]
    simp [getContainerRun, getContainerSelect, getContainerInit]
  · intro last h4
    rw [getContainerRun_append _ _ _ _ hprefix]
    simp [getContainerRun, getContainerSelect, getContainerInit, h4]

/-- Witness of C5: two failed launches and then a success make exactly 3
calls and return the one launched container. -/
theorem C5_launch_retry_witness :
    ([Error.runtime 1, Error.runtime 2] : List Error).length < 5 ∧
    getContainerRun (.running getContainerInit)
        [.electionRequestSent, .electionDeadlineFired,
          .requestTimerFired (.error (.runtime 1)), .requestTimerFired (.error (.runtime 2)),
          .requestTimerFired (.ok 7)]
      = some (.returned { oc := some 7, err := none, rejected := [], launchCalls := 3 }) :=
  ⟨by decide, (C5_launch_retry [.runtime 1, .runtime 2] (by decide)).2.1 7⟩

/-! ## Theorems: `manageContainerState` with the scheduler and a requester -/

/-- C1 (code evaluated at the failing input): image with `ConcurrentUsers = 2`
and unbounded `TotalUsers`, container freshly launched (`reservedUsers = 1`).
The container finds the signal of a first election closed only after that
election was stopped, so its `getCandidatesChan` stays armed. In the second
election it is handed the candidates channel, finds the second signal closed
while `reservedUsers + concurrentUsers` is still 1 (arming `getCandidatesChan`
again) and sends its candidacy. In the third election it is handed the
candidates channel without any new admission test and sends a candidacy again:
`concurrentUsers + reservedUsers = 0 + 3 > 2`. Both requesters choose it, and
once the three reservations are answered it has `concurrentUsers = 3`. Every
event is one the goroutines can take. -/
theorem C1_capacity_exceeded :
    ∃ sys1 sys2 ret,
      systemRun (systemInit (webImage 2 (-1)) 1)
        [.signalHandout, .electionRequest, .deadline, .signalSeen, .signalHandout,
          .nextRequester, .electionRequest, .candidatesHandout, .signalSeen, .candidacy,
          .deadline, .signalHandout,
          .nextRequester, .electionRequest, .candidatesHandout, .candidacy] = some sys1 ∧
      sys1.container.oc.Image.ConcurrentUsers = 2 ∧
      sys1.container.oc.concurrentUsers = 0 ∧
      sys1.container.oc.reservedUsers = 3 ∧
      systemRun sys1
        [.deadline, .response (some 7), .response (some 8), .response (some 9)] = some sys2 ∧
      sys2.requester = .returned ret ∧
      ret.oc = some 1 ∧
      sys2.container.oc.concurrentUsers = 3 ∧
      sys2.container.oc.reservedUsers = 0 ∧
      sys2.container.oc.users.length = 3 :=
  ⟨_, _, _, rfl, rfl, rfl, rfl, rfl, rfl, rfl, rfl, rfl, rfl⟩

/-- The same defect seen from the container's loop alone: a run of
`manageContainerState` from a fresh container made only of election-start
signals, hand-outs of the candidates channel and candidacy sends. -/
theorem manageContainerState_capacity_exceeded :
    ∃ s,
      manageContainerStateRun (.running (manageContainerStateInit (launchContainer (webImage 2 (-1)) 1)))
        [(false, .gotElectionStartSignal 0), (false, .electionStartSignalActivated),
          (false, .gotElectionStartSignal 1), (false, .gotCandidatesChannel 1),
          (false, .electionStartSignalActivated), (false, .sentCandidate),
          (false, .gotCandidatesChannel 1), (false, .sentCandidate)] = some (.running s) ∧
      s.oc.concurrentUsers + s.oc.reservedUsers = 3 ∧ s.oc.Image.ConcurrentUsers = 2 :=
  ⟨_, rfl, rfl, rfl⟩

/-- C4 (code evaluated at the failing input): image with `ConcurrentUsers = 2`
and `TotalUsers = 1`, container freshly launched. The container finds the
signal of a first election closed after that election was stopped, which arms
its `getCandidatesChan`; then the user it was created for is bound, so that
`totalUsers = 1 = Image.TotalUsers` and the container is end-of-life. A second
election starts only now; the container is handed its candidates channel, sends
a candidacy (`reservedUsers` goes from 0 to 1, `isEndOfLife` being true), is
chosen, and is bound a second user: `totalUsers = 2`. -/
theorem C4_end_of_life_container_bids :
    ∃ sys1 sys2 sys3 sys4 r ret,
      systemRun (systemInit (webImage 2 1) 1)
        [.signalHandout, .electionRequest, .deadline, .signalSeen,
          .response (some 7)] = some sys1 ∧
      sys1.container.oc.totalUsers = sys1.container.oc.Image.TotalUsers ∧
      sys1.container.oc.reservedUsers = 0 ∧
      systemRun sys1 [.nextRequester, .electionRequest, .candidatesHandout] = some sys2 ∧
      sys2.container.isEndOfLife = true ∧
      systemStep sys2 .candidacy = some sys3 ∧
      sys3.container.isEndOfLife = true ∧
      sys3.container.oc.reservedUsers = 1 ∧
      sys3.requester = .running r ∧
      r.candidates = [⟨1, 1, 1⟩] ∧
      systemRun sys3 [.deadline, .response (some 8)] = some sys4 ∧
      sys4.requester = .returned ret ∧
      ret.oc = some 1 ∧
      sys4.container.oc.totalUsers = 2 ∧
      sys4.container.oc.Image.TotalUsers = 1 :=
  ⟨_, _, _, _, _, _, rfl, rfl, rfl, rfl, rfl, rfl, rfl, rfl, rfl, rfl, rfl, rfl, rfl, rfl, rfl⟩

/-! ## Theorems: `manageContainerUserState` -/

theorem manageContainerUserStateTop_status (s : ContainerUserLoop) :
    (manageContainerUserStateTop s).status = s.status := by
  unfold manageContainerUserStateTop
  split
  · simp only
    split <;> split <;> split <;> rfl
  · rfl

theorem manageContainerUserStateTop_source (s : ContainerUserLoop) (h : sourceOnlyWhileStarting s)
    (hsrc : (manageContainerUserStateTop s).containerSourceC = true) :
    s.status.ContainerState = .ContainerStateStarting ∧
    (manageContainerUserStateTop s).lastState = .ContainerStateStarting := by
  unfold manageContainerUserStateTop at hsrc ⊢
  split
  · rename_i hne
    rw [if_pos hne] at hsrc
    by_cases hl : s.lastState = .ContainerStateStarting
    · simp only [hl, if_true] at hsrc
      revert hsrc
      split <;> split <;> simp
    · simp only [hl, if_false] at hsrc ⊢
      have hs : s.containerSourceC = true := by
        revert hsrc
        split <;> split <;> simp
      rcases h hs with h1 | ⟨_, h2⟩
      · exact absurd h1 hl
      · refine ⟨h2, ?_⟩
        simp [h2]
  · rename_i heq
    rw [if_neg heq] at hsrc
    have heq2 : s.lastState = s.status.ContainerState := by
      by_contra hc; exact heq hc
    rcases h hsrc with h1 | ⟨h1, h2⟩
    · exact ⟨heq2 ▸ h1, h1⟩
    · rw [h1, h2] at heq2
      cases heq2

/-- One iteration never brings the state back: a state `Starting` after it
was `Starting` before it, and a state `Working` after it was `Starting` or
`Working` before it; the invariant is kept. -/
theorem manageContainerUserStateIteration_state (s : ContainerUserLoop) (ev : ContainerUserEvent)
    (st : ContainerUserRun) (h : sourceOnlyWhileStarting s)
    (hstep : manageContainerUserStateIteration ev s = some st) :
    sourceOnlyWhileStarting st.state ∧
    (st.state.status.ContainerState = .ContainerStateStarting →
      s.status.ContainerState = .ContainerStateStarting) ∧
    (st.state.status.ContainerState = .ContainerStateWorking →
      s.status.ContainerState = .ContainerStateStarting ∨
      s.status.ContainerState = .ContainerStateWorking) := by
  have hstat := manageContainerUserStateTop_status s
  have hsrc := manageContainerUserStateTop_source s h
  unfold manageContainerUserStateIteration at hstep
  generalize manageContainerUserStateTop s = t at hstat hsrc hstep
  have hkeep : sourceOnlyWhileStarting t := fun hc => Or.inl (hsrc hc).2
  have hsame : ∀ t1 : ContainerUserLoop, t1.status = t.status →
      t1.containerSourceC = t.containerSourceC → t1.lastState = t.lastState →
      sourceOnlyWhileStarting t1 ∧
      (t1.status.ContainerState = .ContainerStateStarting →
        s.status.ContainerState = .ContainerStateStarting) ∧
      (t1.status.ContainerState = .ContainerStateWorking →
        s.status.ContainerState = .ContainerStateStarting ∨
        s.status.ContainerState = .ContainerStateWorking) := by
    intro t1 h1 h2 h3
    refine ⟨?_, ?_, ?_⟩
    · intro hc
      rw [h2] at hc
      rw [h3]
      exact Or.inl (hsrc hc).2
    · intro hc; rw [h1, hstat] at hc; exact hc
    · intro hc; rw [h1, hstat] at hc; exact Or.inr hc
  have hchange : ∀ t1 : ContainerUserLoop,
      t1.containerSourceC = t.containerSourceC → t1.lastState = t.lastState →
      t1.status.ContainerState ≠ .ContainerStateStarting →
      (t1.status.ContainerState = .ContainerStateWorking → t.containerSourceC = true) →
      sourceOnlyWhileStarting t1 ∧
      (t1.status.ContainerState = .ContainerStateStarting →
        s.status.ContainerState = .ContainerStateStarting) ∧
      (t1.status.ContainerState = .ContainerStateWorking →
        s.status.ContainerState = .ContainerStateStarting ∨
        s.status.ContainerState = .ContainerStateWorking) := by
    intro t1 h2 h3 hns hw
    refine ⟨?_, ?_, ?_⟩
    · intro hc
      rw [h2] at hc
      rw [h3]
      exact Or.inl (hsrc hc).2
    · intro hc; exact absurd hc hns
    · intro hc; exact Or.inl (hsrc (hw hc)).1
  cases ev with
  | statusSent =>
    simp only [manageContainerUserStateSelect] at hstep
    cases hstep
    exact hsame t rfl rfl rfl
  | containerSent =>
    simp only [manageContainerUserStateSelect] at hstep
    split at hstep
    · cases hstep; exact hsame _ rfl rfl rfl
    · cases hstep
  | connectionDropped =>
    simp only [manageContainerUserStateSelect] at hstep
    split at hstep <;> (cases hstep; exact hsame _ rfl rfl rfl)
  | aliveSent =>
    simp only [manageContainerUserStateSelect] at hstep
    split at hstep
    · cases hstep; exact hsame _ rfl rfl rfl
    · cases hstep
  | shutdownStatusSent =>
    simp only [manageContainerUserStateSelect] at hstep
    split at hstep
    · cases hstep; exact hsame _ rfl rfl rfl
    · cases hstep
  | gotContainer oc =>
    simp only [manageContainerUserStateSelect] at hstep
    split at hstep
    · rename_i hc
      cases hstep
      exact hchange _ rfl rfl (by simp [ContainerUserRun.state]) (fun _ => hc)
    · cases hstep
  | gotStartErr err =>
    simp only [manageContainerUserStateSelect] at hstep
    split at hstep
    · cases hstep
      exact hchange _ rfl rfl (by simp [ContainerUserRun.state])
        (by simp [ContainerUserRun.state])
    · cases hstep
  | gotExecError err =>
    simp only [manageContainerUserStateSelect] at hstep
    split at hstep
    · cases hstep
      exact hchange _ rfl rfl (by simp [ContainerUserRun.state])
        (by simp [ContainerUserRun.state])
    · cases hstep
  | sessionTimerFired =>
    simp only [manageContainerUserStateSelect] at hstep
    split at hstep
    · cases hstep
      exact hchange _ rfl rfl (by simp [ContainerUserRun.state])
        (by simp [ContainerUserRun.state])
    · cases hstep
  | inactiveTimerFired =>
    simp only [manageContainerUserStateSelect] at hstep
    split at hstep
    · cases hstep
      exact hchange _ rfl rfl (by simp [ContainerUserRun.state])
        (by simp [ContainerUserRun.state])
    · cases hstep
  | gotExecResult body =>
    simp only [manageContainerUserStateSelect] at hstep
    split at hstep
    · split at hstep
      · split at hstep <;>
          (cases hstep
           exact hchange _ rfl rfl (by simp [ContainerUserRun.state])
             (by simp [ContainerUserRun.state]))
      · cases hstep
        exact hchange _ rfl rfl (by simp [ContainerUserRun.state])
          (by simp [ContainerUserRun.state])
    · cases hstep
  | activitySent =>
    simp only [manageContainerUserStateSelect] at hstep
    split at hstep <;> (cases hstep; exact hsame _ rfl rfl rfl)
  | noMoreConnectionsSent =>
    simp only [manageContainerUserStateSelect] at hstep
    split at hstep <;> (cases hstep; exact hsame _ rfl rfl rfl)
  | ctxDone =>
    simp only [manageContainerUserStateSelect] at hstep
    cases hstep
    exact hsame _ rfl rfl rfl

/-- Along a run the invariant is kept, the state is `Starting` at the end
only if it was at the start, and `Working` at the end only if it was `Starting`
or `Working` at the start. -/
theorem manageContainerUserStateRun_state (evs : List ContainerUserEvent) :
    ∀ (st st' : ContainerUserRun), sourceOnlyWhileStarting st.state →
      manageContainerUserStateRun st evs = some st' →
      sourceOnlyWhileStarting st'.state ∧
      (st'.state.status.ContainerState = .ContainerStateStarting →
        st.state.status.ContainerState = .ContainerStateStarting) ∧
      (st'.state.status.ContainerState = .ContainerStateWorking →
        st.state.status.ContainerState = .ContainerStateStarting ∨
        st.state.status.ContainerState = .ContainerStateWorking) := by
  induction evs with
  | nil =>
    intro st st' hinv h
    have : st' = st := by
      cases st <;> (simp only [manageContainerUserStateRun] at h; cases h; rfl)
    subst this
    exact ⟨hinv, fun h => h, fun h => Or.inr h⟩
  | cons ev evs ih =>
    intro st st' hinv h
    cases st with
    | returned s => simp [manageContainerUserStateRun] at h
    | stuck s => simp [manageContainerUserStateRun] at h
    | running s =>
      simp only [manageContainerUserStateRun] at h
      split at h
      · cases h
      · rename_i st1 hstep
        obtain ⟨hinv1, hs1, hw1⟩ := manageContainerUserStateIteration_state s ev st1 hinv hstep
        obtain ⟨hinv2, hs2, hw2⟩ := ih st1 st' hinv1 h
        refine ⟨hinv2, fun hc => hs1 (hs2 hc), fun hc => ?_⟩
        rcases hw2 hc with h1 | h1
        · exact Or.inl (hs1 h1)
        · exact hw1 h1

/-- C10: in every run of `manageContainerUserState` from its start, whatever
the order of the cases that fire, if the state is `Working` at some point it is
not `Starting` at any later point, and if it is terminal (`StartErr` or a
`Shutdown*` state) at some point it is neither `Starting` nor `Working` at any
later point. -/
theorem C10_state_never_regresses (ui : User) (image : Image)
    (evs1 evs2 : List ContainerUserEvent) (st1 st2 : ContainerUserRun)
    (h1 : manageContainerUserStateRun (.running (manageContainerUserStateInit ui image)) evs1 = some st1)
    (h2 : manageContainerUserStateRun st1 evs2 = some st2) :
    (st1.state.status.ContainerState = .ContainerStateWorking →
      st2.state.status.ContainerState ≠ .ContainerStateStarting) ∧
    (st1.state.status.ContainerState.isTerminal = true →
      st2.state.status.ContainerState ≠ .ContainerStateStarting ∧
      st2.state.status.ContainerState ≠ .ContainerStateWorking) := by
  have hinit : sourceOnlyWhileStarting (ContainerUserRun.running (manageContainerUserStateInit ui image)).state :=
    fun _ => Or.inr ⟨rfl, rfl⟩
  obtain ⟨hinv1, _, _⟩ := manageContainerUserStateRun_state evs1 _ st1 hinit h1
  obtain ⟨_, hs, hw⟩ := manageContainerUserStateRun_state evs2 st1 st2 hinv1 h2
  refine ⟨?_, ?_⟩
  · intro hworking hc
    have := hs hc
    rw [hworking] at this
    cases this
  · intro hterm
    refine ⟨?_, ?_⟩
    · intro hc
      have := hs hc
      rw [this] at hterm
      cases hterm
    · intro hc
      rcases hw hc with h | h <;> (rw [h] at hterm; cases hterm)

/-- Witness of C10: the container arrives (state `Working`); later the
session timer fires and a status is handed out; the state is then
`ShutdownSessionLen`, not `Starting`. -/
theorem C10_state_never_regresses_witness :
    ∃ st1 st2,
      manageContainerUserStateRun (.running (manageContainerUserStateInit 7 (webImage 2 (-1))))
        [.gotContainer 1] = some st1 ∧
      manageContainerUserStateRun st1 [.containerSent, .sessionTimerFired, .statusSent] = some st2 ∧
      st1.state.status.ContainerState = .ContainerStateWorking ∧
      st2.state.status.ContainerState = .ContainerStateShutdownSessionLen ∧
      st2.state.status.ContainerState ≠ .ContainerStateStarting :=
  ⟨_, _, rfl, rfl, rfl, rfl,
    (C10_state_never_regresses 7 (webImage 2 (-1)) [.gotContainer 1]
      [.containerSent, .sessionTimerFired, .statusSent] _ _ rfl rfl).1 rfl⟩

theorem manageContainerUserStateTop_lastState (s : ContainerUserLoop) :
    (manageContainerUserStateTop s).lastState = s.status.ContainerState := by
  unfold manageContainerUserStateTop
  split
  · simp only
    split <;> split <;> split <;> rfl
  · rename_i h
    by_contra hc
    exact h (fun h2 => hc h2)

theorem manageContainerUserStateTop_frame (s : ContainerUserLoop) :
    (manageContainerUserStateTop s).image = s.image ∧
    (manageContainerUserStateTop s).noMoreConnections = s.noMoreConnections ∧
    (manageContainerUserStateTop s).connectionCount = s.connectionCount ∧
    (manageContainerUserStateTop s).container = s.container ∧
    (manageContainerUserStateTop s).user = s.user := by
  unfold manageContainerUserStateTop
  split
  · simp only
    split <;> split <;> split <;> exact ⟨rfl, rfl, rfl, rfl, rfl⟩
  · exact ⟨rfl, rfl, rfl, rfl, rfl⟩

theorem manageContainerUserStateSelect_frame (t : ContainerUserLoop) (ev : ContainerUserEvent)
    (st : ContainerUserRun) (h : manageContainerUserStateSelect t ev = some st) :
    st.state.lastState = t.lastState ∧
    st.state.execResultSourceC = t.execResultSourceC ∧
    st.state.execErrorSourceC = t.execErrorSourceC ∧
    st.state.containerDest = t.containerDest ∧
    st.state.image = t.image ∧
    (st.state.noMoreConnections = t.noMoreConnections ∨
      (ev = .noMoreConnectionsSent ∧ st.state.noMoreConnections = true)) := by
  cases ev <;> simp only [manageContainerUserStateSelect] at h <;>
    (try split at h) <;> (try split at h) <;> (try split at h) <;>
    (try cases h) <;> simp [ContainerUserRun.state]

theorem manageContainerUserStateTop_working (s : ContainerUserLoop)
    (h : s.lastState = .ContainerStateWorking →
      s.execResultSourceC = true ∧ s.execErrorSourceC = true ∧ s.containerDest = true)
    (hw : s.status.ContainerState = .ContainerStateWorking) :
    (manageContainerUserStateTop s).execResultSourceC = true ∧
    (manageContainerUserStateTop s).execErrorSourceC = true ∧
    (manageContainerUserStateTop s).containerDest = true := by
  unfold manageContainerUserStateTop
  split
  · simp only
    split <;> split <;> split <;> simp_all
  · rename_i heq
    have : s.lastState = s.status.ContainerState := by
      by_contra hc; exact heq hc
    exact h (this.trans hw)

theorem manageContainerUserStateSelect_status (t : ContainerUserLoop) (ev : ContainerUserEvent)
    (st : ContainerUserRun) (hinv : statusInvariant t.status)
    (h : manageContainerUserStateSelect t ev = some st) : statusInvariant st.state.status := by
  obtain ⟨h1, h2, h3⟩ := hinv
  cases ev <;> simp only [manageContainerUserStateSelect] at h <;>
    (try split at h) <;> (try split at h) <;> (try split at h) <;>
    (try cases h) <;>
    simp_all [ContainerUserRun.state, statusInvariant, InactivityTimeoutErr, SessionTimeoutErr]

theorem containerUserInvariant_iteration (image : Image) (s : ContainerUserLoop)
    (ev : ContainerUserEvent) (st : ContainerUserRun) (hinv : containerUserInvariant image s)
    (h : manageContainerUserStateIteration ev s = some st) :
    containerUserInvariant image st.state := by
  obtain ⟨himg, hpers, hwork, hstat⟩ := hinv
  unfold manageContainerUserStateIteration at h
  have hlast := manageContainerUserStateTop_lastState s
  obtain ⟨timg, tnm, _, _, _⟩ := manageContainerUserStateTop_frame s
  have tstat := manageContainerUserStateTop_status s
  have twork := manageContainerUserStateTop_working s hwork
  generalize manageContainerUserStateTop s = t at h hlast timg tnm tstat twork
  obtain ⟨f1, f2, f3, f4, f5, f6⟩ := manageContainerUserStateSelect_frame t ev st h
  refine ⟨?_, ?_, ?_, ?_⟩
  · rw [f5, timg, himg]
  · intro hp
    rcases f6 with h6 | ⟨_, h6⟩
    · rw [h6, tnm]; exact hpers hp
    · exact h6
  · intro hl
    rw [f1, hlast] at hl
    rw [f2, f3, f4]
    exact twork hl
  · exact manageContainerUserStateSelect_status t ev st (tstat ▸ hstat) h

theorem containerUserInvariant_run (image : Image) (evs : List ContainerUserEvent) :
    ∀ (st st' : ContainerUserRun), containerUserInvariant image st.state →
      manageContainerUserStateRun st evs = some st' →
      containerUserInvariant image st'.state := by
  induction evs with
  | nil =>
    intro st st' hinv h
    have : st' = st := by
      cases st <;> (simp only [manageContainerUserStateRun] at h; cases h; rfl)
    subst this
    exact hinv
  | cons ev evs ih =>
    intro st st' hinv h
    cases st with
    | returned s => simp [manageContainerUserStateRun] at h
    | stuck s => simp [manageContainerUserStateRun] at h
    | running s =>
      simp only [manageContainerUserStateRun] at h
      split at h
      · cases h
      · rename_i st1 hstep
        exact ih st1 st' (containerUserInvariant_iteration image s ev st1 hinv hstep) h

theorem containerUserInvariant_init (ui : User) (image : Image) :
    containerUserInvariant image (manageContainerUserStateInit ui image) := by
  refine ⟨rfl, ?_, ?_, ?_⟩
  · intro hp
    simp [manageContainerUserStateInit, hp]
  · intro hl
    simp [manageContainerUserStateInit] at hl
  · simp [statusInvariant, manageContainerUserStateInit]

/-- C11: in every state the loop of `manageContainerUserState` can reach from
its start in which the state is `Working`, the runtime's wait result is taken in
the next iteration, its status code is stored in `status.Status`, and the state
becomes `ShutdownWithErrMsg` exactly when the result carries an error whose
message is not empty, `Err` being then made of that message, and `Shutdown`
otherwise; the runtime's wait error is taken as well, and the state becomes
`ShutdownWithErr` with `Err` that error. -/
theorem C11_container_exit_mapping (ui : User) (image : Image)
    (evs : List ContainerUserEvent) (s : ContainerUserLoop)
    (hrun : manageContainerUserStateRun (.running (manageContainerUserStateInit ui image)) evs
      = some (.running s))
    (hw : s.status.ContainerState = .ContainerStateWorking) :
    (∀ st : ContainerWaitOKBody, ∃ s',
      manageContainerUserStateIteration (.gotExecResult st) s = some (.running s') ∧
      s'.status.Status = st.StatusCode ∧
      (s'.status.ContainerState = .ContainerStateShutdownWithErrMsg ↔
        ∃ message, st.Error = some message ∧ message ≠ "") ∧
      (∀ message, st.Error = some message → message ≠ "" →
        s'.status.Err = some (.new message)) ∧
      ((¬ ∃ message, st.Error = some message ∧ message ≠ "") →
        s'.status.ContainerState = .ContainerStateShutdown)) ∧
    (∀ err : Error, ∃ s',
      manageContainerUserStateIteration (.gotExecError err) s = some (.running s') ∧
      s'.status.ContainerState = .ContainerStateShutdownWithErr ∧
      s'.status.Err = some err) := by
  have hinv := containerUserInvariant_run image evs
    (.running (manageContainerUserStateInit ui image)) (.running s)
    (containerUserInvariant_init ui image) hrun
  obtain ⟨_, _, hwork, _⟩ := hinv
  obtain ⟨hres, herr, _⟩ := manageContainerUserStateTop_working s hwork hw
  have tstat := manageContainerUserStateTop_status s
  unfold manageContainerUserStateIteration
  generalize manageContainerUserStateTop s = t at hres herr tstat
  constructor
  · intro st
    simp only [manageContainerUserStateSelect, hres, if_true]
    cases hE : st.Error with
    | none =>
      refine ⟨_, rfl, rfl, ?_, ?_, ?_⟩ <;> simp
    | some message =>
      simp only
      by_cases hm : message = ""
      · rw [if_neg (by simpa using hm)]
        refine ⟨_, rfl, rfl, ?_, ?_, ?_⟩ <;> simp [hm]
      · rw [if_pos hm]
        refine ⟨_, rfl, rfl, ?_, ?_, ?_⟩ <;> simp [hm]
  · intro err
    simp only [manageContainerUserStateSelect, herr, if_true]
    exact ⟨_, rfl, rfl, rfl⟩

/-- Witness of C11: the container arrives, then the runtime reports its exit. -/
theorem C11_container_exit_mapping_witness :
    ∃ s s',
      manageContainerUserStateRun (.running (manageContainerUserStateInit 7 (webImage 2 (-1))))
        [.gotContainer 1] = some (.running s) ∧
      s.status.ContainerState = .ContainerStateWorking ∧
      manageContainerUserStateIteration
        (.gotExecResult { Error := some "out of memory", StatusCode := 137 }) s
        = some (.running s') ∧
      s'.status.Status = 137 ∧
      s'.status.ContainerState = .ContainerStateShutdownWithErrMsg ∧
      s'.status.Err = some (.new "out of memory") :=
  ⟨_, _, rfl, rfl, rfl, rfl, rfl,
    by
      obtain ⟨s', h1, _, _, h4, _⟩ :=
        (C11_container_exit_mapping 7 (webImage 2 (-1)) [.gotContainer 1] _ rfl rfl).1
          { Error := some "out of memory", StatusCode := 137 }
      have := h4 "out of memory" rfl (by decide)
      cases h1
      exact this⟩

theorem noMoreConnections_run (b : Bool) (evs : List ContainerUserEvent) :
    ∀ (st st' : ContainerUserRun), ContainerUserEvent.noMoreConnectionsSent ∉ evs →
      st.state.noMoreConnections = b →
      manageContainerUserStateRun st evs = some st' →
      st'.state.noMoreConnections = b := by
  induction evs with
  | nil =>
    intro st st' _ hb h
    have : st' = st := by
      cases st <;> (simp only [manageContainerUserStateRun] at h; cases h; rfl)
    subst this
    exact hb
  | cons ev evs ih =>
    intro st st' hnot hb h
    cases st with
    | returned s => simp [manageContainerUserStateRun] at h
    | stuck s => simp [manageContainerUserStateRun] at h
    | running s =>
      simp only [manageContainerUserStateRun] at h
      split at h
      · cases h
      · rename_i st1 hstep
        refine ih st1 st' (fun hm => hnot (List.mem_cons_of_mem _ hm)) ?_ h
        unfold manageContainerUserStateIteration at hstep
        obtain ⟨_, _, _, _, _, f6⟩ := manageContainerUserStateSelect_frame _ ev st1 hstep
        rcases f6 with h6 | ⟨hev, _⟩
        · rw [h6, (manageContainerUserStateTop_frame s).2.1]
          exact hb
        · exact absurd (hev ▸ List.mem_cons_self _ _) hnot

theorem manageContainerUserStateTop_dest (s : ContainerUserLoop)
    (hinv : s.containerDest = true → s.lastState = .ContainerStateWorking) :
    (manageContainerUserStateTop s).containerDest = true →
      (manageContainerUserStateTop s).lastState = .ContainerStateWorking := by
  unfold manageContainerUserStateTop
  split
  · simp only
    split <;> split <;> split <;> simp_all
  · exact hinv

theorem containerDest_run (evs : List ContainerUserEvent) :
    ∀ (st st' : ContainerUserRun),
      (st.state.containerDest = true → st.state.lastState = .ContainerStateWorking) →
      manageContainerUserStateRun st evs = some st' →
      (st'.state.containerDest = true → st'.state.lastState = .ContainerStateWorking) := by
  induction evs with
  | nil =>
    intro st st' hinv h
    have : st' = st := by
      cases st <;> (simp only [manageContainerUserStateRun] at h; cases h; rfl)
    subst this
    exact hinv
  | cons ev evs ih =>
    intro st st' hinv h
    cases st with
    | returned s => simp [manageContainerUserStateRun] at h
    | stuck s => simp [manageContainerUserStateRun] at h
    | running s =>
      simp only [manageContainerUserStateRun] at h
      split at h
      · cases h
      · rename_i st1 hstep
        refine ih st1 st' ?_ h
        unfold manageContainerUserStateIteration at hstep
        obtain ⟨f1, _, _, f4, _, _⟩ := manageContainerUserStateSelect_frame _ ev st1 hstep
        rw [f1, f4]
        exact manageContainerUserStateTop_dest s hinv

/-- C12 as stated fails: a `ContainerUser` of an image that persists between
reconnects gets its container and hands it to one connection; the container
exits with code 0, and then the connection is closed, which brings
`connectionCount` to 0. No deletion notice was taken. The loop keeps running
with its container, in the state `Shutdown`, but the case that hands out the
container cannot fire: `containerDest` is nil in every state but `Working`. -/
theorem C12_counterexample_no_hand_out_after_exit :
    ∃ s,
      (webImage 2 (-1)).PersistBetweenReconnects = true ∧
      ContainerUserEvent.noMoreConnectionsSent ∉
        [ContainerUserEvent.gotContainer 1, .containerSent,
          .gotExecResult { Error := none, StatusCode := 0 }, .connectionDropped] ∧
      manageContainerUserStateRun (.running (manageContainerUserStateInit 7 (webImage 2 (-1))))
        [.gotContainer 1, .containerSent, .gotExecResult { Error := none, StatusCode := 0 },
          .connectionDropped] = some (.running s) ∧
      s.connectionCount = 0 ∧ s.noMoreConnections = false ∧ s.container = some 1 ∧
      s.status.ContainerState = .ContainerStateShutdown ∧
      manageContainerUserStateIteration .containerSent s = none :=
  ⟨_, rfl, by decide, rfl, rfl, rfl, rfl, rfl, rfl⟩

/-- C12 (amended): in every state the loop of `manageContainerUserState` can
reach from its start with `connectionCount = 1`, the next
`NotifyConnectionClosed` brings the count to 0; the loop then returns if the
image has `PersistBetweenReconnects = false`; if it has
`PersistBetweenReconnects = true` and no deletion notice was taken so far, the
loop goes on with the same container and status; when the state is `Working`
the next `GetContainer` call is served with that container, and in any other
state the case that hands out the container cannot fire. -/
theorem C12_last_disconnect (ui : User) (image : Image)
    (evs : List ContainerUserEvent) (s : ContainerUserLoop)
    (hrun : manageContainerUserStateRun (.running (manageContainerUserStateInit ui image)) evs
      = some (.running s))
    (hcount : s.connectionCount = 1) :
    (image.PersistBetweenReconnects = false →
      ∃ s', manageContainerUserStateIteration .connectionDropped s = some (.returned s') ∧
        s'.connectionCount = 0) ∧
    (image.PersistBetweenReconnects = true →
      ContainerUserEvent.noMoreConnectionsSent ∉ evs →
      ∃ s', manageContainerUserStateIteration .connectionDropped s = some (.running s') ∧
        s'.connectionCount = 0 ∧ s'.container = s.container ∧ s'.status = s.status ∧
        (s.status.ContainerState = .ContainerStateWorking →
          ∃ s'', manageContainerUserStateIteration .containerSent s' = some (.running s'') ∧
            s''.connectionCount = 1 ∧ s''.container = s.container ∧
            s''.status = s.status) ∧
        (s.status.ContainerState ≠ .ContainerStateWorking →
          manageContainerUserStateIteration .containerSent s' = none)) := by
  have hdestinv := containerDest_run evs
    (.running (manageContainerUserStateInit ui image)) (.running s)
    (by simp [ContainerUserRun.state, manageContainerUserStateInit]) hrun
  have tdest := manageContainerUserStateTop_dest s hdestinv
  have hinv := containerUserInvariant_run image evs
    (.running (manageContainerUserStateInit ui image)) (.running s)
    (containerUserInvariant_init ui image) hrun
  obtain ⟨himg, hpers, hwork, _⟩ := hinv
  obtain ⟨_, tnm, tcount, tcont, _⟩ := manageContainerUserStateTop_frame s
  have tstat := manageContainerUserStateTop_status s
  have tlast := manageContainerUserStateTop_lastState s
  have twork := manageContainerUserStateTop_working s hwork
  constructor
  · intro hp
    have hnm : s.noMoreConnections = true := hpers hp
    unfold manageContainerUserStateIteration
    generalize manageContainerUserStateTop s = t at tnm tcount
    refine ⟨{ t with connectionCount := t.connectionCount - 1 }, ?_, ?_⟩
    · simp [manageContainerUserStateSelect, tnm, tcount, hnm, hcount]
    · simp [tcount, hcount]
  · intro hp hnot
    have hnm : s.noMoreConnections = false := by
      have := noMoreConnections_run (!image.PersistBetweenReconnects) evs
        (.running (manageContainerUserStateInit ui image)) (.running s) hnot rfl hrun
      simpa [ContainerUserRun.state, hp] using this
    unfold manageContainerUserStateIteration
    generalize manageContainerUserStateTop s = t at tnm tcount tcont tstat tlast twork tdest
    have hidle : manageContainerUserStateTop { t with connectionCount := t.connectionCount - 1 }
        = { t with connectionCount := t.connectionCount - 1 } := by
      unfold manageContainerUserStateTop
      rw [if_neg]
      simp only [tlast, tstat]
      exact fun h => h rfl
    refine ⟨{ t with connectionCount := t.connectionCount - 1 }, ?_, ?_, tcont, tstat, ?_, ?_⟩
    · simp [manageContainerUserStateSelect, tnm, tcount, hnm, hcount]
    · simp [tcount, hcount]
    · intro hw
      obtain ⟨_, _, hdest⟩ := twork hw
      rw [hidle]
      refine ⟨{ t with connectionCount := t.connectionCount - 1 + 1 }, ?_, ?_, tcont, tstat⟩
      · simp [manageContainerUserStateSelect, hdest]
      · simp [tcount, hcount]
    · intro hnw
      rw [hidle]
      have hdest : t.containerDest = false := by
        cases hd : t.containerDest with
        | false => rfl
        | true => exact absurd ((tdest hd).symm.trans tlast).symm hnw
      simp [manageContainerUserStateSelect, hdest]

/-- Witness of C12 (amended): an image with `PersistBetweenReconnects = true`; the
container arrives, is handed out once, and the connection closes. -/
theorem C12_last_disconnect_witness :
    ∃ s s',
      manageContainerUserStateRun (.running (manageContainerUserStateInit 7 (webImage 2 (-1))))
        [.gotContainer 1, .containerSent] = some (.running s) ∧
      s.connectionCount = 1 ∧
      manageContainerUserStateIteration .connectionDropped s = some (.running s') ∧
      s'.connectionCount = 0 ∧ s'.container = some 1 :=
  ⟨_, _, rfl, rfl, rfl, rfl, by
    obtain ⟨s', h1, _, h3, _⟩ :=
      (C12_last_disconnect 7 (webImage 2 (-1)) [.gotContainer 1, .containerSent] _ rfl rfl).2
        rfl (by decide)
    cases h1
    exact h3⟩

/-! ## Theorems: `sshHandler` -/

/-- C17 (code evaluated at the failing input): the container arrives and later
exits with status code 137 and the error message "out of memory"; the
`ContainerUser` reports the state `ShutdownWithErrMsg` with `Status = 137`. With
the server not shutting down, `sshHandler` exits the session with 255 and the
banner of an internal error, not with 137: the deferred function overwrites the
code the body had set. The goroutine of the `ContainerUser` is in its loop, so
that the deferred `cu.NotifyConnectionClosed()` returns and the exit is reached. -/
theorem C17_exit_code_overwritten :
    ∃ s,
      manageContainerUserStateRun (.running (manageContainerUserStateInit 7 (webImage 1 1)))
        [.gotContainer 1, .containerSent,
          .gotExecResult { Error := some "out of memory", StatusCode := 137 },
          .shutdownStatusSent] = some (.running s) ∧
      s.status.ContainerState = .ContainerStateShutdownWithErrMsg ∧
      s.status.Status = 137 ∧
      main.sshHandlerBody (.shutdownDone s.status) = (some (.new "out of memory"), 137) ∧
      main.sshHandler .Working (.running s) (.shutdownDone s.status)
        = some { banner := ["Internal server error,", "sorry for the inconvenience"],
                 exitCode := 255 } :=
  ⟨_, rfl, rfl, rfl, rfl, by decide⟩

/-- C19: for all strings `a` and `b`, `singleJoiningSlash a b` is `a` with one
trailing slash removed, if it has one, followed by a single slash, followed by
`b` with one leading slash removed, if it has one. -/
theorem C19_singleJoiningSlash (a b : List Char) :
    main.singleJoiningSlash a b = main.joinedWithOneSlash a b := by
  unfold main.singleJoiningSlash main.joinedWithOneSlash main.withoutTrailingSlash
    main.withoutLeadingSlash
  by_cases ha : a.getLast? = some '/'
  · have hsplit : a = a.dropLast ++ ['/'] :=
      (List.dropLast_append_getLast? '/' (by simpa using ha)).symm
    by_cases hb : b.head? = some '/'
    · have hb2 : b = '/' :: b.tail := by
        cases b with
        | nil => simp at hb
        | cons c t => simp at hb; subst hb; rfl
      simp only [ha, hb, beq_self_eq_true, Bool.and_self, if_true]
      conv_lhs => rw [hsplit, hb2]
      simp
    · simp only [ha, hb, beq_self_eq_true, if_true, if_false]
      have : (b.head? == some '/') = false := by simpa using hb
      simp only [this, Bool.and_false, Bool.not_true, Bool.false_and, Bool.false_eq_true,
        if_false]
      conv_lhs => rw [hsplit]
  · have ha2 : (a.getLast? == some '/') = false := by simpa using ha
    by_cases hb : b.head? = some '/'
    · have hb2 : b = '/' :: b.tail := by
        cases b with
        | nil => simp at hb
        | cons c t => simp at hb; subst hb; rfl
      simp only [ha2, ha, hb, beq_self_eq_true, Bool.false_and, Bool.false_eq_true, if_false,
        Bool.not_false, Bool.not_true, Bool.and_false, if_true]
      conv_lhs => rw [hb2]
      simp
    · have hb3 : (b.head? == some '/') = false := by simpa using hb
      simp [ha2, ha, hb, hb3]

theorem interned_NewUserList : NewUserList.interned := by
  intro id ui h
  simp [NewUserList] at h

/-- C16: `GetUserByWebToken` on a user list whose entries are interned. A
token that is empty once trimmed is rejected, whatever the validator. A trimmed
token found in the cache gives the cached user, whatever the validator, and
leaves the list as it is. For a trimmed token not in the cache: status 200 with
a body gives a user that the map `users` holds under the trimmed body, whose
struct has that `ID` and the token, to which the cache now binds the token, and
which `GetUserFromSSH` returns for that id without changing the list; status
403 gives the error "Unknown token" and any other status the error "Server
error", the list being left as it is in both cases. -/
theorem C16_GetUserByWebToken (lib : Library) (PostForm : String → Except Error Response)
    (ul : UserList) (tasktoken : String) (hwf : ul.interned) :
    (lib.TrimSpace tasktoken = "" →
      ∀ PostForm2, ul.GetUserByWebToken lib PostForm2 tasktoken
        = (.error (.new "No token provided"), ul)) ∧
    (lib.TrimSpace tasktoken ≠ "" →
      ∀ ui, ul.usersByWebtoken (lib.TrimSpace tasktoken) = some ui →
      ∀ PostForm2, ul.GetUserByWebToken lib PostForm2 tasktoken = (.ok ui, ul)) ∧
    (lib.TrimSpace tasktoken ≠ "" →
      ul.usersByWebtoken (lib.TrimSpace tasktoken) = none →
      (∀ body, PostForm (lib.TrimSpace tasktoken) = .ok ⟨200, .ok body⟩ →
        ∃ ui ul', ul.GetUserByWebToken lib PostForm tasktoken = (.ok ui, ul') ∧
          ul'.users (lib.TrimSpace body) = some ui ∧
          ul'.usersByWebtoken (lib.TrimSpace tasktoken) = some ui ∧
          (∃ r, ul'.records[ui]? = some r ∧ r.ID = lib.TrimSpace body ∧
            r.taskToken = lib.TrimSpace tasktoken) ∧
          ul'.GetUserFromSSH (lib.TrimSpace body) = (ui, ul') ∧
          ul'.interned) ∧
      (∀ body, PostForm (lib.TrimSpace tasktoken) = .ok ⟨403, body⟩ →
        ul.GetUserByWebToken lib PostForm tasktoken = (.error (.new "Unknown token"), ul)) ∧
      (∀ code body, code ≠ 200 → code ≠ 403 →
        PostForm (lib.TrimSpace tasktoken) = .ok ⟨code, body⟩ →
        ul.GetUserByWebToken lib PostForm tasktoken = (.error (.new "Server error"), ul))) := by
  refine ⟨?_, ?_, ?_⟩
  · intro hempty PostForm2
    simp [UserList.GetUserByWebToken, hempty]
  · intro hne ui hcached PostForm2
    simp [UserList.GetUserByWebToken, hne, hcached]
  · intro hne hnone
    refine ⟨?_, ?_, ?_⟩
    · intro body hpost
      cases hu : ul.users (lib.TrimSpace body) with
      | some ui =>
        obtain ⟨r, hr, hid⟩ := hwf _ _ hu
        have hlt : ui < ul.records.length := (List.getElem?_eq_some.mp hr).1
        refine ⟨ui,
          { ul with
            records := ul.records.modify
              (fun r => { r with taskToken := lib.TrimSpace tasktoken }) ui
            usersByWebtoken := fun t =>
              if t = lib.TrimSpace tasktoken then some ui else ul.usersByWebtoken t },
          ?_, ?_, ?_, ?_, ?_, ?_⟩
        · simp only [UserList.GetUserByWebToken, hne, if_false, hnone, hpost, if_true, hu]
        · exact hu
        · simp
        · refine ⟨{ r with taskToken := lib.TrimSpace tasktoken }, ?_, hid, rfl⟩
          simp [List.getElem?_modify, hr]
        · simp [UserList.GetUserFromSSH, hu]
        · intro id p hp
          obtain ⟨r2, hr2, hid2⟩ := hwf id p hp
          by_cases hpe : p = ui
          · subst hpe
            refine ⟨{ r2 with taskToken := lib.TrimSpace tasktoken }, ?_, hid2⟩
            simp [List.getElem?_modify, hr2]
          · refine ⟨r2, ?_, hid2⟩
            simp only [List.getElem?_modify, hr2]
            simp [Ne.symm hpe]
      | none =>
        refine ⟨ul.records.length,
          { records := ul.records ++
              [{ ID := lib.TrimSpace body, taskToken := lib.TrimSpace tasktoken }]
            users := fun id =>
              if id = lib.TrimSpace body then some ul.records.length else ul.users id
            usersByWebtoken := fun t =>
              if t = lib.TrimSpace tasktoken then some ul.records.length
              else ul.usersByWebtoken t },
          ?_, ?_, ?_, ?_, ?_, ?_⟩
        · simp only [UserList.GetUserByWebToken, hne, if_false, hnone, hpost, if_true, hu]
        · simp
        · simp
        · exact ⟨{ ID := lib.TrimSpace body, taskToken := lib.TrimSpace tasktoken }, by simp,
            rfl, rfl⟩
        · simp [UserList.GetUserFromSSH]
        · intro id p hp
          simp only at hp
          by_cases hid : id = lib.TrimSpace body
          · subst hid
            simp only [if_true, Option.some.injEq] at hp
            subst hp
            exact ⟨{ ID := lib.TrimSpace body, taskToken := lib.TrimSpace tasktoken }, by simp,
              rfl⟩
          · simp only [hid, if_false] at hp
            obtain ⟨r2, hr2, hid2⟩ := hwf id p hp
            refine ⟨r2, ?_, hid2⟩
            have hlt : p < ul.records.length := (List.getElem?_eq_some.mp hr2).1
            rw [List.getElem?_append_left hlt]
            exact hr2
    · intro body hpost
      simp [UserList.GetUserByWebToken, hne, hnone, hpost]
    · intro code body h200 h403 hpost
      simp [UserList.GetUserByWebToken, hne, hnone, hpost, h200, h403]

/-- Witness of C16: on a new user list, the token " tok " validated with
status 200 and the body "alice\n" (trimmed with the ASCII library). -/
theorem C16_GetUserByWebToken_witness :
    NewUserList.interned ∧
    ∃ ui ul',
      NewUserList.GetUserByWebToken asciiLibrary (fun _ => .ok ⟨200, .ok "alice\n"⟩) " tok "
        = (.ok ui, ul') ∧
      ul'.users "alice" = some ui ∧
      ul'.usersByWebtoken "tok" = some ui ∧
      ul'.GetUserFromSSH "alice" = (ui, ul') :=
  ⟨interned_NewUserList, by
    have h := (C16_GetUserByWebToken asciiLibrary (fun _ => .ok ⟨200, .ok "alice\n"⟩)
      NewUserList " tok " interned_NewUserList).2.2 (by decide) rfl
    obtain ⟨ui, ul', h1, h2, h3, _, h5, _⟩ := h.1 "alice\n" rfl
    have e1 : asciiLibrary.TrimSpace "alice\n" = "alice" := by decide
    have e2 : asciiLibrary.TrimSpace " tok " = "tok" := by decide
    rw [e1] at h2 h5
    rw [e2] at h3
    exact ⟨ui, ul', h1, h2, h3, h5⟩⟩

/-! ## Theorems: `NewImage`, `ImageList` -/

theorem webTaskImage_parses (id : String) :
    ∃ cfg, NewImage asciiLibrary (mydocker.wrapImage asciiLibrary (webTaskImage id))
      = .ok ({ webImage (-1) (-1) with DockerID := id }, cfg) :=
  ⟨_, rfl⟩

/-- C14 (code evaluated at the failing input): the registry first learns the
web image named `task` under the id `sha256:aaaa`. The next listing holds only
a web image named `task` under the id `sha256:bbbb`, which parses and is alone
in the listing. `UpdateImages` adds it to both indexes and then removes the
vanished image by its kind and name, which deletes the entry just added: the
new image is in the id index, the old one is in `removedImages`, and
`GetImage("web", "task", user)` answers `ImageNotFoundErr`. -/
theorem C14_new_image_unreachable :
    ∃ il1 il2 cfg,
      emptyImageList.UpdateImages asciiLibrary
        (.ok [mydocker.wrapImage asciiLibrary (webTaskImage "sha256:aaaa")]) = .ok il1 ∧
      il1.GetImage "web" "task" 7 = .ok { webImage (-1) (-1) with DockerID := "sha256:aaaa" } ∧
      NewImage asciiLibrary (mydocker.wrapImage asciiLibrary (webTaskImage "sha256:bbbb"))
        = .ok ({ webImage (-1) (-1) with DockerID := "sha256:bbbb" }, cfg) ∧
      il1.UpdateImages asciiLibrary
        (.ok [mydocker.wrapImage asciiLibrary (webTaskImage "sha256:bbbb")]) = .ok il2 ∧
      il2.imagesByDockerID.lookup "sha256:bbbb"
        = some { webImage (-1) (-1) with DockerID := "sha256:bbbb" } ∧
      il2.imagesByDockerID.lookup "sha256:aaaa" = none ∧
      il2.removedImages.lookup "sha256:aaaa"
        = some { webImage (-1) (-1) with DockerID := "sha256:aaaa" } ∧
      il2.GetImage "web" "task" 7 = .error ImageNotFoundErr :=
  ⟨_, _, _, rfl, rfl, rfl, rfl, rfl, rfl, rfl, rfl⟩

theorem lookup_normalised_of_labelIs (lib : Library) (key val : String) :
    ∀ labels : List (String × String),
      (∃ k, (k, val) ∈ labels ∧ mydocker.Normalise lib k = mydocker.Normalise lib key) →
      (∀ k2 v2, (k2, v2) ∈ labels →
        mydocker.Normalise lib k2 = mydocker.Normalise lib key → v2 = val) →
      (labels.map (fun kv => (mydocker.Normalise lib kv.1, kv.2))).lookup
        (mydocker.Normalise lib key) = some val := by
  intro labels
  induction labels with
  | nil => rintro ⟨k, hk, _⟩ _; simp at hk
  | cons kv rest ih =>
    intro hex huniq
    obtain ⟨k1, v1⟩ := kv
    by_cases hk : mydocker.Normalise lib k1 = mydocker.Normalise lib key
    · have hv : v1 = val := huniq k1 v1 (List.mem_cons_self _ _) hk
      simp [List.lookup, hk, hv]
    · have hne : (mydocker.Normalise lib key == mydocker.Normalise lib k1) = false := by
        simpa using fun h => hk h.symm
      simp only [List.map_cons, List.lookup, hne]
      apply ih
      · obtain ⟨k, hmem, hkk⟩ := hex
        rcases List.mem_cons.mp hmem with h | h
        · cases h
          exact absurd hkk hk
        · exact ⟨k, h, hkk⟩
      · intro k2 v2 hmem
        exact huniq k2 v2 (List.mem_cons_of_mem _ hmem)

theorem lookup_normalised_of_labelAbsent (lib : Library) (key : String) :
    ∀ labels : List (String × String),
      (∀ k v, (k, v) ∈ labels → mydocker.Normalise lib k ≠ mydocker.Normalise lib key) →
      (labels.map (fun kv => (mydocker.Normalise lib kv.1, kv.2))).lookup
        (mydocker.Normalise lib key) = none := by
  intro labels
  induction labels with
  | nil => intro _; rfl
  | cons kv rest ih =>
    intro h
    obtain ⟨k1, v1⟩ := kv
    have hk := h k1 v1 (List.mem_cons_self _ _)
    have hne : (mydocker.Normalise lib key == mydocker.Normalise lib k1) = false := by
      simpa using fun h => hk h.symm
    simp only [List.map_cons, List.lookup, hne]
    exact ih (fun k v hmem => h k v (List.mem_cons_of_mem _ hmem))

theorem Get_of_labelIs (lib : Library) (raw : mydocker.Image) (key val : String)
    (h : labelIs lib raw key val) :
    (mydocker.wrapImage lib raw).Get lib key = some (mydocker.Normalise lib val) := by
  unfold mydocker.Image.Get mydocker.wrapImage
  simp only
  rw [lookup_normalised_of_labelIs lib key val raw.Config.Labels h.1 h.2]

theorem Get_of_labelAbsent (lib : Library) (raw : mydocker.Image) (key : String)
    (h : labelAbsent lib raw key) :
    (mydocker.wrapImage lib raw).Get lib key = none := by
  unfold mydocker.Image.Get mydocker.wrapImage
  simp only
  rw [lookup_normalised_of_labelAbsent lib key raw.Config.Labels h]

/-- What a successful `NewImage` has put into the image: the three settings
read with the defaults of the kind, the two timeouts, and for kind web the port. -/
theorem NewImage_ok (lib : Library) (img : mydocker.Image) (oi : Image) (cfg : ContainerConfig)
    (h : NewImage lib img = .ok (oi, cfg)) :
    img.Get lib "orca.kind" = some oi.Kind ∧
    oi.TimeoutsTotal = img.GetDurationDefault lib "orca.timeout.session" 86400000000000 ∧
    oi.TimeoutsInactive = img.GetDurationDefault lib "orca.timeout.inactive" 900000000000 ∧
    ((oi.Kind = "web" ∧
      oi.PersistBetweenReconnects
        = img.GetBoolDefault lib "orca.container.persistBetweenReconnects" true ∧
      oi.ConcurrentUsers = img.GetIntDefault lib "orca.users.concurrent" (-1) ∧
      oi.TotalUsers = img.GetIntDefault lib "orca.users.total" (-1) ∧
      lib.NewPort (img.GetDefault lib "orca.port" "80") = .ok oi.Port) ∨
     (oi.Kind = "ssh" ∧
      oi.PersistBetweenReconnects
        = img.GetBoolDefault lib "orca.container.persistBetweenReconnects" false ∧
      oi.ConcurrentUsers = img.GetIntDefault lib "orca.users.concurrent" 1 ∧
      oi.TotalUsers = img.GetIntDefault lib "orca.users.total" 1)) := by
  unfold NewImage at h
  split at h
  · cases h
  · split at h
    · cases h
    · rename_i Name _ Kind hkind
      simp only at h
      split at h
      · rename_i hweb
        split at h
        · cases h
        · rename_i port hport
          simp only [Except.ok.injEq, Prod.mk.injEq] at h
          obtain ⟨h1, _⟩ := h
          subst h1
          exact ⟨hkind, rfl, rfl, Or.inl ⟨hweb, rfl, rfl, rfl, hport⟩⟩
      · split at h
        · cases h
        · split at h
          · rename_i hssh
            split at h
            · simp only [Except.ok.injEq, Prod.mk.injEq] at h
              obtain ⟨h1, _⟩ := h
              subst h1
              exact ⟨hkind, rfl, rfl, Or.inr ⟨hssh, rfl, rfl, rfl⟩⟩
            · split at h <;> cases h
          · cases h
/-- Claim C15. Label defaults in `NewImage`, for the labels of a docker image
as `wrapImage` hands them over. When the image has a name, its kind label
reads web and none of the optional labels is there, `NewImage` returns an image
with ConcurrentUsers = -1, TotalUsers = -1, PersistBetweenReconnects = true and
the port that "80" parses to; when the kind label reads ssh it returns one with
1, 1 and false; both have a total timeout of 24 hours and an inactivity timeout
of 15 minutes (in nanoseconds). And in whatever image `NewImage` returns, a
label that is there under any spelling of its key that normalises to the key,
with a value whose trimmed lower-case form parses, sets its field to the parsed
value. -/
theorem C15_label_defaults (lib : Library) (raw : mydocker.Image) :
    (∀ name kind,
      imageName lib (mydocker.wrapImage lib raw) = some name →
      labelIs lib raw "orca.kind" kind →
      labelAbsent lib raw "orca.users.concurrent" →
      labelAbsent lib raw "orca.users.total" →
      labelAbsent lib raw "orca.container.persistBetweenReconnects" →
      labelAbsent lib raw "orca.timeout.session" →
      labelAbsent lib raw "orca.timeout.inactive" →
      (mydocker.Normalise lib kind = "web" →
        labelAbsent lib raw "orca.port" →
        ∀ port, lib.NewPort "80" = .ok port →
        ∃ oi cfg,
          NewImage lib (mydocker.wrapImage lib raw) = .ok (oi, cfg) ∧
          oi.ConcurrentUsers = -1 ∧ oi.TotalUsers = -1 ∧
          oi.PersistBetweenReconnects = true ∧ oi.Port = port ∧
          oi.TimeoutsTotal = 24 * 3600 * 1000000000 ∧
          oi.TimeoutsInactive = 15 * 60 * 1000000000) ∧
      (mydocker.Normalise lib kind = "ssh" →
        labelAbsent lib raw "orca.connection.method" →
        ∃ oi cfg,
          NewImage lib (mydocker.wrapImage lib raw) = .ok (oi, cfg) ∧
          oi.ConcurrentUsers = 1 ∧ oi.TotalUsers = 1 ∧
          oi.PersistBetweenReconnects = false ∧
          oi.TimeoutsTotal = 24 * 3600 * 1000000000 ∧
          oi.TimeoutsInactive = 15 * 60 * 1000000000)) ∧
    (∀ oi cfg, NewImage lib (mydocker.wrapImage lib raw) = .ok (oi, cfg) →
      ∀ val,
        (labelIs lib raw "orca.users.concurrent" val →
          ∀ n, lib.Atoi (mydocker.Normalise lib val) = some n → oi.ConcurrentUsers = n) ∧
        (labelIs lib raw "orca.users.total" val →
          ∀ n, lib.Atoi (mydocker.Normalise lib val) = some n → oi.TotalUsers = n) ∧
        (labelIs lib raw "orca.container.persistBetweenReconnects" val →
          ∀ b, lib.ParseBool (mydocker.Normalise lib val) = some b →
            oi.PersistBetweenReconnects = b) ∧
        (labelIs lib raw "orca.port" val → oi.Kind = "web" →
          ∀ port, lib.NewPort (mydocker.Normalise lib val) = .ok port → oi.Port = port) ∧
        (labelIs lib raw "orca.timeout.session" val →
          ∀ d, lib.ParseDuration (mydocker.Normalise lib val) = some d →
            oi.TimeoutsTotal = d) ∧
        (labelIs lib raw "orca.timeout.inactive" val →
          ∀ d, lib.ParseDuration (mydocker.Normalise lib val) = some d →
            oi.TimeoutsInactive = d)) := by
  refine ⟨?_, ?_⟩
  · intro name kind hname hkind hconc htotal hpers hsess hinact
    have gkind := Get_of_labelIs lib raw _ _ hkind
    have gconc := Get_of_labelAbsent lib raw _ hconc
    have gtotal := Get_of_labelAbsent lib raw _ htotal
    have gpers := Get_of_labelAbsent lib raw _ hpers
    have gsess := Get_of_labelAbsent lib raw _ hsess
    have ginact := Get_of_labelAbsent lib raw _ hinact
    refine ⟨?_, ?_⟩
    · intro hweb hport port hparse
      have gport := Get_of_labelAbsent lib raw _ hport
      rw [hweb] at gkind
      simp [NewImage, hname, gkind, gconc, gtotal, gpers, gsess, ginact, gport, hparse,
        mydocker.Image.GetIntDefault, mydocker.Image.GetBoolDefault,
        mydocker.Image.GetDurationDefault, mydocker.Image.GetDefault]
    · intro hssh hcm
      have gcm := Get_of_labelAbsent lib raw _ hcm
      rw [hssh] at gkind
      simp [NewImage, hname, gkind, gconc, gtotal, gpers, gsess, ginact, gcm,
        mydocker.Image.GetIntDefault, mydocker.Image.GetBoolDefault,
        mydocker.Image.GetDurationDefault, mydocker.Image.GetDefault]
  · intro oi cfg hok val
    obtain ⟨_, hsess, hinact, hkind⟩ := NewImage_ok lib _ oi cfg hok
    refine ⟨?_, ?_, ?_, ?_, ?_, ?_⟩
    · intro hl n hn
      have g := Get_of_labelIs lib raw _ _ hl
      rcases hkind with ⟨_, _, h, _, _⟩ | ⟨_, _, h, _⟩ <;>
        simp [h, mydocker.Image.GetIntDefault, g, hn]
    · intro hl n hn
      have g := Get_of_labelIs lib raw _ _ hl
      rcases hkind with ⟨_, _, _, h, _⟩ | ⟨_, _, _, h⟩ <;>
        simp [h, mydocker.Image.GetIntDefault, g, hn]
    · intro hl b hb
      have g := Get_of_labelIs lib raw _ _ hl
      rcases hkind with ⟨_, h, _, _, _⟩ | ⟨_, h, _, _⟩ <;>
        simp [h, mydocker.Image.GetBoolDefault, g, hb]
    · intro hl hweb port hp
      have g := Get_of_labelIs lib raw _ _ hl
      rcases hkind with ⟨_, _, _, _, h⟩ | ⟨hssh, _⟩
      · simp only [mydocker.Image.GetDefault, g, hp, Except.ok.injEq] at h
        exact h.symm
      · rw [hweb] at hssh
        exact absurd hssh (by decide)
    · intro hl d hd
      have g := Get_of_labelIs lib raw _ _ hl
      simp [hsess, mydocker.Image.GetDurationDefault, g, hd]
    · intro hl d hd
      have g := Get_of_labelIs lib raw _ _ hl
      simp [hinact, mydocker.Image.GetDurationDefault, g, hd]

theorem labelIs_of_find (lib : Library) (raw : mydocker.Image) (key k val : String)
    (hmem : (k, val) ∈ raw.Config.Labels)
    (hk : mydocker.Normalise lib k = mydocker.Normalise lib key)
    (hall : (raw.Config.Labels.filter
      (fun kv => decide (mydocker.Normalise lib kv.1 = mydocker.Normalise lib key))).all
        (fun kv => decide (kv.2 = val)) = true) :
    labelIs lib raw key val := by
  refine ⟨⟨k, hmem, hk⟩, ?_⟩
  intro k2 v2 hmem2 hk2
  rw [List.all_eq_true] at hall
  have := hall (k2, v2) (List.mem_filter.mpr ⟨hmem2, by simpa using hk2⟩)
  simpa using this

theorem labelAbsent_of_all (lib : Library) (raw : mydocker.Image) (key : String)
    (hall : raw.Config.Labels.all
      (fun kv => decide (mydocker.Normalise lib kv.1 ≠ mydocker.Normalise lib key)) = true) :
    labelAbsent lib raw key := by
  intro k v hmem
  rw [List.all_eq_true] at hall
  simpa using hall (k, v) hmem

/-- Claim C15, on two images. The image of kind web that has only a name and
a kind gets the defaults; and for the image of kind web that sets all six
optional labels with keys in mixed case and blanks around the values,
`NewImage` returns an image whose fields are the parsed values. -/
theorem C15_label_defaults_witness :
    (∃ oi cfg,
      NewImage asciiLibrary (mydocker.wrapImage asciiLibrary (webTaskImage "sha256:aaaa"))
        = .ok (oi, cfg) ∧
      oi.ConcurrentUsers = -1 ∧ oi.TotalUsers = -1 ∧
      oi.PersistBetweenReconnects = true ∧ oi.Port = 80 ∧
      oi.TimeoutsTotal = 24 * 3600 * 1000000000 ∧
      oi.TimeoutsInactive = 15 * 60 * 1000000000) ∧
    ∃ oi cfg,
      NewImage asciiLibrary (mydocker.wrapImage asciiLibrary tunedWebImage) = .ok (oi, cfg) ∧
      oi.ConcurrentUsers = 5 ∧ oi.TotalUsers = 40 ∧ oi.PersistBetweenReconnects = false ∧
      oi.Port = 8080 ∧ oi.TimeoutsTotal = 7200000000000 ∧
      oi.TimeoutsInactive = 1800000000000 :=
  ⟨((C15_label_defaults asciiLibrary (webTaskImage "sha256:aaaa")).1 "task" "web" rfl
      (labelIs_of_find _ _ _ "orca.kind" _ (by decide) (by decide) (by decide))
      (labelAbsent_of_all _ _ _ (by decide)) (labelAbsent_of_all _ _ _ (by decide))
      (labelAbsent_of_all _ _ _ (by decide)) (labelAbsent_of_all _ _ _ (by decide))
      (labelAbsent_of_all _ _ _ (by decide))).1 (by decide)
      (labelAbsent_of_all _ _ _ (by decide)) 80 rfl,
   _, _, rfl,
    ((C15_label_defaults asciiLibrary tunedWebImage).2 _ _ rfl " 5 ").1
      (labelIs_of_find _ _ _ "Orca.Users.Concurrent" _ (by decide) (by decide) (by decide))
      5 (by decide),
    ((C15_label_defaults asciiLibrary tunedWebImage).2 _ _ rfl "\t40").2.1
      (labelIs_of_find _ _ _ "ORCA.USERS.TOTAL" _ (by decide) (by decide) (by decide))
      40 (by decide),
    ((C15_label_defaults asciiLibrary tunedWebImage).2 _ _ rfl " FALSE ").2.2.1
      (labelIs_of_find _ _ _ "orca.container.PersistBetweenReconnects" _
        (by decide) (by decide) (by decide))
      false (by decide),
    ((C15_label_defaults asciiLibrary tunedWebImage).2 _ _ rfl " 8080 ").2.2.2.1
      (labelIs_of_find _ _ _ "Orca.Port" _ (by decide) (by decide) (by decide))
      rfl 8080 rfl,
    ((C15_label_defaults asciiLibrary tunedWebImage).2 _ _ rfl " 2H ").2.2.2.2.1
      (labelIs_of_find _ _ _ "orca.timeout.SESSION" _ (by decide) (by decide) (by decide))
      7200000000000 (by decide),
    ((C15_label_defaults asciiLibrary tunedWebImage).2 _ _ rfl "30M").2.2.2.2.2
      (labelIs_of_find _ _ _ " orca.timeout.inactive " _ (by decide) (by decide) (by decide))
      1800000000000 (by decide)⟩

/-! ## Theorems: the loop of `manageContainerState`, event by event -/

/-- Claim C22. Effect of a candidacy response in the loop of
`manageContainerState`, in every state of the loop. Receiving a user on
`candidacyResponce` adds 1 to `concurrentUsers` and to `totalUsers`, takes 1
from `reservedUsers` and puts the user into `users`, whose other members stay;
receiving nil takes 1 from `reservedUsers` and leaves `concurrentUsers`,
`totalUsers` and `users` as they are. In an iteration of the loop, whatever
case fires, `reservedUsers` goes down only when the case is a candidacy
response, and `totalUsers` never goes down. -/
theorem C22_candidacy_response_effect (s : LifecycleState) :
    (∀ u, ∃ s',
      manageContainerStateSelect s (.candidacyResponce (some u)) = some (.running s') ∧
      s'.oc.concurrentUsers = s.oc.concurrentUsers + 1 ∧
      s'.oc.totalUsers = s.oc.totalUsers + 1 ∧
      s'.oc.reservedUsers = s.oc.reservedUsers - 1 ∧
      ∀ v, v ∈ s'.oc.users ↔ v = u ∨ v ∈ s.oc.users) ∧
    (∃ s',
      manageContainerStateSelect s (.candidacyResponce none) = some (.running s') ∧
      s'.oc.reservedUsers = s.oc.reservedUsers - 1 ∧
      s'.oc.concurrentUsers = s.oc.concurrentUsers ∧
      s'.oc.totalUsers = s.oc.totalUsers ∧
      s'.oc.users = s.oc.users) ∧
    (∀ IsShuttingDown ev st,
      manageContainerStateIteration IsShuttingDown ev s = some st →
        (st.state.oc.reservedUsers < s.oc.reservedUsers → ∃ ui, ev = .candidacyResponce ui) ∧
        s.oc.totalUsers ≤ st.state.oc.totalUsers) := by
  refine ⟨?_, ?_, ?_⟩
  · intro u
    exact ⟨_, rfl, rfl, rfl, rfl, by intro v; simp [List.mem_insert_iff]⟩
  · exact ⟨_, rfl, rfl, rfl, rfl, rfl⟩
  · intro sd ev st h
    have htop : ∀ t, manageContainerStateTop sd s = t → t.state.oc = s.oc := by
      intro t ht
      subst ht
      unfold manageContainerStateTop
      simp only
      split_ifs <;> (try split) <;> rfl
    unfold manageContainerStateIteration at h
    cases htp : manageContainerStateTop sd s with
    | running s1 =>
      have hoc : s1.oc = s.oc := by simpa [Lifecycle.state, htp] using htop _ htp
      rw [htp] at h
      simp only at h
      rw [← hoc]
      cases ev <;> simp only [manageContainerStateSelect] at h
      · split at h
        · cases h; simp [Lifecycle.state]
        · cases h
      · split at h
        · split at h <;> (cases h; simp [Lifecycle.state])
        · cases h
      · split at h
        · cases h; simp [Lifecycle.state]
        · cases h
      · split at h
        · cases h; simp [Lifecycle.state]
        · cases h
      · rename_i ui
        cases ui <;> (cases h; simp [Lifecycle.state])
      · cases h; simp [Lifecycle.state]
      · cases h; simp [Lifecycle.state]
      · split at h
        · cases h; simp [Lifecycle.state]
        · cases h
    | returned s1 =>
      have hoc : s1.oc = s.oc := by simpa [Lifecycle.state, htp] using htop _ htp
      rw [htp] at h
      cases h
      simp [Lifecycle.state, hoc]
    | stuck s1 =>
      have hoc : s1.oc = s.oc := by simpa [Lifecycle.state, htp] using htop _ htp
      rw [htp] at h
      cases h
      simp [Lifecycle.state, hoc]

/-- Claim C22 on the container `launchContainer` returns, as its loop starts:
the user 7 arrives on `candidacyResponce`. -/
theorem C22_candidacy_response_effect_witness :
    ∃ s',
      manageContainerStateSelect (manageContainerStateInit (launchContainer (webImage 2 (-1)) 1))
        (.candidacyResponce (some 7)) = some (.running s') ∧
      s'.oc.concurrentUsers = 0 + 1 ∧ s'.oc.totalUsers = 0 + 1 ∧ s'.oc.reservedUsers = 1 - 1 ∧
      ∀ v, v ∈ s'.oc.users ↔ v = 7 ∨ v ∈ ([] : List User) :=
  (C22_candidacy_response_effect
    (manageContainerStateInit (launchContainer (webImage 2 (-1)) 1))).1 7
/-- The admission test the code makes when an election-start signal fires: the
container starts asking for the candidates channel exactly when it is not
end-of-life and `reservedUsers + concurrentUsers` differs from
`Image.ConcurrentUsers`; otherwise `getCandidatesChan` stays as it was. -/
theorem electionStartSignalActivated_admission (s : LifecycleState) (signal : Nat)
    (h : s.electionStartSignal = some signal) :
    ∃ s', manageContainerStateSelect s .electionStartSignalActivated = some (.running s') ∧
      (s.isEndOfLife = false ∧
          s.oc.reservedUsers + s.oc.concurrentUsers ≠ s.oc.Image.ConcurrentUsers →
        s'.getCandidatesChan = true) ∧
      (¬(s.isEndOfLife = false ∧
          s.oc.reservedUsers + s.oc.concurrentUsers ≠ s.oc.Image.ConcurrentUsers) →
        s'.getCandidatesChan = s.getCandidatesChan) := by
  by_cases hc : s.isEndOfLife = false ∧
      s.oc.reservedUsers + s.oc.concurrentUsers ≠ s.oc.Image.ConcurrentUsers
  · refine ⟨{ s with
        electionStartSignal := none, electionsStartSignalC := true, getCandidatesChan := true },
      ?_, fun _ => rfl, fun hn => absurd hc hn⟩
    simp only [manageContainerStateSelect, h, Option.isSome_some, if_true]
    rw [if_pos ⟨by simp [hc.1], hc.2⟩]
  · refine ⟨{ s with electionStartSignal := none, electionsStartSignalC := true },
      ?_, fun hp => absurd hp hc, fun _ => rfl⟩
    simp only [manageContainerStateSelect, h, Option.isSome_some, if_true]
    rw [if_neg (fun hh => hc ⟨by simpa using hh.1, hh.2⟩)]

/-- C23 (code evaluated at the failing input): image with `ConcurrentUsers = 2`
and unbounded `TotalUsers`, container freshly launched. After the interleaving
of claim C1 the container is not end-of-life, asks for no candidates channel and
has `reservedUsers + concurrentUsers = 3`, above the bound 2 of the image. It
holds the start signal of the third election, which is closed; when it finds it
closed it starts asking for the candidates channel again, since 3 differs from
2, although 3 is not below 2 and the bound is not -1. -/
theorem C23_admits_above_bound :
    ∃ sys1 sys2,
      systemRun (systemInit (webImage 2 (-1)) 1)
        [.signalHandout, .electionRequest, .deadline, .signalSeen, .signalHandout,
          .nextRequester, .electionRequest, .candidatesHandout, .signalSeen, .candidacy,
          .deadline, .signalHandout,
          .nextRequester, .electionRequest, .candidatesHandout, .candidacy] = some sys1 ∧
      sys1.container.isEndOfLife = false ∧
      sys1.container.oc.totalUsers ≠ sys1.container.oc.Image.TotalUsers ∧
      sys1.container.oc.Image.ConcurrentUsers = 2 ∧
      sys1.container.oc.reservedUsers + sys1.container.oc.concurrentUsers = 3 ∧
      sys1.container.getCandidatesChan = false ∧
      systemRun sys1 [.signalSeen] = some sys2 ∧
      sys2.container.isEndOfLife = false ∧
      sys2.container.oc.reservedUsers + sys2.container.oc.concurrentUsers = 3 ∧
      sys2.container.getCandidatesChan = true :=
  ⟨_, _, rfl, rfl, by decide, rfl, rfl, rfl, rfl, rfl, rfl, rfl⟩
/-- What the statements before the `select` decide, in every state: the loop
exits exactly when the container is idle and is end-of-life or the server is
shutting down; an idle container that stays gets a deletion timer unless its
timer has already been received; and with `concurrentUsers != 0` no timer is
pending afterwards, the loop going on unless its timer has already been
received, in which case it waits for ever. -/
theorem manageContainerStateTop_decision (IsShuttingDown : Bool) (s : LifecycleState) :
    ((∃ s', manageContainerStateTop IsShuttingDown s = .returned s') ↔
      (s.oc.concurrentUsers = 0 ∧ s.oc.reservedUsers = 0 ∧
        ((s.isEndOfLife || decide (s.oc.totalUsers = s.oc.Image.TotalUsers)) = true ∨
          IsShuttingDown = true))) ∧
    (s.oc.concurrentUsers = 0 → s.oc.reservedUsers = 0 →
      (s.isEndOfLife || decide (s.oc.totalUsers = s.oc.Image.TotalUsers)) = false →
      IsShuttingDown = false → s.deletionTimer ≠ .consumed →
      ∃ s', manageContainerStateTop IsShuttingDown s = .running s' ∧
        s'.deletionTimer = .pending) ∧
    (s.oc.concurrentUsers ≠ 0 →
      (manageContainerStateTop IsShuttingDown s).state.deletionTimer ≠ .pending ∧
      ((∃ s', manageContainerStateTop IsShuttingDown s = .stuck s') ↔
        s.deletionTimer = .consumed)) := by
  obtain ⟨oc, timer, eol, cand, a, b, c, d⟩ := s
  refine ⟨?_, ?_, ?_⟩
  · simp only [manageContainerStateTop]
    by_cases hidle : oc.concurrentUsers = 0 ∧ oc.reservedUsers = 0
    · rw [if_pos hidle]
      by_cases hx : ((eol || decide (oc.totalUsers = oc.Image.TotalUsers)) || IsShuttingDown) = true
      · rw [if_pos hx]
        simp only [Lifecycle.returned.injEq, exists_eq', true_iff]
        exact ⟨hidle.1, hidle.2, by simpa using hx⟩
      · rw [if_neg hx]
        constructor
        · rintro ⟨s', h⟩
          cases timer <;> cases h
        · rintro ⟨_, _, h⟩
          exact absurd (by simpa using h) hx
    · rw [if_neg hidle]
      constructor
      · rintro ⟨s', h⟩
        split at h
        · cases timer <;> cases h
        · cases h
      · rintro ⟨h1, h2, _⟩
        exact absurd ⟨h1, h2⟩ hidle
  · intro h1 h2 h3 h4 h5
    simp only at h1 h2 h3 h5
    subst h4
    simp only [manageContainerStateTop, h1, h2, h3]
    cases timer
    · exact ⟨_, rfl, rfl⟩
    · exact ⟨_, rfl, rfl⟩
    · exact absurd rfl h5
  · intro h1
    simp only at h1
    have hidle : ¬(oc.concurrentUsers = 0 ∧ oc.reservedUsers = 0) := fun h => h1 h.1
    simp only [manageContainerStateTop]
    rw [if_neg hidle, if_pos h1]
    cases timer <;> simp [Lifecycle.state]

theorem timerConsumed_iteration (sd : Bool) (ev : LifecycleEvent) (s : LifecycleState)
    (st : Lifecycle)
    (hinv : s.deletionTimer = .consumed → s.isEndOfLife = true)
    (h : manageContainerStateIteration sd ev s = some st) :
    st.state.deletionTimer = .consumed → st.state.isEndOfLife = true := by
  obtain ⟨oc, timer, eol, cand, a, b, c, d⟩ := s
  simp only at hinv
  have htop : ∀ t, manageContainerStateTop sd ⟨oc, timer, eol, cand, a, b, c, d⟩ = t →
      (t.state.deletionTimer = .consumed → t.state.isEndOfLife = true) := by
    intro t ht
    subst ht
    unfold manageContainerStateTop
    simp only
    cases timer <;> split_ifs <;> simp_all [Lifecycle.state]
  unfold manageContainerStateIteration at h
  cases htp : manageContainerStateTop sd ⟨oc, timer, eol, cand, a, b, c, d⟩ with
  | running s1 =>
    have h1 : s1.deletionTimer = .consumed → s1.isEndOfLife = true := by
      simpa [Lifecycle.state, htp] using htop _ htp
    rw [htp] at h
    simp only at h
    obtain ⟨oc1, timer1, eol1, cand1, a1, b1, c1, d1⟩ := s1
    simp only at h1
    cases ev <;> simp only [manageContainerStateSelect] at h <;>
      (try split at h) <;> (try split at h) <;> (try cases h) <;>
      simp_all [Lifecycle.state]
  | returned s1 =>
    have h1 := htop _ htp
    rw [htp] at h
    cases h
    exact h1
  | stuck s1 =>
    have h1 := htop _ htp
    rw [htp] at h
    cases h
    exact h1

theorem timerConsumed_run (its : List (Bool × LifecycleEvent)) :
    ∀ st st' : Lifecycle,
      (st.state.deletionTimer = .consumed → st.state.isEndOfLife = true) →
      manageContainerStateRun st its = some st' →
      (st'.state.deletionTimer = .consumed → st'.state.isEndOfLife = true) := by
  induction its with
  | nil =>
    intro st st' hinv h
    have : st' = st := by
      cases st <;> (simp only [manageContainerStateRun] at h; cases h; rfl)
    subst this
    exact hinv
  | cons it its ih =>
    intro st st' hinv h
    obtain ⟨sd, ev⟩ := it
    cases st with
    | returned s => simp [manageContainerStateRun] at h
    | stuck s => simp [manageContainerStateRun] at h
    | running s =>
      simp only [manageContainerStateRun] at h
      split at h
      · cases h
      · rename_i st1 hstep
        exact ih st1 st' (timerConsumed_iteration sd ev s st1 hinv hstep) h

/-- Claim C24. The idle-deletion decision at the top of an iteration of the
loop of `manageContainerState`, in every state `s` the loop reaches from its
start, whatever `jc.IsShuttingDown()` answers; the container is end-of-life
when `isEndOfLife` is set or `totalUsers == Image.TotalUsers`. The loop exits
exactly when `concurrentUsers == 0`, `reservedUsers == 0` and the container is
end-of-life or the server is shutting down. When the container is idle and the
loop does not exit, it goes on to its `select` with a deletion timer pending,
and a timer that was pending already is kept: nothing has changed. When
`concurrentUsers != 0`, no deletion timer is pending afterwards; the loop then
goes on to its `select`, except when the expiry of its timer has been received
before, in which case it waits in `<-deletionTimer.C`. -/
theorem C24_idle_deletion_decision (oc : Container) (its : List (Bool × LifecycleEvent))
    (s : LifecycleState) (IsShuttingDown : Bool)
    (hrun : manageContainerStateRun (.running (manageContainerStateInit oc)) its
      = some (.running s)) :
    ((∃ s', manageContainerStateTop IsShuttingDown s = .returned s') ↔
      (s.oc.concurrentUsers = 0 ∧ s.oc.reservedUsers = 0 ∧
        ((s.isEndOfLife || decide (s.oc.totalUsers = s.oc.Image.TotalUsers)) = true ∨
          IsShuttingDown = true))) ∧
    (s.oc.concurrentUsers = 0 → s.oc.reservedUsers = 0 →
      ¬((s.isEndOfLife || decide (s.oc.totalUsers = s.oc.Image.TotalUsers)) = true ∨
          IsShuttingDown = true) →
      ∃ s', manageContainerStateTop IsShuttingDown s = .running s' ∧
        s'.deletionTimer = .pending ∧ (s.deletionTimer = .pending → s' = s)) ∧
    (s.oc.concurrentUsers ≠ 0 →
      (manageContainerStateTop IsShuttingDown s).state.deletionTimer ≠ .pending ∧
      ((∃ s', manageContainerStateTop IsShuttingDown s = .running s') ↔
        s.deletionTimer ≠ .consumed) ∧
      ((∃ s', manageContainerStateTop IsShuttingDown s = .stuck s') ↔
        s.deletionTimer = .consumed)) := by
  have hinv : s.deletionTimer = .consumed → s.isEndOfLife = true :=
    timerConsumed_run its (.running (manageContainerStateInit oc)) (.running s)
      (by simp [Lifecycle.state, manageContainerStateInit]) hrun
  obtain ⟨h1, _, h3⟩ := manageContainerStateTop_decision IsShuttingDown s
  refine ⟨h1, ?_, ?_⟩
  · intro hc hr hstay
    obtain ⟨oc, timer, eol, cand, a, b, c, d⟩ := s
    simp only at hc hr hstay hinv
    have he : eol = false := by
      cases eol
      · rfl
      · exact absurd (Or.inl (by simp)) hstay
    have ht : (decide (oc.totalUsers = oc.Image.TotalUsers)) = false := by
      by_contra hcon
      exact hstay (Or.inl (by simp_all))
    have hsd : IsShuttingDown = false := by
      cases IsShuttingDown
      · rfl
      · exact absurd (Or.inr rfl) hstay
    subst he hsd
    simp only [manageContainerStateTop, hc, hr, ht]
    cases timer
    · exact ⟨_, rfl, rfl, fun h => by cases h⟩
    · exact ⟨_, rfl, rfl, fun _ => rfl⟩
    · exact absurd (hinv rfl) (by simp)
  · intro hc
    obtain ⟨h31, h32⟩ := h3 hc
    refine ⟨h31, ?_, h32⟩
    obtain ⟨oc, timer, eol, cand, a, b, c, d⟩ := s
    simp only at hc
    have hidle : ¬(oc.concurrentUsers = 0 ∧ oc.reservedUsers = 0) := fun h => hc h.1
    simp only [manageContainerStateTop]
    rw [if_neg hidle, if_pos hc]
    cases timer <;> simp

/-- Claim C24 on the container `launchContainer` returns, after the user it
was made for has been bound and has left: the container is idle, the loop does
not exit and starts the deletion timer. -/
theorem C24_idle_deletion_decision_witness :
    manageContainerStateRun
        (.running (manageContainerStateInit (launchContainer (webImage 2 (-1)) 1)))
        [(false, .candidacyResponce (some 7)), (false, .userLeft 7)]
      = some (.running idleAfterOneUser) ∧
    idleAfterOneUser.oc.concurrentUsers = 0 ∧ idleAfterOneUser.oc.reservedUsers = 0 ∧
    ∃ s', manageContainerStateTop false idleAfterOneUser = .running s' ∧
      s'.deletionTimer = .pending ∧
      (idleAfterOneUser.deletionTimer = .pending → s' = idleAfterOneUser) :=
  ⟨rfl, rfl, rfl,
    (C24_idle_deletion_decision (launchContainer (webImage 2 (-1)) 1)
      [(false, .candidacyResponce (some 7)), (false, .userLeft 7)] idleAfterOneUser false
      rfl).2.1 rfl rfl (by decide)⟩

/-- A state the loop reaches in which its top never ends. Image with
`ConcurrentUsers = 2` and unbounded `TotalUsers`, container freshly launched,
server not shutting down. The user it was made for is bound and leaves, so the
container is idle and the top of the loop starts the deletion timer. An
election begins; the container is admitted and sends its candidacy
(`reservedUsers = 1`). The deletion timer fires and the loop receives its
expiry. The requester chooses the container and a second user is bound:
`concurrentUsers = 1` with the deletion timer still held. At the top of the
next iteration `Stop()` answers false and the loop waits in `<-deletionTimer.C`
for an expiry it has already received: it neither exits nor reaches its
`select`, whatever case is ready. -/
theorem manageContainerStateTop_blocks_reachable :
    ∃ sys,
      systemRun (systemInit (webImage 2 (-1)) 1)
        [.response (some 7), .userLeft 7, .signalHandout, .electionRequest, .signalSeen,
          .candidatesHandout, .candidacy, .deletionTimer, .deadline, .response (some 8)]
        = some sys ∧
      sys.container.oc.concurrentUsers = 1 ∧
      sys.container.oc.reservedUsers = 0 ∧
      sys.container.deletionTimer = .consumed ∧
      manageContainerStateTop false sys.container = .stuck sys.container ∧
      ∀ ev, manageContainerStateIteration false ev sys.container = some (.stuck sys.container) :=
  ⟨_, rfl, rfl, rfl, rfl, rfl, fun _ => rfl⟩
/-- C26 (code evaluated at the failing input): image with `ConcurrentUsers = 2`
and unbounded `TotalUsers`, container freshly launched. The user it was made
for is bound (`concurrentUsers = 1`, and the candidacy record is brought up to
1) and leaves (`concurrentUsers = 0`, the record is not touched). In the next
election the container sends its candidacy: the record the requester receives
says `concurrentUsers = 1` while the container has `concurrentUsers = 0`. -/
theorem C26_candidacy_stale_after_userLeft :
    ∃ sys r,
      systemRun (systemInit (webImage 2 (-1)) 1)
        [.response (some 7), .userLeft 7, .signalHandout, .electionRequest, .signalSeen,
          .candidatesHandout, .candidacy] = some sys ∧
      sys.container.oc.concurrentUsers = 0 ∧
      sys.container.oc.totalUsers = 1 ∧
      sys.container.candidate = { container := 1, concurrentUsers := 1, totalUsers := 1 } ∧
      sys.requester = .running r ∧
      r.candidates = [{ container := 1, concurrentUsers := 1, totalUsers := 1 }] :=
  ⟨_, _, rfl, rfl, rfl, rfl, rfl, rfl⟩

/-! ## Theorems: `manageImageState` -/

theorem manageImageStateSelect_modes (s s' : SchedulerState) (ev : SchedulerEvent)
    (hmode : s.awaitsRequest ∨ ∃ c, s.electionOpen c)
    (h : manageImageStateSelect s ev = some s') :
    s'.awaitsRequest ∨ ∃ c, s'.electionOpen c := by
  cases ev <;> simp only [manageImageStateSelect] at h
  · cases h; exact hmode
  · split at h
    · cases h
      exact Or.inr ⟨_, rfl, rfl, rfl, rfl⟩
    · cases h
  · split at h
    · cases h; exact hmode
    · cases h
  · split at h
    · cases h
      exact Or.inl ⟨rfl, rfl, rfl⟩
    · cases h

theorem manageImageStateRun_modes (evs : List SchedulerEvent) :
    ∀ s s', (s.awaitsRequest ∨ ∃ c, s.electionOpen c) →
      manageImageStateRun s evs = some s' → s'.awaitsRequest ∨ ∃ c, s'.electionOpen c := by
  induction evs with
  | nil => intro s s' hm h; cases h; exact hm
  | cons ev evs ih =>
    intro s s' hm h
    simp only [manageImageStateRun] at h
    cases hsel : manageImageStateSelect s ev with
    | none => rw [hsel] at h; cases h
    | some s1 =>
      rw [hsel] at h
      exact ih s1 s' (manageImageStateSelect_modes s s1 ev hm hsel) h

/-- Claim C25. One election at a time in `manageImageState`. In every state
the loop reaches from its start, exactly one of two modes holds. In the first
the scheduler accepts an election request and neither hands out a candidates
channel nor accepts a stop; a request is then taken, it opens an election with
the requester's channel, closes the start signal that was being handed out and
puts a fresh one in its place (the number of the signal handed out goes up by
one, and the closed signals are those with a smaller number). In the second an
election is open: no election request is accepted, the candidates channel of
that election is handed out, which changes nothing, and a stop is accepted and
leads back to the first mode with the same start signal. -/
theorem C25_one_election_at_a_time (evs : List SchedulerEvent) (s : SchedulerState)
    (hrun : manageImageStateRun manageImageStateInit evs = some s) :
    (s.awaitsRequest ∨ ∃ c, s.electionOpen c) ∧
    ¬(s.awaitsRequest ∧ ∃ c, s.electionOpen c) ∧
    (s.awaitsRequest →
      manageImageStateSelect s .sentCandidatesChan = none ∧
      manageImageStateSelect s .voteStopped = none ∧
      ∀ candidatesC, ∃ s',
        manageImageStateSelect s (.gotElectionRequest candidatesC) = some s' ∧
        s'.electionOpen candidatesC ∧
        s'.nextElectionSignallingC = s.nextElectionSignallingC + 1) ∧
    (∀ c, s.electionOpen c →
      (∀ candidatesC, manageImageStateSelect s (.gotElectionRequest candidatesC) = none) ∧
      manageImageStateSelect s .sentCandidatesChan = some s ∧
      ∃ s',
        manageImageStateSelect s .voteStopped = some s' ∧ s'.awaitsRequest ∧
        s'.nextElectionSignallingC = s.nextElectionSignallingC) := by
  refine ⟨manageImageStateRun_modes evs _ s (Or.inl ⟨rfl, rfl, rfl⟩) hrun, ?_, ?_, ?_⟩
  · rintro ⟨⟨h1, _, _⟩, c, h2, _⟩
    rw [h1] at h2
    cases h2
  · rintro ⟨h1, h2, h3⟩
    refine ⟨by simp [manageImageStateSelect, h2], by simp [manageImageStateSelect, h3], ?_⟩
    intro candidatesC
    exact ⟨{ curElectionCandidatesC := some candidatesC, electionRequestChan := false,
             getCandidatesChan := true,
             nextElectionSignallingC := s.nextElectionSignallingC + 1, voteStop := true },
      by simp only [manageImageStateSelect, h1, if_true], ⟨rfl, rfl, rfl, rfl⟩, rfl⟩
  · rintro c ⟨h1, h2, h3, _⟩
    refine ⟨fun _ => by simp [manageImageStateSelect, h1], by simp [manageImageStateSelect, h2], ?_⟩
    exact ⟨{ nextElectionSignallingC := s.nextElectionSignallingC, voteStop := false,
             electionRequestChan := true, getCandidatesChan := false,
             curElectionCandidatesC := none },
      by simp only [manageImageStateSelect, h3, if_true], ⟨rfl, rfl, rfl⟩, rfl⟩

/-- Claim C25 on the run in which a requester's election with channel 4 is
taken, its candidates channel is handed out twice, the election is stopped and
the election of a second requester, with channel 5, is taken. -/
theorem C25_one_election_at_a_time_witness :
    ∃ s,
      manageImageStateRun manageImageStateInit
        [.sentElectionStartSignal, .gotElectionRequest 4, .sentCandidatesChan,
          .sentCandidatesChan, .voteStopped, .gotElectionRequest 5] = some s ∧
      s.electionOpen 5 ∧ s.nextElectionSignallingC = 2 ∧
      (s.awaitsRequest ∨ ∃ c, s.electionOpen c) ∧
      ¬(s.awaitsRequest ∧ ∃ c, s.electionOpen c) :=
  ⟨_, rfl, ⟨rfl, rfl, rfl, rfl⟩, rfl,
    (C25_one_election_at_a_time
      [.sentElectionStartSignal, .gotElectionRequest 4, .sentCandidatesChan,
        .sentCandidatesChan, .voteStopped, .gotElectionRequest 5] _ rfl).1,
    (C25_one_election_at_a_time
      [.sentElectionStartSignal, .gotElectionRequest 4, .sentCandidatesChan,
        .sentCandidatesChan, .voteStopped, .gotElectionRequest 5] _ rfl).2.1⟩
/-! ## Theorems: a terminal status of `manageContainerUserState`; `deleteContainerUser` -/

/-- C27 (code evaluated at the failing input): a `ContainerUser` of an image
that persists between reconnects gets its container, hands it to one
connection, and the container exits with code 0: the status is the terminal
`Shutdown` with no error, and that is what a receiver on `ShutdownDone` is
sent. The connection is not closed yet when the inactivity timer, which nothing
has stopped, fires: the status becomes `ShutdownInactivity` with
`InactivityTimeoutErr`, and that is what the next receiver on `ShutdownDone` is
sent. -/
theorem C27_timer_changes_terminal_status :
    ∃ s1 s2,
      manageContainerUserStateRun (.running (manageContainerUserStateInit 7 (webImage 2 (-1))))
        [.gotContainer 1, .containerSent, .gotExecResult { Error := none, StatusCode := 0 },
          .shutdownStatusSent] = some (.running s1) ∧
      s1.status = { ContainerState := .ContainerStateShutdown, Err := none, Status := 0 } ∧
      s1.status.ContainerState.isTerminal = true ∧
      (manageContainerUserStateTop s1).containerShutdownDest = true ∧
      manageContainerUserStateRun (.running s1) [.inactiveTimerFired, .shutdownStatusSent]
        = some (.running s2) ∧
      s2.status = { ContainerState := .ContainerStateShutdownInactivity
                    Err := some InactivityTimeoutErr, Status := 0 } ∧
      s2.status ≠ s1.status :=
  ⟨_, _, rfl, rfl, rfl, rfl, rfl, rfl, by decide⟩

/-- Claim C29. Stale deregistration is harmless: for every table of an image,
`deleteContainerUser(cu)` removes the entry under the id of the user of `cu` and
notifies `cu` when that entry is `cu` itself, every other entry staying; when
the table holds another instance under that id, or none, the table is left as
it is and `cu` is not notified. So the entry is removed exactly when it is `cu`. -/
theorem C29_deleteContainerUser (containerUsersByUID : User → Option ContainerUserRef)
    (cu : ContainerUserRef) (user : User) :
    (containerUsersByUID user = some cu →
      (deleteContainerUser containerUsersByUID cu user).1 user = none ∧
      (∀ u, u ≠ user →
        (deleteContainerUser containerUsersByUID cu user).1 u = containerUsersByUID u) ∧
      (deleteContainerUser containerUsersByUID cu user).2 = true) ∧
    (containerUsersByUID user ≠ some cu →
      deleteContainerUser containerUsersByUID cu user = (containerUsersByUID, false)) ∧
    ((deleteContainerUser containerUsersByUID cu user).1 user ≠ containerUsersByUID user
      ↔ containerUsersByUID user = some cu) := by
  by_cases h : containerUsersByUID user = some cu
  · refine ⟨fun _ => ⟨by simp [deleteContainerUser, h], ?_, by simp [deleteContainerUser, h]⟩,
      fun hn => absurd h hn, ?_⟩
    · intro u hu
      simp [deleteContainerUser, h, hu]
    · simp [deleteContainerUser, h]
  · refine ⟨fun hp => absurd hp h, fun _ => by simp [deleteContainerUser, h], ?_⟩
    simp [deleteContainerUser, h]

end orca
end Orca
